import Mathlib

/-!
# ZMQ publish notifiers: frame codec, sequence counter and wire shapes

A shallow embedding of `src/zmq/zmqpublishnotifier.cpp` and
`src/zmq/zmqabstractnotifier.h`.

* Bytes (`unsigned char`, `std::byte`) are `Fin 256`.
* `uint32_t` and `uint64_t` values are `Nat`, reduced `% 2 ^ w` where the code
  can overflow; `int64_t` and `int32_t` values are `Int`.
* A pointer to a buffer is the list of bytes stored from that address on, a
  pointer that the code tests against `nullptr` is an `Option` of it;
  `memcpy (buf, data, size)` reads `data.take size`.
* The libzmq library is a state `Zmq`: the list of library calls issued so
  far, and an oracle `ok` telling for the n-th call whether it succeeds.
* `assert` failures and undefined behaviour are `none`.
-/

namespace ZmqPublish

/-! ## Bytes, buffers and domain objects -/

/-- One `unsigned char` / `std::byte`. -/
abbrev Byte := Fin 256

/-- The conversion of an unsigned integer to a byte (`(unsigned char) n`). -/
def byteOfNat (n : Nat) : Byte := ⟨n % 256, Nat.mod_lt n (by decide)⟩

/-- The conversion of a signed integer to a byte (`(std::byte) x`): the value
modulo 256. -/
def byteOfInt (x : Int) : Byte := ⟨(x % 256).toNat, by omega⟩

/-- `typedef std::vector<unsigned char> zmq_message_part`. -/
abbrev zmq_message_part := List Byte

/-- `typedef std::vector<zmq_message_part> zmq_message`. -/
abbrev zmq_message := List zmq_message_part

/-- A `uint256`: 32 bytes of internal storage, `bytes[i]` being
`hash.begin()[i]`. -/
structure uint256 where
  bytes : List Byte
  size_eq : bytes.length = 32

/-- The byte `hash.begin()[i]`. -/
def uint256.get (hash : uint256) (i : Nat) : Byte := hash.bytes.getD i 0

/-- Reading 32 bytes back as a `uint256` (any other length is not a hash). -/
def uint256.ofBytes (p : List Byte) : Option uint256 :=
  if h : p.length = 32 then some ⟨p, h⟩ else none

/-- A `CTransaction`, seen through the two external operations the notifiers
apply to it: `GetHash ()` and the stream serialization `ss << transaction`
(network format, current RPC serialization flags). -/
structure CTransaction where
  GetHash : uint256
  serialized : List Byte

/-- A `CBlockIndex`, seen through `GetBlockHash ()`. -/
structure CBlockIndex where
  GetBlockHash : uint256

/-! ## Frame codec -/

/-- The loop `for (int i = 31; i >= 0; i--) part_hash.push_back (hash.begin()[i])`;
the counter argument is `i + 1`, the number of iterations left. -/
def hashToZMQMessagePart.loop (hash : uint256) : Nat → zmq_message_part → zmq_message_part
  | 0, part_hash => part_hash
  | i + 1, part_hash => hashToZMQMessagePart.loop hash i (part_hash ++ [hash.get i])

/-- Converts an uint256 hash into a zmq_message_part (hash is reversed). -/
def hashToZMQMessagePart (hash : uint256) : zmq_message_part :=
  hashToZMQMessagePart.loop hash 32 []

/-- The loop `for (size_t i = 0; i < sizeof (int64_t); i++)
part.push_back ((std::byte) (value >> i*8))`, with `n` iterations left. The
shift `>>` of a negative `int64_t` is the arithmetic shift (`Int.shiftRight`,
the floor of the division by a power of two). -/
def int64ToZMQMessagePart.loop (value : Int) : Nat → Nat → zmq_message_part → zmq_message_part
  | 0, _, part => part
  | n + 1, i, part =>
    int64ToZMQMessagePart.loop value n (i + 1) (part ++ [byteOfInt (value >>> (i * 8))])

/-- Converts an int64_t into a zmq_message_part. -/
def int64ToZMQMessagePart (value : Int) : zmq_message_part :=
  int64ToZMQMessagePart.loop value 8 0 []

/-- Converts a uint32_t to an int32_t argument (two's complement). -/
def int32_of_uint32 (n : Nat) : Int :=
  if n % 2 ^ 32 < 2 ^ 31 then (n % 2 ^ 32 : Nat) else (n % 2 ^ 32 : Nat) - 2 ^ 32

/-- Modelled from the spec: `int32ToZMQMessagePart` is called by
`SendZmqMessage` and `NotifyTransactionRemovalReason` but its definition is not
in the source files. Spec 4.1: "`int64_part(v)` / `int32_part(v)`: little-endian
fixed-width encoding of a signed integer amount or enum ordinal", so it is the
sibling of `int64ToZMQMessagePart` with `sizeof (int32_t) = 4` iterations. -/
def int32ToZMQMessagePart (value : Int) : zmq_message_part :=
  int64ToZMQMessagePart.loop value 4 0 []

/-- Modelled from the spec: `WriteLE32` comes from `crypto/common.h`, which is
not in the source files. Spec 4.3: "a trailing 4-byte little-endian sequence
number part". The four bytes stored for the `uint32_t` value `x`. -/
def WriteLE32 (x : Nat) : List Byte :=
  [byteOfNat x, byteOfNat (x / 2 ^ 8), byteOfNat (x / 2 ^ 16), byteOfNat (x / 2 ^ 24)]

/-- Modelled from the spec: `WriteLE64` comes from `crypto/common.h`, which is
not in the source files. Spec 4.4: "(LE64 mempool-sequence)?[8]". The eight
bytes stored for the `uint64_t` value `x`. -/
def WriteLE64 (x : Nat) : List Byte :=
  [byteOfNat x, byteOfNat (x / 2 ^ 8), byteOfNat (x / 2 ^ 16), byteOfNat (x / 2 ^ 24),
   byteOfNat (x / 2 ^ 32), byteOfNat (x / 2 ^ 40), byteOfNat (x / 2 ^ 48), byteOfNat (x / 2 ^ 56)]

/-- Returns the current time in milliseconds as zmq_message_part; `now` is
the reading of the external clock `GetTimeMillis ()`. -/
def getCurrentTimeMillis (now : Int) : zmq_message_part :=
  int64ToZMQMessagePart now

/-! ## C strings and local arrays -/

/-- The bytes of an ASCII string. -/
def ascii (s : String) : List Byte := s.toList.map (fun c => byteOfNat c.toNat)

/-- The memory of a C string literal: its characters and the terminating NUL. -/
def cstr (s : String) : List Byte := ascii s ++ [0]

/-- The C library `strlen`: the number of bytes before the first NUL. -/
def strlen (s : List Byte) : Nat := (s.takeWhile (fun b => b != 0)).length

/-- The `std::string (const char*)` constructor: the characters before the
first NUL. -/
def std_string (s : List Byte) : List Byte := s.take (strlen s)

/-- A local array `unsigned char data[n]` as declared: `n` bytes of
indeterminate content. -/
structure Buffer (n : Nat) where
  bytes : List Byte
  size_eq : bytes.length = n

/-- Stores `src` at `data + off`. -/
def storeAt (data : List Byte) (off : Nat) (src : List Byte) : List Byte :=
  data.take off ++ src ++ data.drop (off + src.length)

/-- The loop `for (unsigned int i = 0; i < 32; i++) data[31 - i] = hash.begin()[i]`
of `NotifyBlock`, `NotifyTransaction` and `SendSequenceMsg`, with `n`
iterations left. -/
def reverseHashInto.loop (hash : uint256) : Nat → Nat → List Byte → List Byte
  | 0, _, data => data
  | n + 1, i, data => reverseHashInto.loop hash n (i + 1) (data.set (31 - i) (hash.get i))

/-- The whole loop, started at `i = 0`. -/
def reverseHashInto (hash : uint256) (data : List Byte) : List Byte :=
  reverseHashInto.loop hash 32 0 data

/-! ## The libzmq library -/

/-- `ZMQ_SNDMORE` of `zmq.h`. -/
def ZMQ_SNDMORE : Nat := 2

/-- A call into libzmq. Sockets are handles, `0` being the null pointer. -/
inductive ZmqCall where
  | zmq_socket (context : Nat) (type : Nat)
  | zmq_setsockopt (sock : Nat) (option : Nat) (value : Int)
  | zmq_bind (sock : Nat) (addr : String)
  | zmq_close (sock : Nat)
  | zmq_msg_init_size (size : Nat)
  | zmq_msg_send (sock : Nat) (data : List Byte) (flags : Nat)
  deriving DecidableEq, Repr

/-- The library as the notifiers see it: the calls issued so far (oldest
first) and, for the n-th call, whether it succeeds. `zmq_msg_data`, `memcpy`
and `zmq_msg_close` act on the local `zmq_msg_t` only and are not recorded. -/
structure Zmq where
  calls : List ZmqCall
  ok : Nat → Bool

/-- Issue one call: the oracle's answer and the library with the call
recorded. -/
def Zmq.call (w : Zmq) (c : ZmqCall) : Bool × Zmq :=
  (w.ok w.calls.length, { w with calls := w.calls ++ [c] })

/-- One message part handed to `zmq_msg_send`. -/
structure Frame where
  sock : Nat
  data : List Byte
  flags : Nat
  deriving DecidableEq, Repr

/-- The `zmq_msg_send` calls among a list of calls, in order. -/
def framesOf (cs : List ZmqCall) : List Frame :=
  cs.filterMap fun c =>
    match c with
    | .zmq_msg_send sock data flags => some ⟨sock, data, flags⟩
    | _ => none

/-- Every part handed to the transport so far. -/
def Zmq.frames (w : Zmq) : List Frame := framesOf w.calls

/-- One argument of a variadic call, as `va_arg` reads it: a `const void*`
(`none` for `nullptr`) or a `size_t`. -/
inductive VaArg where
  | ptr (data : Option (List Byte))
  | size (n : Nat)
  deriving DecidableEq, Repr

/-- Internal function to send multipart message (variadic). Reading past the
end of the argument list, or an argument of the other type, is undefined
behaviour, and so is a `memcpy` of more than the buffer at `data` holds: `none`. -/
def zmq_send_multipart (sock : Nat) :
    Zmq → List Byte → Nat → List VaArg → Option (Int × Zmq)
  | w, data, size, args =>
    let r1 := w.call (.zmq_msg_init_size size)
    if r1.1 = false then some (-1, r1.2)
    else if data.length < size then none
    else
      match args with
      | .ptr next :: args1 =>
        let r2 := r1.2.call
          (.zmq_msg_send sock (data.take size) (if next.isSome then ZMQ_SNDMORE else 0))
        if r2.1 = false then some (-1, r2.2)
        else
          match next with
          | none => some (0, r2.2)
          | some data1 =>
            match args1 with
            | .size size1 :: args2 => zmq_send_multipart sock r2.2 data1 size1 args2
            | _ => none
      | _ => none

/-- The loop of the `zmq_message` overload, at index `i` with `rest` the parts
`message[i]`, `message[i+1]`, ...; `size` is `message.size ()`. -/
def zmq_send_multipart_message.loop (sock size : Nat) :
    Zmq → Nat → List zmq_message_part → Int × Zmq
  | w, _, [] => (0, w)
  | w, i, part :: rest =>
    let r1 := w.call (.zmq_msg_init_size part.length)
    if r1.1 = false then (-1, r1.2)
    else
      let r2 := r1.2.call (.zmq_msg_send sock part (if i < size - 1 then ZMQ_SNDMORE else 0))
      if r2.1 = false then (-1, r2.2)
      else zmq_send_multipart_message.loop sock size r2.2 (i + 1) rest

/-- Internal function to send multipart message (`zmq_message` overload). -/
def zmq_send_multipart_message (sock : Nat) (w : Zmq) (message : zmq_message) : Int × Zmq :=
  zmq_send_multipart_message.loop sock message.length w 0 message

/-! ## The publish notifier -/

def MSG_HASHBLOCK : List Byte := cstr "hashblock"
def MSG_HASHTX : List Byte := cstr "hashtx"
def MSG_RAWBLOCK : List Byte := cstr "rawblock"
def MSG_RAWTX : List Byte := cstr "rawtx"
def MSG_SEQUENCE : List Byte := cstr "sequence"
def MSG_MEMPOOLADDED : List Byte := cstr "mempooladded"
def MSG_MEMPOOLREMOVED : List Byte := cstr "mempoolremoved"
def MSG_MEMPOOLREPLACED : List Byte := cstr "mempoolreplaced"

/-- `CZMQAbstractNotifier::DEFAULT_ZMQ_SNDHWM`. -/
def DEFAULT_ZMQ_SNDHWM : Int := 100000

/-- The fields of a `CZMQAbstractPublishNotifier` (those of
`CZMQAbstractNotifier` and `nSequence`). -/
structure CZMQAbstractPublishNotifier where
  psocket : Nat := 0
  type : String := ""
  address : String := ""
  outbound_message_high_water_mark : Int := DEFAULT_ZMQ_SNDHWM
  nSequence : Nat := 0
  deriving DecidableEq, Repr

/-- The result of a notifier method: its return value, the notifier and the
library afterwards; `none` when an `assert` fails. -/
abbrev Outcome := Option (Bool × CZMQAbstractPublishNotifier × Zmq)

/-- `SendZmqMessage (const char *command, const void* data, size_t size)`;
`data` is `none` for a null pointer. -/
def CZMQAbstractPublishNotifier.SendZmqMessage (self : CZMQAbstractPublishNotifier) (w : Zmq)
    (command : List Byte) (data : Option (List Byte)) (size : Nat) : Outcome :=
  if self.psocket = 0 then none
  else
    let msgseq := WriteLE32 self.nSequence
    match zmq_send_multipart self.psocket w command (strlen command)
        [.ptr data, .size size, .ptr (some msgseq), .size 4, .ptr none] with
    | none => none
    | some (rc, w1) =>
      if rc = -1 then some (false, self, w1)
      else some (true, { self with nSequence := (self.nSequence + 1) % 2 ^ 32 }, w1)

/-- `SendZmqMessage (const char *command, const std::vector<zmq_message_part>& payload)`;
`now` is the reading of `GetTimeMillis ()` during the call. -/
def CZMQAbstractPublishNotifier.SendZmqMessage_payload (self : CZMQAbstractPublishNotifier)
    (w : Zmq) (now : Int) (command : List Byte) (payload : List zmq_message_part) : Outcome :=
  if self.psocket = 0 then none
  else
    let commandStr := std_string command
    let part_command : zmq_message_part := commandStr.map (fun c => c)
    let part_sequence := int32ToZMQMessagePart (int32_of_uint32 self.nSequence)
    let message : zmq_message :=
      [part_command] ++ [getCurrentTimeMillis now] ++ payload ++ [part_sequence]
    let r := zmq_send_multipart_message self.psocket w message
    if r.1 = -1 then some (false, self, r.2)
    else some (true, { self with nSequence := (self.nSequence + 1) % 2 ^ 32 }, r.2)

/-- `CZMQPublishHashBlockNotifier::NotifyBlock`; `data` is the local array. -/
def CZMQPublishHashBlockNotifier.NotifyBlock (self : CZMQAbstractPublishNotifier) (w : Zmq)
    (data : Buffer 32) (pindex : CBlockIndex) : Outcome :=
  let hash := pindex.GetBlockHash
  let data := reverseHashInto hash data.bytes
  self.SendZmqMessage w MSG_HASHBLOCK (some data) 32

/-- `CZMQPublishHashTransactionNotifier::NotifyTransaction`; `data` is the
local array. -/
def CZMQPublishHashTransactionNotifier.NotifyTransaction (self : CZMQAbstractPublishNotifier)
    (w : Zmq) (data : Buffer 32) (transaction : CTransaction) : Outcome :=
  let hash := transaction.GetHash
  let data := reverseHashInto hash data.bytes
  self.SendZmqMessage w MSG_HASHTX (some data) 32

/-- Helper function to send a 'sequence' topic message with the following
structure: <32-byte hash> | <1-byte label> | <8-byte LE sequence> (optional);
`data` is the local array of `sizeof (hash) + sizeof (label) + sizeof (uint64_t)`
bytes. -/
def SendSequenceMsg (data : Buffer 41) (notifier : CZMQAbstractPublishNotifier) (w : Zmq)
    (hash : uint256) (label : Char) (sequence : Option Nat) : Outcome :=
  let data := reverseHashInto hash data.bytes
  let data := data.set 32 (byteOfNat label.toNat)
  let data := match sequence with
    | some s => storeAt data (32 + 1) (WriteLE64 s)
    | none => data
  notifier.SendZmqMessage w MSG_SEQUENCE (some data) (if sequence.isSome then 41 else 32 + 1)

/-- `CZMQPublishSequenceNotifier::NotifyBlockConnect`. -/
def CZMQPublishSequenceNotifier.NotifyBlockConnect (self : CZMQAbstractPublishNotifier) (w : Zmq)
    (data : Buffer 41) (pindex : CBlockIndex) : Outcome :=
  SendSequenceMsg data self w pindex.GetBlockHash 'C' none

/-- `CZMQPublishSequenceNotifier::NotifyBlockDisconnect`. -/
def CZMQPublishSequenceNotifier.NotifyBlockDisconnect (self : CZMQAbstractPublishNotifier)
    (w : Zmq) (data : Buffer 41) (pindex : CBlockIndex) : Outcome :=
  SendSequenceMsg data self w pindex.GetBlockHash 'D' none

/-- `CZMQPublishSequenceNotifier::NotifyTransactionAcceptance`. -/
def CZMQPublishSequenceNotifier.NotifyTransactionAcceptance (self : CZMQAbstractPublishNotifier)
    (w : Zmq) (data : Buffer 41) (transaction : CTransaction) (mempool_sequence : Nat) : Outcome :=
  SendSequenceMsg data self w transaction.GetHash 'A' (some mempool_sequence)

/-- `CZMQPublishSequenceNotifier::NotifyTransactionRemoval`. -/
def CZMQPublishSequenceNotifier.NotifyTransactionRemoval (self : CZMQAbstractPublishNotifier)
    (w : Zmq) (data : Buffer 41) (transaction : CTransaction) (mempool_sequence : Nat) : Outcome :=
  SendSequenceMsg data self w transaction.GetHash 'R' (some mempool_sequence)

/-- Converts a CTransaction into a zmq_message_part (by serializing it). -/
def transactionToZMQMessagePart (transaction : CTransaction) : zmq_message_part :=
  transaction.serialized

/-- `CZMQPublishMempolAddedNotifier::NotifyTransactionFee`. -/
def CZMQPublishMempolAddedNotifier.NotifyTransactionFee (self : CZMQAbstractPublishNotifier)
    (w : Zmq) (now : Int) (transaction : CTransaction) (fee : Int) : Outcome :=
  let txid := transaction.GetHash
  let payload : List zmq_message_part := []
  let payload := payload ++ [hashToZMQMessagePart txid]
  let payload := payload ++ [transactionToZMQMessagePart transaction]
  let payload := payload ++ [int64ToZMQMessagePart fee]
  self.SendZmqMessage_payload w now MSG_MEMPOOLADDED payload

/-- `CZMQPublishRawBlockNotifier::NotifyBlock`; `block` is what the external
`ReadBlockFromDisk` and `ss << block` produce: `none` when the block cannot be
read, else the serialization. `&(*ss.begin ())` of an empty stream is
undefined behaviour. -/
def CZMQPublishRawBlockNotifier.NotifyBlock (self : CZMQAbstractPublishNotifier) (w : Zmq)
    (block : Option (List Byte)) : Outcome :=
  match block with
  | none => some (false, self, w)
  | some ss => if ss = [] then none else self.SendZmqMessage w MSG_RAWBLOCK (some ss) ss.length

/-- `CZMQPublishRawTransactionNotifier::NotifyTransaction`. -/
def CZMQPublishRawTransactionNotifier.NotifyTransaction (self : CZMQAbstractPublishNotifier)
    (w : Zmq) (transaction : CTransaction) : Outcome :=
  let ss := transaction.serialized
  if ss = [] then none else self.SendZmqMessage w MSG_RAWTX (some ss) ss.length

/-- `CZMQPublishMempoolRemovedNotifier::NotifyTransactionRemovalReason`; `reason`
is the ordinal of the `MemPoolRemovalReason`. -/
def CZMQPublishMempoolRemovedNotifier.NotifyTransactionRemovalReason
    (self : CZMQAbstractPublishNotifier) (w : Zmq) (now : Int) (transaction : CTransaction)
    (reason : Int) : Outcome :=
  let txid := transaction.GetHash
  let payload : List zmq_message_part := []
  let payload := payload ++ [hashToZMQMessagePart txid]
  let payload := payload ++ [transactionToZMQMessagePart transaction]
  let payload := payload ++ [int32ToZMQMessagePart reason]
  self.SendZmqMessage_payload w now MSG_MEMPOOLREMOVED payload

/-- `CZMQPublishMempoolReplacedNotifier::NotifyTransactionReplaced`. -/
def CZMQPublishMempoolReplacedNotifier.NotifyTransactionReplaced
    (self : CZMQAbstractPublishNotifier) (w : Zmq) (now : Int) (tx_replaced : CTransaction)
    (fee_replaced : Int) (tx_replacement : CTransaction) (fee_replacement : Int) : Outcome :=
  let hash_replaced := tx_replaced.GetHash
  let hash_replacement := tx_replacement.GetHash
  let payload : List zmq_message_part := []
  let payload := payload ++ [hashToZMQMessagePart hash_replaced]
  let payload := payload ++ [transactionToZMQMessagePart tx_replaced]
  let payload := payload ++ [int64ToZMQMessagePart fee_replaced]
  let payload := payload ++ [hashToZMQMessagePart hash_replacement]
  let payload := payload ++ [transactionToZMQMessagePart tx_replacement]
  let payload := payload ++ [int64ToZMQMessagePart fee_replacement]
  self.SendZmqMessage_payload w now MSG_MEMPOOLREPLACED payload

/-! ## The abstract notifier -/

/-- `CZMQAbstractNotifier::GetOutboundMessageHighWaterMark`. -/
def CZMQAbstractPublishNotifier.GetOutboundMessageHighWaterMark
    (self : CZMQAbstractPublishNotifier) : Int :=
  self.outbound_message_high_water_mark

/-- `CZMQAbstractNotifier::SetOutboundMessageHighWaterMark`. -/
def CZMQAbstractPublishNotifier.SetOutboundMessageHighWaterMark
    (self : CZMQAbstractPublishNotifier) (sndhwm : Int) : CZMQAbstractPublishNotifier :=
  if sndhwm ≥ 0 then { self with outbound_message_high_water_mark := sndhwm } else self

/-- `CZMQAbstractNotifier::SetAddress`. -/
def CZMQAbstractPublishNotifier.SetAddress (self : CZMQAbstractPublishNotifier) (a : String) :
    CZMQAbstractPublishNotifier :=
  { self with address := a }

/-- `CZMQAbstractNotifier::SetType`. -/
def CZMQAbstractPublishNotifier.SetType (self : CZMQAbstractPublishNotifier) (t : String) :
    CZMQAbstractPublishNotifier :=
  { self with type := t }

/-- The constructor `CZMQAbstractNotifier ()` with the member initialiser
`nSequence {0U}`. -/
def CZMQAbstractPublishNotifier.new : CZMQAbstractPublishNotifier :=
  { psocket := 0, type := "", address := "",
    outbound_message_high_water_mark := DEFAULT_ZMQ_SNDHWM, nSequence := 0 }

/-- `CZMQAbstractNotifier::~CZMQAbstractNotifier`: `none` when the `assert`
fails. -/
def CZMQAbstractNotifier.destructor (self : CZMQAbstractPublishNotifier) : Option Unit :=
  if self.psocket ≠ 0 then none else some ()

/-- `CZMQAbstractNotifier::NotifyBlock`. -/
def CZMQAbstractNotifier.NotifyBlock (self : CZMQAbstractPublishNotifier) (w : Zmq)
    (_pindex : CBlockIndex) : Outcome := some (true, self, w)

/-- `CZMQAbstractNotifier::NotifyTransaction`. -/
def CZMQAbstractNotifier.NotifyTransaction (self : CZMQAbstractPublishNotifier) (w : Zmq)
    (_transaction : CTransaction) : Outcome := some (true, self, w)

/-- `CZMQAbstractNotifier::NotifyTransactionFee`. -/
def CZMQAbstractNotifier.NotifyTransactionFee (self : CZMQAbstractPublishNotifier) (w : Zmq)
    (_transaction : CTransaction) (_fee : Int) : Outcome := some (true, self, w)

/-- `CZMQAbstractNotifier::NotifyBlockConnect`. -/
def CZMQAbstractNotifier.NotifyBlockConnect (self : CZMQAbstractPublishNotifier) (w : Zmq)
    (_pindex : CBlockIndex) : Outcome := some (true, self, w)

/-- `CZMQAbstractNotifier::NotifyBlockDisconnect`. -/
def CZMQAbstractNotifier.NotifyBlockDisconnect (self : CZMQAbstractPublishNotifier) (w : Zmq)
    (_pindex : CBlockIndex) : Outcome := some (true, self, w)

/-- `CZMQAbstractNotifier::NotifyTransactionAcceptance`. -/
def CZMQAbstractNotifier.NotifyTransactionAcceptance (self : CZMQAbstractPublishNotifier)
    (w : Zmq) (_transaction : CTransaction) (_mempool_sequence : Nat) : Outcome :=
  some (true, self, w)

/-- `CZMQAbstractNotifier::NotifyTransactionRemoval`. -/
def CZMQAbstractNotifier.NotifyTransactionRemoval (self : CZMQAbstractPublishNotifier)
    (w : Zmq) (_transaction : CTransaction) (_mempool_sequence : Nat) : Outcome :=
  some (true, self, w)

/-- `CZMQAbstractNotifier::NotifyTransactionRemovalReason`. -/
def CZMQAbstractNotifier.NotifyTransactionRemovalReason (self : CZMQAbstractPublishNotifier)
    (w : Zmq) (_transaction : CTransaction) (_reason : Int) : Outcome :=
  some (true, self, w)

/-- `CZMQAbstractNotifier::NotifyTransactionReplaced`. -/
def CZMQAbstractNotifier.NotifyTransactionReplaced (self : CZMQAbstractPublishNotifier)
    (w : Zmq) (_tx_replaced : CTransaction) (_fee_replaced : Int)
    (_tx_replacement : CTransaction) (_fee_replacement : Int) : Outcome :=
  some (true, self, w)

/-- `CZMQAbstractNotifier::NotifyMempoolTransactionConfirmed`. -/
def CZMQAbstractNotifier.NotifyMempoolTransactionConfirmed (self : CZMQAbstractPublishNotifier)
    (w : Zmq) (_transaction : CTransaction) (_pindex : CBlockIndex) : Outcome :=
  some (true, self, w)

/-- `CZMQAbstractNotifier::NotifyChainTipChanged`. -/
def CZMQAbstractNotifier.NotifyChainTipChanged (self : CZMQAbstractPublishNotifier) (w : Zmq)
    (_pindex : CBlockIndex) : Outcome := some (true, self, w)

/-- `CZMQAbstractNotifier::NotifyChainBlockConnected`. -/
def CZMQAbstractNotifier.NotifyChainBlockConnected (self : CZMQAbstractPublishNotifier)
    (w : Zmq) (_pindex : CBlockIndex) : Outcome := some (true, self, w)

/-- `CZMQAbstractNotifier::NotifyChainHeaderAdded`. -/
def CZMQAbstractNotifier.NotifyChainHeaderAdded (self : CZMQAbstractPublishNotifier) (w : Zmq)
    (_pindex : CBlockIndex) : Outcome := some (true, self, w)

/-! ## The address of an endpoint -/

/-- `std::string::rfind (str)`: the highest position at which `str` occurs in
`s`, `none` for `npos`. -/
def rfind (s str : List Char) : Option Nat :=
  (List.range (s.length + 1)).reverse.find? (fun i => str.isPrefixOf (s.drop i))

/-- `std::string::substr (pos, count)` for `pos` within the string. -/
def substr (s : List Char) (pos count : Nat) : List Char := (s.drop pos).take count

/-- `IsZMQAddressIPV6`; `LookupHost ip` stands for the external
`LookupHost (ip, addr, false)` on a fresh `CNetAddr` followed by
`addr.IsIPv6 ()`. The `size_t` difference wraps modulo 2 ^ 64. -/
def IsZMQAddressIPV6 (LookupHost : String → Bool) (zmq_address : String) : Bool :=
  let tcp_prefix := "tcp://".toList
  let tcp_index := rfind zmq_address.toList tcp_prefix
  let colon_index := rfind zmq_address.toList ":".toList
  match tcp_index, colon_index with
  | some 0, some colon_index =>
    let ip := String.mk
      (substr zmq_address.toList tcp_prefix.length
        ((colon_index + 2 ^ 64 - tcp_prefix.length) % 2 ^ 64))
    if LookupHost ip then true else false
  | _, _ => false

/-! ## The endpoint multiplexer -/

/-- `ZMQ_PUB` of `zmq.h`. -/
def ZMQ_PUB : Nat := 1

/-- `ZMQ_LINGER` of `zmq.h`. -/
def ZMQ_LINGER : Nat := 17

/-- `ZMQ_SNDHWM` of `zmq.h`. -/
def ZMQ_SNDHWM : Nat := 23

/-- `ZMQ_TCP_KEEPALIVE` of `zmq.h`. -/
def ZMQ_TCP_KEEPALIVE : Nat := 34

/-- `ZMQ_IPV6` of `zmq.h`. -/
def ZMQ_IPV6 : Nat := 42

/-- The process: the library, the notifier objects by their address in memory
(`this`), and the file-scope `mapPublishNotifiers`. The multimap is the list
of its (address, notifier pointer) entries in the order of insertion, which is
the order a multimap keeps among equal keys. -/
structure World where
  zmq : Zmq
  heap : Nat → CZMQAbstractPublishNotifier
  mapPublishNotifiers : List (String × Nat)

/-- `mapPublishNotifiers.count (address)`. -/
def World.count (W : World) (address : String) : Nat :=
  (W.mapPublishNotifiers.filter (fun e => e.1 == address)).length

/-- `CZMQAbstractPublishNotifier::Initialize` on the notifier at `this`. A
socket that `zmq_socket` creates gets a handle no earlier socket had: the
number of the call, plus one. -/
def CZMQAbstractPublishNotifier.Initialize (LookupHost : String → Bool) (this pcontext : Nat)
    (W : World) : Option (Bool × World) :=
  let self := W.heap this
  if self.psocket ≠ 0 then none
  else
    match W.mapPublishNotifiers.find? (fun e => e.1 == self.address) with
    | none =>
      let r0 := W.zmq.call (.zmq_socket pcontext ZMQ_PUB)
      let psocket := if r0.1 = true then W.zmq.calls.length + 1 else 0
      let heap1 := Function.update W.heap this { self with psocket := psocket }
      if psocket = 0 then some (false, { W with zmq := r0.2, heap := heap1 })
      else
        let r1 := r0.2.call
          (.zmq_setsockopt psocket ZMQ_SNDHWM self.outbound_message_high_water_mark)
        if r1.1 = false then
          some (false, { W with zmq := (r1.2.call (.zmq_close psocket)).2, heap := heap1 })
        else
          let so_keepalive_option : Int := 1
          let r2 := r1.2.call (.zmq_setsockopt psocket ZMQ_TCP_KEEPALIVE so_keepalive_option)
          if r2.1 = false then
            some (false, { W with zmq := (r2.2.call (.zmq_close psocket)).2, heap := heap1 })
          else
            let enable_ipv6 : Int := if IsZMQAddressIPV6 LookupHost self.address then 1 else 0
            let r3 := r2.2.call (.zmq_setsockopt psocket ZMQ_IPV6 enable_ipv6)
            if r3.1 = false then
              some (false, { W with zmq := (r3.2.call (.zmq_close psocket)).2, heap := heap1 })
            else
              let r4 := r3.2.call (.zmq_bind psocket self.address)
              if r4.1 = false then
                some (false, { W with zmq := (r4.2.call (.zmq_close psocket)).2, heap := heap1 })
              else
                some (true,
                  { zmq := r4.2, heap := heap1,
                    mapPublishNotifiers := W.mapPublishNotifiers ++ [(self.address, this)] })
    | some i =>
      let psocket := (W.heap i.2).psocket
      some (true,
        { W with
          heap := Function.update W.heap this { self with psocket := psocket },
          mapPublishNotifiers := W.mapPublishNotifiers ++ [(self.address, this)] })

/-- `CZMQAbstractPublishNotifier::Shutdown` on the notifier at `this`. -/
def CZMQAbstractPublishNotifier.Shutdown (this : Nat) (W : World) : World :=
  let self := W.heap this
  if self.psocket = 0 then W
  else
    let count := W.count self.address
    let map1 := W.mapPublishNotifiers.eraseP (fun e => e.1 == self.address && e.2 == this)
    let zmq1 :=
      if count = 1 then
        let linger : Int := 0
        ((W.zmq.call (.zmq_setsockopt self.psocket ZMQ_LINGER linger)).2.call
          (.zmq_close self.psocket)).2
      else W.zmq
    { zmq := zmq1, heap := Function.update W.heap this { self with psocket := 0 },
      mapPublishNotifiers := map1 }

/-- One step in the bookkeeping of endpoints along the calls of the library: a
successful `zmq_bind` on `address` makes the socket an endpoint of the
address, `zmq_close` ends it. -/
def endpointsStep (ok : Nat → Bool) (address : String) (open_ : List Nat)
    (ic : Nat × ZmqCall) : List Nat :=
  match ic.2 with
  | .zmq_bind sock addr => if addr = address ∧ ok ic.1 = true then open_ ++ [sock] else open_
  | .zmq_close sock => open_.filter (fun h => h ≠ sock)
  | _ => open_

/-- The endpoints of an address that were created and are not closed. -/
def Zmq.endpoints (w : Zmq) (address : String) : List Nat :=
  w.calls.enum.foldl (endpointsStep w.ok address) []

/-! ## Virtual dispatch -/

/-- The publisher classes declared in `zmqpublishnotifier.h`. -/
inductive Publisher where
  | HashBlock | HashTransaction | RawBlock | RawTransaction | MempolAdded | MempoolRemoved
  | MempoolReplaced | MempoolConfirmed | ChainTipChanged | ChainConnected | ChainHeaderAdded
  | Sequence
  deriving DecidableEq, Repr

/-- The virtual event callbacks declared in `CZMQAbstractNotifier`. -/
inductive Callback where
  | NotifyBlock | NotifyBlockConnect | NotifyBlockDisconnect | NotifyTransactionAcceptance
  | NotifyTransactionRemoval | NotifyTransactionRemovalReason | NotifyTransaction
  | NotifyTransactionFee | NotifyTransactionReplaced | NotifyMempoolTransactionConfirmed
  | NotifyChainTipChanged | NotifyChainBlockConnected | NotifyChainHeaderAdded
  deriving DecidableEq, Repr

/-- All the callbacks, in the order of their declaration. -/
def Callback.all : List Callback :=
  [.NotifyBlock, .NotifyBlockConnect, .NotifyBlockDisconnect, .NotifyTransactionAcceptance,
    .NotifyTransactionRemoval, .NotifyTransactionRemovalReason, .NotifyTransaction,
    .NotifyTransactionFee, .NotifyTransactionReplaced, .NotifyMempoolTransactionConfirmed,
    .NotifyChainTipChanged, .NotifyChainBlockConnected, .NotifyChainHeaderAdded]

/-- A call of an event callback with its arguments. -/
inductive Event where
  | NotifyBlock (pindex : CBlockIndex)
  | NotifyBlockConnect (pindex : CBlockIndex)
  | NotifyBlockDisconnect (pindex : CBlockIndex)
  | NotifyTransactionAcceptance (transaction : CTransaction) (mempool_sequence : Nat)
  | NotifyTransactionRemoval (transaction : CTransaction) (mempool_sequence : Nat)
  | NotifyTransactionRemovalReason (transaction : CTransaction) (reason : Int)
  | NotifyTransaction (transaction : CTransaction)
  | NotifyTransactionFee (transaction : CTransaction) (fee : Int)
  | NotifyTransactionReplaced (tx_replaced : CTransaction) (fee_replaced : Int)
      (tx_replacement : CTransaction) (fee_replacement : Int)
  | NotifyMempoolTransactionConfirmed (transaction : CTransaction) (pindex : CBlockIndex)
  | NotifyChainTipChanged (pindex : CBlockIndex)
  | NotifyChainBlockConnected (pindex : CBlockIndex)
  | NotifyChainHeaderAdded (pindex : CBlockIndex)

/-- The callback an event calls. -/
def Event.callback : Event → Callback
  | .NotifyBlock _ => .NotifyBlock
  | .NotifyBlockConnect _ => .NotifyBlockConnect
  | .NotifyBlockDisconnect _ => .NotifyBlockDisconnect
  | .NotifyTransactionAcceptance _ _ => .NotifyTransactionAcceptance
  | .NotifyTransactionRemoval _ _ => .NotifyTransactionRemoval
  | .NotifyTransactionRemovalReason _ _ => .NotifyTransactionRemovalReason
  | .NotifyTransaction _ => .NotifyTransaction
  | .NotifyTransactionFee _ _ => .NotifyTransactionFee
  | .NotifyTransactionReplaced _ _ _ _ => .NotifyTransactionReplaced
  | .NotifyMempoolTransactionConfirmed _ _ => .NotifyMempoolTransactionConfirmed
  | .NotifyChainTipChanged _ => .NotifyChainTipChanged
  | .NotifyChainBlockConnected _ => .NotifyChainBlockConnected
  | .NotifyChainHeaderAdded _ => .NotifyChainHeaderAdded

/-- The `override` declarations of `zmqpublishnotifier.h`. -/
def Publisher.overrides : Publisher → Callback → Bool
  | .HashBlock, .NotifyBlock => true
  | .HashTransaction, .NotifyTransaction => true
  | .RawBlock, .NotifyBlock => true
  | .RawTransaction, .NotifyTransaction => true
  | .MempolAdded, .NotifyTransactionFee => true
  | .MempoolRemoved, .NotifyTransactionRemovalReason => true
  | .MempoolReplaced, .NotifyTransactionReplaced => true
  | .MempoolConfirmed, .NotifyMempoolTransactionConfirmed => true
  | .ChainTipChanged, .NotifyChainTipChanged => true
  | .ChainConnected, .NotifyChainBlockConnected => true
  | .ChainHeaderAdded, .NotifyChainHeaderAdded => true
  | .Sequence, .NotifyBlockConnect => true
  | .Sequence, .NotifyBlockDisconnect => true
  | .Sequence, .NotifyTransactionAcceptance => true
  | .Sequence, .NotifyTransactionRemoval => true
  | _, _ => false

/-- What a callback takes from outside the notifier: the clock reading, the
local arrays as declared, the block read from disk, and the four overriding
callbacks that the header declares but the source files do not define. -/
structure Env where
  now : Int
  data32 : Buffer 32
  data41 : Buffer 41
  ReadBlockFromDisk : CBlockIndex → Option (List Byte)
  NotifyMempoolTransactionConfirmed :
    CZMQAbstractPublishNotifier → Zmq → CTransaction → CBlockIndex → Outcome
  NotifyChainTipChanged : CZMQAbstractPublishNotifier → Zmq → CBlockIndex → Outcome
  NotifyChainBlockConnected : CZMQAbstractPublishNotifier → Zmq → CBlockIndex → Outcome
  NotifyChainHeaderAdded : CZMQAbstractPublishNotifier → Zmq → CBlockIndex → Outcome

/-- The virtual call of an event callback on a notifier of the given class: the
overriding function of the class when it declares one, else the function of
`CZMQAbstractNotifier`. -/
def Publisher.notify (env : Env) :
    Publisher → CZMQAbstractPublishNotifier → Zmq → Event → Outcome
  | .HashBlock, self, w, .NotifyBlock pindex =>
    CZMQPublishHashBlockNotifier.NotifyBlock self w env.data32 pindex
  | .HashTransaction, self, w, .NotifyTransaction transaction =>
    CZMQPublishHashTransactionNotifier.NotifyTransaction self w env.data32 transaction
  | .RawBlock, self, w, .NotifyBlock pindex =>
    CZMQPublishRawBlockNotifier.NotifyBlock self w (env.ReadBlockFromDisk pindex)
  | .RawTransaction, self, w, .NotifyTransaction transaction =>
    CZMQPublishRawTransactionNotifier.NotifyTransaction self w transaction
  | .MempolAdded, self, w, .NotifyTransactionFee transaction fee =>
    CZMQPublishMempolAddedNotifier.NotifyTransactionFee self w env.now transaction fee
  | .MempoolRemoved, self, w, .NotifyTransactionRemovalReason transaction reason =>
    CZMQPublishMempoolRemovedNotifier.NotifyTransactionRemovalReason self w env.now transaction
      reason
  | .MempoolReplaced, self, w, .NotifyTransactionReplaced t1 f1 t2 f2 =>
    CZMQPublishMempoolReplacedNotifier.NotifyTransactionReplaced self w env.now t1 f1 t2 f2
  | .MempoolConfirmed, self, w, .NotifyMempoolTransactionConfirmed transaction pindex =>
    env.NotifyMempoolTransactionConfirmed self w transaction pindex
  | .ChainTipChanged, self, w, .NotifyChainTipChanged pindex =>
    env.NotifyChainTipChanged self w pindex
  | .ChainConnected, self, w, .NotifyChainBlockConnected pindex =>
    env.NotifyChainBlockConnected self w pindex
  | .ChainHeaderAdded, self, w, .NotifyChainHeaderAdded pindex =>
    env.NotifyChainHeaderAdded self w pindex
  | .Sequence, self, w, .NotifyBlockConnect pindex =>
    CZMQPublishSequenceNotifier.NotifyBlockConnect self w env.data41 pindex
  | .Sequence, self, w, .NotifyBlockDisconnect pindex =>
    CZMQPublishSequenceNotifier.NotifyBlockDisconnect self w env.data41 pindex
  | .Sequence, self, w, .NotifyTransactionAcceptance transaction mempool_sequence =>
    CZMQPublishSequenceNotifier.NotifyTransactionAcceptance self w env.data41 transaction
      mempool_sequence
  | .Sequence, self, w, .NotifyTransactionRemoval transaction mempool_sequence =>
    CZMQPublishSequenceNotifier.NotifyTransactionRemoval self w env.data41 transaction
      mempool_sequence
  | _, self, w, .NotifyBlock pindex => CZMQAbstractNotifier.NotifyBlock self w pindex
  | _, self, w, .NotifyBlockConnect pindex => CZMQAbstractNotifier.NotifyBlockConnect self w pindex
  | _, self, w, .NotifyBlockDisconnect pindex =>
    CZMQAbstractNotifier.NotifyBlockDisconnect self w pindex
  | _, self, w, .NotifyTransactionAcceptance transaction mempool_sequence =>
    CZMQAbstractNotifier.NotifyTransactionAcceptance self w transaction mempool_sequence
  | _, self, w, .NotifyTransactionRemoval transaction mempool_sequence =>
    CZMQAbstractNotifier.NotifyTransactionRemoval self w transaction mempool_sequence
  | _, self, w, .NotifyTransactionRemovalReason transaction reason =>
    CZMQAbstractNotifier.NotifyTransactionRemovalReason self w transaction reason
  | _, self, w, .NotifyTransaction transaction =>
    CZMQAbstractNotifier.NotifyTransaction self w transaction
  | _, self, w, .NotifyTransactionFee transaction fee =>
    CZMQAbstractNotifier.NotifyTransactionFee self w transaction fee
  | _, self, w, .NotifyTransactionReplaced t1 f1 t2 f2 =>
    CZMQAbstractNotifier.NotifyTransactionReplaced self w t1 f1 t2 f2
  | _, self, w, .NotifyMempoolTransactionConfirmed transaction pindex =>
    CZMQAbstractNotifier.NotifyMempoolTransactionConfirmed self w transaction pindex
  | _, self, w, .NotifyChainTipChanged pindex =>
    CZMQAbstractNotifier.NotifyChainTipChanged self w pindex
  | _, self, w, .NotifyChainBlockConnected pindex =>
    CZMQAbstractNotifier.NotifyChainBlockConnected self w pindex
  | _, self, w, .NotifyChainHeaderAdded pindex =>
    CZMQAbstractNotifier.NotifyChainHeaderAdded self w pindex

/-! ## Calls in sequence and reference descriptions -/

/-- One call of a send primitive by a topic publisher: the fixed shape on a
buffer `data` (a non-null pointer), or the structured shape. -/
inductive SendCall where
  | fixed (command data : List Byte) (size : Nat)
  | structured (now : Int) (command : List Byte) (payload : List zmq_message_part)

/-- Perform the call on a notifier. -/
def SendCall.run (self : CZMQAbstractPublishNotifier) (w : Zmq) : SendCall → Outcome
  | .fixed command data size => self.SendZmqMessage w command (some data) size
  | .structured now command payload => self.SendZmqMessage_payload w now command payload

/-- The number of parts of the message the call builds. -/
def SendCall.parts : SendCall → Nat
  | .fixed _ _ _ => 3
  | .structured _ _ payload => payload.length + 3

/-- The call passes a buffer that holds the `size` bytes it announces. -/
def SendCall.wf : SendCall → Prop
  | .fixed _ data size => size ≤ data.length
  | .structured _ _ _ => True

/-- The message the call builds when the counter is `nSequence`. -/
def SendCall.message (nSequence : Nat) : SendCall → zmq_message
  | .fixed command data size => [std_string command, data.take size, WriteLE32 nSequence]
  | .structured now command payload =>
    [std_string command] ++ [int64ToZMQMessagePart now] ++ payload
      ++ [int32ToZMQMessagePart (int32_of_uint32 nSequence)]

/-- The parts of the message before the trailing sequence number. -/
def SendCall.body : SendCall → List zmq_message_part
  | .fixed command data size => [std_string command, data.take size]
  | .structured now command payload =>
    [std_string command] ++ [int64ToZMQMessagePart now] ++ payload

/-- The calls one after the other on the same notifier; for each call its
return value and the parts it handed to the transport. -/
def runCalls : CZMQAbstractPublishNotifier → Zmq → List SendCall →
    Option (List (Bool × List Frame) × CZMQAbstractPublishNotifier × Zmq)
  | self, w, [] => some ([], self, w)
  | self, w, c :: cs =>
    match c.run self w with
    | none => none
    | some (b, self1, w1) =>
      match runCalls self1 w1 cs with
      | none => none
      | some (outs, self2, w2) => some ((b, w1.frames.drop w.frames.length) :: outs, self2, w2)

/-- The number of calls that returned true. -/
def successes (outs : List (Bool × List Frame)) : Nat := (outs.filter (fun o => o.1)).length

/-- The library calls of a whole message: per part `zmq_msg_init_size` and
`zmq_msg_send`, with `ZMQ_SNDMORE` on every part but the last. -/
def messageCalls (sock : Nat) : List zmq_message_part → List ZmqCall
  | [] => []
  | [last] => [.zmq_msg_init_size last.length, .zmq_msg_send sock last 0]
  | part :: next :: rest =>
    .zmq_msg_init_size part.length :: .zmq_msg_send sock part ZMQ_SNDMORE ::
      messageCalls sock (next :: rest)

/-- A well-formed variadic argument list: pointer and size of every further
part, then `nullptr`. -/
def vaList : List (List Byte × Nat) → List VaArg
  | [] => [.ptr none]
  | (data, size) :: rest => .ptr (some data) :: .size size :: vaList rest

/-- The little-endian value of a byte list. -/
def decodeLE : List Byte → Nat
  | [] => 0
  | b :: bs => b.val + 256 * decodeLE bs

/-- Decoding 8 bytes as a little-endian two's-complement `int64_t`. -/
def decodeInt64LE (bs : List Byte) : Int :=
  if decodeLE bs < 2 ^ 63 then (decodeLE bs : Int) else (decodeLE bs : Int) - 2 ^ 64

/-- An operation on the notifier at `this`. -/
inductive Op where
  | Initialize (this pcontext : Nat)
  | Shutdown (this : Nat)
  | Send (this : Nat) (c : SendCall)
  | SetOutboundMessageHighWaterMark (this : Nat) (sndhwm : Int)
  | SetAddress (this : Nat) (a : String)
  | SetType (this : Nat) (t : String)

/-- Perform one operation; the Boolean is the return value (true for the
operations that return nothing). -/
def World.step (LookupHost : String → Bool) (W : World) : Op → Option (Bool × World)
  | .Initialize this pcontext =>
    CZMQAbstractPublishNotifier.Initialize LookupHost this pcontext W
  | .Shutdown this => some (true, CZMQAbstractPublishNotifier.Shutdown this W)
  | .Send this c =>
    match c.run (W.heap this) W.zmq with
    | none => none
    | some (b, self1, w1) =>
      some (b, { W with zmq := w1, heap := Function.update W.heap this self1 })
  | .SetOutboundMessageHighWaterMark this sndhwm =>
    some (true,
      { W with
        heap := Function.update W.heap this
          ((W.heap this).SetOutboundMessageHighWaterMark sndhwm) })
  | .SetAddress this a =>
    some (true, { W with heap := Function.update W.heap this ((W.heap this).SetAddress a) })
  | .SetType this t =>
    some (true, { W with heap := Function.update W.heap this ((W.heap this).SetType t) })

/-- Perform the operations one after the other; the return values in order. -/
def World.run (LookupHost : String → Bool) : World → List Op → Option (List Bool × World)
  | W, [] => some ([], W)
  | W, op :: ops =>
    match W.step LookupHost op with
    | none => none
    | some (b, W1) =>
      match World.run LookupHost W1 ops with
      | none => none
      | some (bs, W2) => some (b :: bs, W2)

/-- The process at start: nothing called yet, the notifier objects `heap` as
configured, the table empty. -/
def World.start (ok : Nat → Bool) (heap : Nat → CZMQAbstractPublishNotifier) : World :=
  { zmq := ⟨[], ok⟩, heap := heap, mapPublishNotifiers := [] }

/-- The operation does not change the address of a notifier. -/
def Op.keepsAddress : Op → Bool
  | .SetAddress _ _ => false
  | _ => true

/-- The number of successful sends on the notifier at `this` among operations
with their return values. -/
def sendsOf (this : Nat) : List Op → List Bool → Nat
  | .Send p _ :: ops, b :: bs =>
    (if p = this ∧ b = true then 1 else 0) + sendsOf this ops bs
  | _ :: ops, _ :: bs => sendsOf this ops bs
  | _, _ => 0

/-! ## Reference descriptions of the endpoint multiplexer -/

/-- The call sends a message part or prepares one. -/
def ZmqCall.isMsg : ZmqCall → Bool
  | .zmq_msg_init_size _ => true
  | .zmq_msg_send _ _ _ => true
  | _ => false

/-- The calls of an `Initialize` that creates and binds the endpoint. -/
def initializeCalls (LookupHost : String → Bool) (pcontext sock : Nat)
    (self : CZMQAbstractPublishNotifier) : List ZmqCall :=
  [.zmq_socket pcontext ZMQ_PUB,
    .zmq_setsockopt sock ZMQ_SNDHWM self.outbound_message_high_water_mark,
    .zmq_setsockopt sock ZMQ_TCP_KEEPALIVE 1,
    .zmq_setsockopt sock ZMQ_IPV6 (if IsZMQAddressIPV6 LookupHost self.address then 1 else 0),
    .zmq_bind sock self.address]

/-- The table, the notifiers and the library agree: the entries are the
initialised notifiers under their addresses, and the notifiers of an address
share one socket, which is the one open endpoint of that address. -/
structure Inv (W : World) : Prop where
  reg_addr : ∀ e ∈ W.mapPublishNotifiers, (W.heap e.2).address = e.1
  reg_sock : ∀ e ∈ W.mapPublishNotifiers, (W.heap e.2).psocket ≠ 0
  unreg : ∀ p, (W.heap p).psocket ≠ 0 → ((W.heap p).address, p) ∈ W.mapPublishNotifiers
  nodup : W.mapPublishNotifiers.Nodup
  shared : ∀ a, (∃ e ∈ W.mapPublishNotifiers, e.1 = a) →
    ∃ h, h ≠ 0 ∧ (∀ e ∈ W.mapPublishNotifiers, e.1 = a → (W.heap e.2).psocket = h) ∧
      W.zmq.endpoints a = [h]
  absent : ∀ a, (∀ e ∈ W.mapPublishNotifiers, e.1 ≠ a) → W.zmq.endpoints a = []
  fresh : ∀ a h, h ∈ W.zmq.endpoints a → h ≤ W.zmq.calls.length
  disjoint : ∀ a a' h, h ∈ W.zmq.endpoints a → h ∈ W.zmq.endpoints a' → a = a'

/-- Every `Initialize` among the operations returned true. -/
def initializesSucceed : List Op → List Bool → Bool
  | .Initialize _ _ :: ops, b :: bs => b && initializesSucceed ops bs
  | _ :: ops, _ :: bs => initializesSucceed ops bs
  | _, _ => true

/-- Whether the notifier at `this` is initialised and not shut down after the
operations with their return values, read off the calls alone: the last
`Initialize` or `Shutdown` on it decides, an `Initialize` by its return value;
`s` tells whether it was initialised before. -/
def initialisedAfter (this : Nat) : Bool → List Op → List Bool → Bool
  | s, .Initialize p _ :: ops, b :: bs => initialisedAfter this (if p = this then b else s) ops bs
  | s, .Shutdown p :: ops, _ :: bs =>
    initialisedAfter this (if p = this then false else s) ops bs
  | s, _ :: ops, _ :: bs => initialisedAfter this s ops bs
  | s, _, _ => s

/-! ## Concrete inputs -/

/-- A library that has been called by nobody yet and accepts every call. -/
def acceptingZmq : Zmq := ⟨[], fun _ => true⟩

/-- A library that rejects its call number `k` (counted from 0) and accepts
every other call. -/
def rejectingZmq (k : Nat) : Zmq := ⟨[], fun n => n != k⟩

/-- An initialised notifier on socket 5 whose counter is `s`. -/
def notifierAt (s : Nat) : CZMQAbstractPublishNotifier := { psocket := 5, nSequence := s }

/-- The hash whose internal bytes are 0, 1, ..., 31. -/
def sampleHash : uint256 := ⟨List.map byteOfNat (List.range 32), by decide⟩

/-- A local array of 32 bytes, all 9 before it is written. -/
def sampleBuffer32 : Buffer 32 := ⟨List.replicate 32 9, by decide⟩

/-- A local array of 41 bytes, all 9 before it is written. -/
def sampleBuffer41 : Buffer 41 := ⟨List.replicate 41 9, by decide⟩

/-- A transaction with hash `sampleHash` and a three-byte serialization. -/
def sampleTx : CTransaction := ⟨sampleHash, [1, 2, 3]⟩

/-- The address of the sample notifiers. -/
def sampleAddress : String := "tcp://127.0.0.1:28333"

/-- Notifier objects as configured before any `Initialize`: all on
`sampleAddress`. -/
def sampleHeap : Nat → CZMQAbstractPublishNotifier := fun _ => { address := sampleAddress }

/-- A resolver that finds no IPv6 address. -/
def noIPv6 : String → Bool := fun _ => false

/-- The process after the notifier at 1 has been initialised on an accepting
library. -/
def sampleWorld1 : World :=
  { zmq := ⟨initializeCalls noIPv6 0 1 (sampleHeap 1), fun _ => true⟩,
    heap := Function.update sampleHeap 1 { sampleHeap 1 with psocket := 1 },
    mapPublishNotifiers := [(sampleAddress, 1)] }

/-- The process after the notifiers at 1 and at 2 have been initialised. -/
def sampleWorld2 : World :=
  { sampleWorld1 with
    heap := Function.update sampleWorld1.heap 2 { sampleWorld1.heap 2 with psocket := 1 },
    mapPublishNotifiers := [(sampleAddress, 1), (sampleAddress, 2)] }

/-- A send on the notifier at 1, then the notifier at 2 shut down, initialised
again and sending. -/
def sampleOps : List Op :=
  [.Send 1 (.fixed (cstr "rawtx") [1, 2, 3] 3), .Shutdown 2, .Initialize 2 0,
    .Send 2 (.fixed (cstr "hashtx") [7] 1)]

/-- The process after `sampleOps` from `sampleWorld2`. -/
def sampleWorldSent : World :=
  { zmq := ⟨sampleWorld2.zmq.calls
      ++ messageCalls 1 [ascii "rawtx", [1, 2, 3], [0, 0, 0, 0]]
      ++ messageCalls 1 [ascii "hashtx", [7], [0, 0, 0, 0]], fun _ => true⟩,
    heap := Function.update
      (Function.update
        (Function.update
          (Function.update sampleWorld2.heap 1 { sampleWorld2.heap 1 with nSequence := 1 })
          2 { sampleWorld2.heap 2 with psocket := 0 })
        2 { sampleWorld2.heap 2 with psocket := 1 })
      2 { sampleWorld2.heap 2 with nSequence := 1 },
    mapPublishNotifiers := [(sampleAddress, 1), (sampleAddress, 2)] }

/-- The process in which the notifier at 1 is to be initialised on a library
that rejects the bind, its call number 4. -/
def sampleWorldRejecting : World := World.start (fun n => n != 4) sampleHeap

/-- An environment whose clock reads 1000 and whose four undefined overriding
callbacks fail. -/
def sampleEnv : Env :=
  { now := 1000, data32 := sampleBuffer32, data41 := sampleBuffer41,
    ReadBlockFromDisk := fun _ => none,
    NotifyMempoolTransactionConfirmed := fun _ _ _ _ => none,
    NotifyChainTipChanged := fun _ _ _ => none,
    NotifyChainBlockConnected := fun _ _ _ => none,
    NotifyChainHeaderAdded := fun _ _ _ => none }

/-- A resolver that finds an IPv6 address for the bracketed loopback literal
only. -/
def loopbackIPv6 : String → Bool := fun ip => ip == "[::1]"

/-- The process after `Initialize` of the notifier at 1 in
`sampleWorldRejecting`: the bind was rejected and the socket closed. -/
def sampleWorldFailed : World :=
  { zmq := ⟨initializeCalls noIPv6 0 1 (sampleHeap 1) ++ [.zmq_close 1], fun n => n != 4⟩,
    heap := Function.update sampleHeap 1 { sampleHeap 1 with psocket := 1 },
    mapPublishNotifiers := [] }

/-- The process after `Initialize` of the notifier at 2, on the same address,
in `sampleWorldFailed`: a second socket is bound and registered. -/
def sampleWorldRebound : World :=
  { zmq := ⟨sampleWorldFailed.zmq.calls ++ initializeCalls noIPv6 0 7 (sampleHeap 2),
      fun n => n != 4⟩,
    heap := Function.update sampleWorldFailed.heap 2 { sampleHeap 2 with psocket := 7 },
    mapPublishNotifiers := [(sampleAddress, 2)] }

/-- The process after the notifier at 1 has shut down in `sampleWorld2`: the
endpoint stays open for the notifier at 2. -/
def sampleWorldLeft : World :=
  { zmq := sampleWorld2.zmq,
    heap := Function.update sampleWorld2.heap 1 { sampleWorld2.heap 1 with psocket := 0 },
    mapPublishNotifiers := [(sampleAddress, 2)] }

/-- The process after the notifier at 2 has shut down as well: linger is set
to 0 and the endpoint closed. -/
def sampleWorldClosed : World :=
  { zmq := ⟨sampleWorld2.zmq.calls ++ [.zmq_setsockopt 1 ZMQ_LINGER 0, .zmq_close 1],
      fun _ => true⟩,
    heap := Function.update sampleWorldLeft.heap 2 { sampleWorldLeft.heap 2 with psocket := 0 },
    mapPublishNotifiers := [] }

/-! ## Lemmas: the library -/

@[simp] theorem Zmq.call_fst (w : Zmq) (c : ZmqCall) : (w.call c).1 = w.ok w.calls.length := rfl

@[simp] theorem Zmq.call_snd_calls (w : Zmq) (c : ZmqCall) : (w.call c).2.calls = w.calls ++ [c] :=
  rfl

@[simp] theorem Zmq.call_snd_ok (w : Zmq) (c : ZmqCall) : (w.call c).2.ok = w.ok := rfl

theorem framesOf_append (a b : List ZmqCall) : framesOf (a ++ b) = framesOf a ++ framesOf b := by
  simp [framesOf, List.filterMap_append]

/-- One iteration of the loop of the `zmq_message` overload. -/
theorem loop_cons (sock size : Nat) (w : Zmq) (i : Nat) (part : zmq_message_part)
    (rest : List zmq_message_part) :
    zmq_send_multipart_message.loop sock size w i (part :: rest)
      = if w.ok w.calls.length = false then
          (-1, ⟨w.calls ++ [.zmq_msg_init_size part.length], w.ok⟩)
        else if w.ok (w.calls.length + 1) = false then
          (-1, ⟨w.calls ++ [.zmq_msg_init_size part.length,
            .zmq_msg_send sock part (if i < size - 1 then ZMQ_SNDMORE else 0)], w.ok⟩)
        else
          zmq_send_multipart_message.loop sock size
            ⟨w.calls ++ [.zmq_msg_init_size part.length,
              .zmq_msg_send sock part (if i < size - 1 then ZMQ_SNDMORE else 0)], w.ok⟩
            (i + 1) rest := by
  simp [zmq_send_multipart_message.loop, Zmq.call]

/-- If the oracle rejects one of the calls the loop would issue, the loop
returns -1. -/
theorem loop_fails (sock size : Nat) (parts : List zmq_message_part) :
    ∀ (w : Zmq) (i k : Nat), k < 2 * parts.length → w.ok (w.calls.length + k) = false →
      (zmq_send_multipart_message.loop sock size w i parts).1 = -1 := by
  induction parts with
  | nil => intro w i k hk; simp at hk
  | cons part rest ih =>
    intro w i k hk hfail
    rw [loop_cons]
    cases h0 : w.ok w.calls.length with
    | false => simp
    | true =>
      cases h1 : w.ok (w.calls.length + 1) with
      | false => simp
      | true =>
        simp only [Bool.true_eq_false, if_false]
        have hk2 : 2 ≤ k := by
          rcases Nat.lt_or_ge k 2 with hlt | hge
          · exfalso
            interval_cases k
            · simp [h0] at hfail
            · simp [h1] at hfail
          · exact hge
        apply ih _ (i + 1) (k - 2)
        · simp only [List.length_cons] at hk; omega
        · simp only [List.length_append, List.length_cons, List.length_nil]
          rw [← hfail]; congr 1; omega

/-- If the oracle accepts every call, the loop returns 0 after issuing the
calls of the whole message. -/
theorem loop_succeeds (sock size : Nat) (parts : List zmq_message_part) :
    ∀ (w : Zmq) (i : Nat), i + parts.length = size →
      (∀ k, k < 2 * parts.length → w.ok (w.calls.length + k) = true) →
      zmq_send_multipart_message.loop sock size w i parts
        = (0, ⟨w.calls ++ messageCalls sock parts, w.ok⟩) := by
  induction parts with
  | nil => intro w i _ _; simp [zmq_send_multipart_message.loop, messageCalls]
  | cons part rest ih =>
    intro w i hsize hok
    have h0 : w.ok w.calls.length = true := by simpa using hok 0 (by simp)
    have h1 : w.ok (w.calls.length + 1) = true := hok 1 (by simp only [List.length_cons]; omega)
    rw [loop_cons]
    simp only [h0, h1, Bool.true_eq_false, if_false]
    rw [ih _ (i + 1) (by simp only [List.length_cons] at hsize; omega)]
    · cases rest with
      | nil =>
        have : ¬ i < size - 1 := by simp at hsize; omega
        simp [messageCalls, this]
      | cons next rest =>
        have : i < size - 1 := by simp at hsize; omega
        simp [messageCalls, this]
    · intro k hk
      simp only [List.length_append, List.length_cons, List.length_nil]
      have := hok (k + 2) (by simp only [List.length_cons]; omega)
      rw [← this]; congr 1; omega

theorem messageCalls_cons (sock : Nat) (part : zmq_message_part)
    (rest : List zmq_message_part) :
    messageCalls sock (part :: rest)
      = [.zmq_msg_init_size part.length,
          .zmq_msg_send sock part (if rest.length = 0 then 0 else ZMQ_SNDMORE)]
        ++ messageCalls sock rest := by
  cases rest <;> simp [messageCalls]

/-- Whatever the oracle answers, the loop leaves the oracle as it was and
issues a prefix of the calls of the whole message. -/
theorem loop_prefix (sock size : Nat) (parts : List zmq_message_part) :
    ∀ (w : Zmq) (i : Nat), i + parts.length = size →
      (zmq_send_multipart_message.loop sock size w i parts).2.ok = w.ok ∧
      ∃ extra, (zmq_send_multipart_message.loop sock size w i parts).2.calls = w.calls ++ extra ∧
        extra <+: messageCalls sock parts := by
  induction parts with
  | nil =>
    intro w i _
    exact ⟨rfl, [], by simp [zmq_send_multipart_message.loop], List.prefix_refl _⟩
  | cons part rest ih =>
    intro w i hsize
    have hflag : (if i < size - 1 then ZMQ_SNDMORE else 0)
        = (if rest.length = 0 then 0 else ZMQ_SNDMORE) := by
      simp only [List.length_cons] at hsize
      by_cases hr : rest.length = 0
      · rw [if_pos hr, if_neg (by omega)]
      · rw [if_neg hr, if_pos (by omega)]
    rw [loop_cons, messageCalls_cons, hflag]
    cases h0 : w.ok w.calls.length with
    | false =>
      refine ⟨rfl, [.zmq_msg_init_size part.length], rfl, ?_⟩
      exact ⟨.zmq_msg_send sock part (if rest.length = 0 then 0 else ZMQ_SNDMORE)
        :: messageCalls sock rest, rfl⟩
    | true =>
      cases h1 : w.ok (w.calls.length + 1) with
      | false =>
        exact ⟨rfl, _, rfl, List.prefix_append _ _⟩
      | true =>
        simp only [Bool.true_eq_false, if_false]
        obtain ⟨hok, extra, hcalls, hpre⟩ := ih
          ⟨w.calls ++ [.zmq_msg_init_size part.length,
            .zmq_msg_send sock part (if rest.length = 0 then 0 else ZMQ_SNDMORE)], w.ok⟩
          (i + 1) (by simp only [List.length_cons] at hsize; omega)
        refine ⟨hok, _ ++ extra, ?_, (List.prefix_append_right_inj _).mpr hpre⟩
        rw [hcalls, List.append_assoc]

theorem strlen_le (s : List Byte) : strlen s ≤ s.length := by
  unfold strlen
  exact (List.takeWhile_sublist _).length_le

/-- The variadic primitive on a well-formed argument list runs the loop of the
`zmq_message` overload on the parts the arguments describe. -/
theorem zmq_send_multipart_eq_loop (sock size : Nat) (rest : List (List Byte × Nat)) :
    ∀ (w : Zmq) (data : List Byte) (n i : Nat), n ≤ data.length →
      (∀ p ∈ rest, p.2 ≤ p.1.length) → i + rest.length + 1 = size →
      zmq_send_multipart sock w data n (vaList rest)
        = some (zmq_send_multipart_message.loop sock size w i
            (data.take n :: rest.map (fun p => p.1.take p.2))) := by
  induction rest with
  | nil =>
    intro w data n i hn _ hsize
    have hi : ¬ i < size - 1 := by simp at hsize; omega
    have hlen : ¬ data.length < n := by omega
    rw [loop_cons]
    simp only [vaList, zmq_send_multipart, Zmq.call_fst, Zmq.call_snd_calls, List.map_nil,
      zmq_send_multipart_message.loop, hi, hlen, if_false, List.length_take, Nat.min_eq_left hn,
      Option.isSome_none, Bool.false_eq_true, List.length_append, List.length_singleton]
    cases h0 : w.ok w.calls.length <;> cases h1 : w.ok (w.calls.length + 1) <;>
      simp [Zmq.call, h0, h1]
  | cons p rest ih =>
    intro w data n i hn hrest hsize
    obtain ⟨data1, n1⟩ := p
    have hi : i < size - 1 := by simp at hsize; omega
    have hlen : ¬ data.length < n := by omega
    rw [loop_cons]
    simp only [vaList, zmq_send_multipart, Zmq.call_fst, Zmq.call_snd_calls, List.map_cons,
      hi, hlen, if_true, if_false, List.length_take, Nat.min_eq_left hn,
      Option.isSome_some, List.length_append, List.length_singleton]
    cases h0 : w.ok w.calls.length with
    | false => simp [Zmq.call]
    | true =>
      cases h1 : w.ok (w.calls.length + 1) with
      | false => simp [Zmq.call, h1]
      | true =>
        simp only [Zmq.call_snd_ok, h1, Bool.true_eq_false, if_false]
        rw [ih _ data1 n1 (i + 1) (hrest (data1, n1) (by simp))
          (fun p hp => hrest p (by simp [hp])) (by simp at hsize; omega)]
        simp [Zmq.call]

theorem SendCall.message_length (c : SendCall) (s : Nat) : (c.message s).length = c.parts := by
  cases c <;> simp [SendCall.message, SendCall.parts]

/-- Both overloads of `SendZmqMessage` run the loop on the message they build
and increment the counter unless the loop returned -1. -/
theorem SendCall.run_eq_loop (c : SendCall) (self : CZMQAbstractPublishNotifier) (w : Zmq)
    (hs : self.psocket ≠ 0) (hwf : c.wf) :
    c.run self w
      = if (zmq_send_multipart_message.loop self.psocket c.parts w 0
            (c.message self.nSequence)).1 = -1 then
          some (false, self,
            (zmq_send_multipart_message.loop self.psocket c.parts w 0
              (c.message self.nSequence)).2)
        else
          some (true, { self with nSequence := (self.nSequence + 1) % 2 ^ 32 },
            (zmq_send_multipart_message.loop self.psocket c.parts w 0
              (c.message self.nSequence)).2) := by
  cases c with
  | fixed command data size =>
    have h := zmq_send_multipart_eq_loop self.psocket 3
      [(data, size), (WriteLE32 self.nSequence, 4)] w command (strlen command) 0
      (strlen_le command)
      (by
        intro p hp
        simp only [List.mem_cons, List.mem_singleton, List.not_mem_nil, or_false] at hp
        rcases hp with rfl | rfl
        · exact hwf
        · simp [WriteLE32])
      (by simp)
    simp only [vaList] at h
    simp only [SendCall.run, CZMQAbstractPublishNotifier.SendZmqMessage, hs, if_false, h,
      SendCall.parts, SendCall.message, std_string, List.map_cons, List.map_nil]
    simp [WriteLE32]
  | structured now command payload =>
    have hm : ∀ l : List Byte, List.map (fun c => c) l = l := fun l => by simp
    simp only [SendCall.run, CZMQAbstractPublishNotifier.SendZmqMessage_payload, hs, if_false,
      SendCall.parts, SendCall.message, zmq_send_multipart_message, getCurrentTimeMillis, hm]
    have hl : ([std_string command] ++ [int64ToZMQMessagePart now] ++ payload
        ++ [int32ToZMQMessagePart (int32_of_uint32 self.nSequence)]).length
        = payload.length + 3 := by simp
    rw [hl]

/-- A send on an initialised notifier with a valid buffer returns. -/
theorem SendCall.run_total (c : SendCall) (self : CZMQAbstractPublishNotifier) (w : Zmq)
    (hs : self.psocket ≠ 0) (hwf : c.wf) :
    ∃ b self1 w1, c.run self w = some (b, self1, w1) := by
  rw [c.run_eq_loop self w hs hwf]
  split
  · exact ⟨_, _, _, rfl⟩
  · exact ⟨_, _, _, rfl⟩

/-- A send during which the oracle rejects a call returns false and leaves the
notifier as it was. -/
theorem SendCall.run_fail (c : SendCall) (self : CZMQAbstractPublishNotifier) (w : Zmq)
    (hs : self.psocket ≠ 0) (hwf : c.wf) (k : Nat) (hk : k < 2 * c.parts)
    (hfail : w.ok (w.calls.length + k) = false) :
    ∃ w1, c.run self w = some (false, self, w1) := by
  rw [c.run_eq_loop self w hs hwf]
  have h := loop_fails self.psocket c.parts (c.message self.nSequence) w 0 k
    (by rw [c.message_length]; exact hk) hfail
  rw [if_pos h]
  exact ⟨_, rfl⟩

/-- A send that returns false leaves the notifier as it was. -/
theorem SendCall.run_false (c : SendCall) (self self1 : CZMQAbstractPublishNotifier)
    (w w1 : Zmq) (h : c.run self w = some (false, self1, w1)) : self1 = self := by
  cases c with
  | fixed command data size =>
    simp only [SendCall.run, CZMQAbstractPublishNotifier.SendZmqMessage] at h
    split at h
    · exact absurd h (by simp)
    · split at h
      · exact absurd h (by simp)
      · split at h
        · simp only [Option.some.injEq, Prod.mk.injEq, true_and] at h
          exact h.1.symm
        · simp at h
  | structured now command payload =>
    simp only [SendCall.run, CZMQAbstractPublishNotifier.SendZmqMessage_payload] at h
    split at h
    · exact absurd h (by simp)
    · split at h
      · simp only [Option.some.injEq, Prod.mk.injEq, true_and] at h
        exact h.1.symm
      · simp at h

/-- A send that returns true was accepted at every call, incremented the
counter and issued the calls of its whole message. -/
theorem SendCall.run_true (c : SendCall) (self self1 : CZMQAbstractPublishNotifier)
    (w w1 : Zmq) (hwf : c.wf) (h : c.run self w = some (true, self1, w1)) :
    self.psocket ≠ 0 ∧ (∀ k, k < 2 * c.parts → w.ok (w.calls.length + k) = true) ∧
      self1 = { self with nSequence := (self.nSequence + 1) % 2 ^ 32 } ∧
      w1 = ⟨w.calls ++ messageCalls self.psocket (c.message self.nSequence), w.ok⟩ := by
  have hs : self.psocket ≠ 0 := by
    intro h0
    cases c <;>
      simp [SendCall.run, CZMQAbstractPublishNotifier.SendZmqMessage,
        CZMQAbstractPublishNotifier.SendZmqMessage_payload, h0] at h
  have hok : ∀ k, k < 2 * c.parts → w.ok (w.calls.length + k) = true := by
    intro k hk
    by_contra hne
    obtain ⟨w2, h2⟩ := c.run_fail self w hs hwf k hk (by simpa using hne)
    rw [h2] at h
    simp at h
  refine ⟨hs, hok, ?_⟩
  rw [c.run_eq_loop self w hs hwf,
    loop_succeeds self.psocket c.parts (c.message self.nSequence) w 0
      (by rw [c.message_length]; simp) (by rw [c.message_length]; exact hok)] at h
  simp only [Option.some.injEq, Prod.mk.injEq] at h
  rw [if_neg (by decide)] at h
  simp only [Option.some.injEq, Prod.mk.injEq, true_and] at h
  exact ⟨h.1.symm, h.2.symm⟩

/-- The parts among the calls of a message: every part but the last with
`ZMQ_SNDMORE`, the last with no flag. -/
theorem framesOf_messageCalls (sock : Nat) (init : List zmq_message_part)
    (last : zmq_message_part) :
    framesOf (messageCalls sock (init ++ [last]))
      = init.map (fun p => (⟨sock, p, ZMQ_SNDMORE⟩ : Frame)) ++ [⟨sock, last, 0⟩] := by
  induction init with
  | nil => simp [messageCalls, framesOf]
  | cons p rest ih =>
    cases rest with
    | nil => simp [messageCalls, framesOf]
    | cons q rest =>
      have : framesOf (messageCalls sock (p :: q :: rest ++ [last]))
          = ⟨sock, p, ZMQ_SNDMORE⟩ :: framesOf (messageCalls sock (q :: rest ++ [last])) := by
        simp [messageCalls, framesOf]
      rw [this, ih]
      simp

/-- Whatever the transport answers, the parts a send hands over are a prefix
of its message: the parts before the trailer, then the counter it read. -/
theorem SendCall.frames_prefix (c : SendCall) (self self1 : CZMQAbstractPublishNotifier)
    (w w1 : Zmq) (b : Bool) (hs : self.psocket ≠ 0) (hwf : c.wf)
    (h : c.run self w = some (b, self1, w1)) :
    w1.frames.drop w.frames.length
      <+: framesOf (messageCalls self.psocket (c.message self.nSequence)) := by
  obtain ⟨_, extra, hcalls, hpre⟩ := loop_prefix self.psocket c.parts
    (c.message self.nSequence) w 0 (by rw [c.message_length]; simp)
  have hw1 : w1 = (zmq_send_multipart_message.loop self.psocket c.parts w 0
      (c.message self.nSequence)).2 := by
    rw [c.run_eq_loop self w hs hwf] at h
    split at h
    · simp only [Option.some.injEq, Prod.mk.injEq] at h
      exact h.2.2.symm
    · simp only [Option.some.injEq, Prod.mk.injEq] at h
      exact h.2.2.symm
  rw [Zmq.frames, Zmq.frames, hw1, hcalls, framesOf_append, List.drop_left]
  exact List.IsPrefix.filterMap _ hpre

/-! ## Lemmas: the frame codec -/

theorem uint256.get_eq (hash : uint256) (i : Nat) (hi : i < hash.bytes.length) :
    hash.get i = hash.bytes[i] := by
  simp [uint256.get, List.getD_eq_getElem?_getD, List.getElem?_eq_getElem hi]

theorem hashToZMQMessagePart_loop_eq (hash : uint256) :
    ∀ (k : Nat) (part : zmq_message_part), k ≤ 32 →
      hashToZMQMessagePart.loop hash k part = part ++ (hash.bytes.take k).reverse := by
  intro k
  induction k with
  | zero => intro part _; simp [hashToZMQMessagePart.loop]
  | succ k ih =>
    intro part hk
    have hlt : k < hash.bytes.length := by rw [hash.size_eq]; omega
    have ht : List.take (k + 1) hash.bytes = List.take k hash.bytes ++ [hash.bytes[k]] := by
      rw [List.take_succ, List.getElem?_eq_getElem hlt]
      rfl
    rw [hashToZMQMessagePart.loop, ih _ (by omega), ht, hash.get_eq k hlt]
    simp only [List.reverse_append, List.reverse_cons, List.reverse_nil, List.nil_append,
      List.append_assoc, List.singleton_append]

/-- The part built from a hash is the hash's bytes in reverse order. -/
theorem hashToZMQMessagePart_eq_reverse (hash : uint256) :
    hashToZMQMessagePart hash = hash.bytes.reverse := by
  rw [hashToZMQMessagePart, hashToZMQMessagePart_loop_eq hash 32 [] (by omega),
    List.take_of_length_le (by rw [hash.size_eq])]
  simp

theorem reverseHashInto_loop_eq (hash : uint256) :
    ∀ (n i : Nat) (data : List Byte), i + n = 32 → n ≤ data.length →
      reverseHashInto.loop hash n i data = (hash.bytes.drop i).reverse ++ data.drop n := by
  intro n
  induction n with
  | zero =>
    intro i data hi _
    have : hash.bytes.length ≤ i := by rw [hash.size_eq]; omega
    simp [reverseHashInto.loop, List.drop_of_length_le this]
  | succ n ih =>
    intro i data hi hn
    have hlt : i < hash.bytes.length := by rw [hash.size_eq]; omega
    have h31 : 31 - i = n := by omega
    rw [reverseHashInto.loop, ih (i + 1) _ (by omega) (by rw [List.length_set]; omega), h31,
      List.drop_eq_getElem_cons hlt, hash.get_eq i hlt, List.reverse_cons,
      List.set_eq_take_append_cons_drop, if_pos (by omega),
      List.drop_append_of_le_length (by rw [List.length_take]; omega)]
    have htake : (List.take n data).length = n := by rw [List.length_take]; omega
    have hd : List.drop n (List.take n data) = [] := List.drop_of_length_le (by omega)
    rw [hd]
    simp

/-- The reversal loop overwrites the first 32 bytes of the array with the
hash's bytes in reverse order and leaves the rest of the array as it was. -/
theorem reverseHashInto_eq (hash : uint256) (data : List Byte) (h : 32 ≤ data.length) :
    reverseHashInto hash data = hash.bytes.reverse ++ data.drop 32 := by
  rw [reverseHashInto, reverseHashInto_loop_eq hash 32 0 data (by omega) h]
  simp

theorem int64ToZMQMessagePart_eq_div (v : Int) :
    int64ToZMQMessagePart v
      = [byteOfInt (v / 2 ^ 0), byteOfInt (v / 2 ^ 8), byteOfInt (v / 2 ^ 16),
          byteOfInt (v / 2 ^ 24), byteOfInt (v / 2 ^ 32), byteOfInt (v / 2 ^ 40),
          byteOfInt (v / 2 ^ 48), byteOfInt (v / 2 ^ 56)] := by
  simp [int64ToZMQMessagePart, int64ToZMQMessagePart.loop, Int.shiftRight_eq_div_pow]

theorem byteOfInt_val (x : Int) : ((byteOfInt x).val : Int) = x % 256 := by
  simp only [byteOfInt]
  omega

/-- The part of an `int64_t` is the little-endian encoding of its value
modulo 2 ^ 64. -/
theorem int64ToZMQMessagePart_eq_WriteLE64 (v : Int) :
    int64ToZMQMessagePart v = WriteLE64 (v % 2 ^ 64).toNat := by
  rw [int64ToZMQMessagePart_eq_div]
  simp only [WriteLE64, byteOfInt, byteOfNat, List.cons.injEq, Fin.mk.injEq, and_true]
  norm_num
  refine ⟨?_, ?_, ?_, ?_, ?_, ?_, ?_, ?_⟩ <;> omega

theorem decodeLE_WriteLE64 (u : Nat) (hu : u < 2 ^ 64) : decodeLE (WriteLE64 u) = u := by
  simp only [WriteLE64, decodeLE, byteOfNat]
  norm_num at hu ⊢
  omega

/-- The part of the counter in the structured shape is the little-endian
encoding of the counter. -/
theorem int32ToZMQMessagePart_uint32 (s : Nat) :
    int32ToZMQMessagePart (int32_of_uint32 s) = WriteLE32 s := by
  simp only [int32ToZMQMessagePart, int64ToZMQMessagePart.loop, Int.shiftRight_eq_div_pow,
    WriteLE32, int32_of_uint32, byteOfInt, byteOfNat]
  norm_num
  split <;> refine ⟨?_, ?_, ?_, ?_⟩ <;> omega

theorem takeWhile_append_of_all {α : Type} (p : α → Bool) (l r : List α)
    (h : ∀ a ∈ l, p a = true) : (l ++ r).takeWhile p = l ++ r.takeWhile p := by
  induction l with
  | nil => simp
  | cons a l ih =>
    have ha : p a = true := h a (by simp)
    simp [List.takeWhile_cons, ha, ih (fun b hb => h b (by simp [hb]))]

/-- The characters of a C string are the bytes before its terminating NUL. -/
theorem std_string_cstr (topic : List Byte) (h : ∀ b ∈ topic, b ≠ 0) :
    std_string (topic ++ [0]) = topic := by
  have htw : (topic ++ [0]).takeWhile (fun b => b != 0) = topic := by
    rw [takeWhile_append_of_all _ _ _ (by intro b hb; simpa using h b hb)]
    simp
  have hlen : strlen (topic ++ [0]) = topic.length := by rw [strlen, htw]
  rw [std_string, hlen, List.take_left]

theorem SendCall.message_eq (c : SendCall) (s : Nat) :
    c.message s = c.body ++ [WriteLE32 s] := by
  cases c <;> simp [SendCall.message, SendCall.body, int32ToZMQMessagePart_uint32]

/-- A send that returns true handed the transport the parts before the
trailer, each flagged `ZMQ_SNDMORE`, then the counter without flag. -/
theorem SendCall.frames_of_true (c : SendCall) (self self1 : CZMQAbstractPublishNotifier)
    (w w1 : Zmq) (hwf : c.wf) (h : c.run self w = some (true, self1, w1)) :
    w1.frames = w.frames
      ++ c.body.map (fun p => (⟨self.psocket, p, ZMQ_SNDMORE⟩ : Frame))
      ++ [⟨self.psocket, WriteLE32 self.nSequence, 0⟩] := by
  obtain ⟨_, _, _, hw⟩ := c.run_true self self1 w w1 hwf h
  rw [hw, Zmq.frames, Zmq.frames, framesOf_append, c.message_eq, framesOf_messageCalls,
    List.append_assoc]

/-! ## Lemmas: calls in sequence -/

theorem WriteLE32_injective (a b : Nat) (ha : a < 2 ^ 32) (hb : b < 2 ^ 32)
    (h : WriteLE32 a = WriteLE32 b) : a = b := by
  simp only [WriteLE32, byteOfNat, List.cons.injEq, Fin.mk.injEq, and_true] at h
  norm_num at ha hb h
  omega

theorem successes_cons (o : Bool × List Frame) (outs : List (Bool × List Frame)) :
    successes (o :: outs) = successes outs + (if o.1 = true then 1 else 0) := by
  cases ho : o.1 <;> simp [successes, List.filter_cons, ho]

/-- The parts a successful send handed over end with the counter it read. -/
theorem SendCall.last_frame_of_true (c : SendCall) (self self1 : CZMQAbstractPublishNotifier)
    (w w1 : Zmq) (hwf : c.wf) (h : c.run self w = some (true, self1, w1)) :
    (w1.frames.drop w.frames.length).getLast?.map Frame.data
      = some (WriteLE32 self.nSequence) := by
  rw [c.frames_of_true self self1 w w1 hwf h, List.append_assoc, List.drop_left,
    List.getLast?_concat]
  rfl

/-- The calls of a sequence all return; the counter ends at its first value
plus the number of successful calls, modulo 2 ^ 32; the parts every call
hands over are a prefix of its message built with the counter value reached
before that call; and the message of every successful call ends with that
counter value. -/
theorem runCalls_spec (cs : List SendCall) :
    ∀ (self : CZMQAbstractPublishNotifier) (w : Zmq), self.psocket ≠ 0 →
      self.nSequence < 2 ^ 32 → (∀ c ∈ cs, c.wf) →
      ∃ outs self1 w1, runCalls self w cs = some (outs, self1, w1) ∧
        outs.length = cs.length ∧
        self1.nSequence = (self.nSequence + successes outs) % 2 ^ 32 ∧
        (∀ (k : Nat) (c : SendCall) (b : Bool) (fs : List Frame),
          cs[k]? = some c → outs[k]? = some (b, fs) →
          fs <+: c.body.map (fun p => (⟨self.psocket, p, ZMQ_SNDMORE⟩ : Frame)) ++
            [⟨self.psocket,
              WriteLE32 ((self.nSequence + successes (outs.take k)) % 2 ^ 32), 0⟩]) ∧
        ∀ k b fs, outs[k]? = some (b, fs) → b = true →
          fs.getLast?.map Frame.data
            = some (WriteLE32 ((self.nSequence + successes (outs.take k)) % 2 ^ 32)) := by
  induction cs with
  | nil =>
    intro self w _ hseq _
    refine ⟨[], self, w, rfl, rfl, ?_, ?_, ?_⟩
    · show self.nSequence = (self.nSequence + 0) % 2 ^ 32
      rw [Nat.add_zero, Nat.mod_eq_of_lt hseq]
    · intro k c b fs hk; simp at hk
    · intro k b fs hk; simp at hk
  | cons c cs ih =>
    intro self w hs hseq hwf
    have hc : c.wf := hwf c (by simp)
    obtain ⟨b, self1, w1, hrun⟩ := c.run_total self w hs hc
    have hself1 : self1.psocket = self.psocket ∧ self1.nSequence < 2 ^ 32 ∧
        self1.nSequence = (self.nSequence + (if b = true then 1 else 0)) % 2 ^ 32 := by
      cases b with
      | true =>
        obtain ⟨_, _, h1, _⟩ := c.run_true self self1 w w1 hc hrun
        subst h1
        exact ⟨rfl, Nat.mod_lt _ (by norm_num), by simp⟩
      | false =>
        have h1 := c.run_false self self1 w w1 hrun
        subst h1
        refine ⟨rfl, hseq, ?_⟩
        show self1.nSequence = (self1.nSequence + 0) % 2 ^ 32
        rw [Nat.add_zero, Nat.mod_eq_of_lt hseq]
    obtain ⟨hp1, hseq1, hn1⟩ := hself1
    obtain ⟨outs, self2, w2, hrest, hlen, hfinal, hpre, hlast⟩ :=
      ih self1 w1 (by rw [hp1]; exact hs) hseq1 (fun c' hc' => hwf c' (by simp [hc']))
    have hstep : ∀ k, (self1.nSequence + successes (List.take k outs)) % 2 ^ 32
        = (self.nSequence
            + successes (List.take (k + 1) ((b, w1.frames.drop w.frames.length) :: outs)))
          % 2 ^ 32 := by
      intro k
      rw [hn1, List.take_succ_cons, successes_cons]
      norm_num
      omega
    refine ⟨(b, w1.frames.drop w.frames.length) :: outs, self2, w2, ?_, ?_, ?_, ?_, ?_⟩
    · simp [runCalls, hrun, hrest]
    · simp [hlen]
    · rw [hfinal, hn1, successes_cons]
      norm_num
      omega
    · intro k c' b' fs hck hk
      cases k with
      | zero =>
        simp only [List.getElem?_cons_zero, Option.some.injEq, Prod.mk.injEq] at hck hk
        obtain ⟨hb, hfs⟩ := hk
        subst hck hb hfs
        have hpf := c.frames_prefix self self1 w w1 b hs hc hrun
        rw [c.message_eq, framesOf_messageCalls] at hpf
        show _ <+: _ ++ [⟨self.psocket, WriteLE32 ((self.nSequence + 0) % 2 ^ 32), 0⟩]
        rw [Nat.add_zero, Nat.mod_eq_of_lt hseq]
        exact hpf
      | succ k =>
        simp only [List.getElem?_cons_succ] at hck hk
        have := hpre k c' b' fs hck hk
        rw [hp1, hstep k] at this
        exact this
    · intro k b' fs hk hb'
      cases k with
      | zero =>
        simp only [List.getElem?_cons_zero, Option.some.injEq, Prod.mk.injEq] at hk
        obtain ⟨hb, hfs⟩ := hk
        subst hb hfs hb'
        rw [c.last_frame_of_true self self1 w w1 hc hrun]
        show some (WriteLE32 self.nSequence) = some (WriteLE32 ((self.nSequence + 0) % 2 ^ 32))
        rw [Nat.add_zero, Nat.mod_eq_of_lt hseq]
      | succ k =>
        simp only [List.getElem?_cons_succ] at hk
        rw [hlast k b' fs hk hb', hstep k]

/-! ## Lemmas: the topic publishers -/

/-- A successful fixed-shape send on a C string topic: the three parts and the
counter afterwards. -/
theorem fixed_frames (self self1 : CZMQAbstractPublishNotifier) (w w1 : Zmq)
    (topic payload : List Byte) (htopic : ∀ b ∈ topic, b ≠ 0)
    (h : self.SendZmqMessage w (topic ++ [0]) (some payload) payload.length
      = some (true, self1, w1)) :
    w1.frames = w.frames ++
        [⟨self.psocket, topic, ZMQ_SNDMORE⟩, ⟨self.psocket, payload, ZMQ_SNDMORE⟩,
          ⟨self.psocket, WriteLE32 self.nSequence, 0⟩] ∧
      self1 = { self with nSequence := (self.nSequence + 1) % 2 ^ 32 } := by
  have hf := SendCall.frames_of_true (.fixed (topic ++ [0]) payload payload.length)
    self self1 w w1 (Nat.le_refl _) h
  obtain ⟨_, _, h1, _⟩ := SendCall.run_true (.fixed (topic ++ [0]) payload payload.length)
    self self1 w w1 (Nat.le_refl _) h
  refine ⟨?_, h1⟩
  rw [hf]
  simp [SendCall.body, std_string_cstr topic htopic]

/-- A successful structured send on a C string topic: the parts and the
counter afterwards. -/
theorem structured_frames (self self1 : CZMQAbstractPublishNotifier) (w w1 : Zmq)
    (now : Int) (topic : List Byte) (payload : List zmq_message_part)
    (htopic : ∀ b ∈ topic, b ≠ 0)
    (h : self.SendZmqMessage_payload w now (topic ++ [0]) payload = some (true, self1, w1)) :
    w1.frames = w.frames ++
        [⟨self.psocket, topic, ZMQ_SNDMORE⟩,
          ⟨self.psocket, int64ToZMQMessagePart now, ZMQ_SNDMORE⟩]
        ++ payload.map (fun p => (⟨self.psocket, p, ZMQ_SNDMORE⟩ : Frame))
        ++ [⟨self.psocket, WriteLE32 self.nSequence, 0⟩] ∧
      self1 = { self with nSequence := (self.nSequence + 1) % 2 ^ 32 } := by
  have hf := SendCall.frames_of_true (.structured now (topic ++ [0]) payload)
    self self1 w w1 trivial h
  obtain ⟨_, _, h1, _⟩ := SendCall.run_true (.structured now (topic ++ [0]) payload)
    self self1 w w1 trivial h
  refine ⟨?_, h1⟩
  rw [hf]
  simp [SendCall.body, std_string_cstr topic htopic]

set_option maxRecDepth 8192 in
/-- The topic literals used below contain no NUL character. -/
theorem topics_nul_free :
    (∀ b ∈ ascii "hashblock", b ≠ 0) ∧ (∀ b ∈ ascii "hashtx", b ≠ 0) ∧
      (∀ b ∈ ascii "sequence", b ≠ 0) ∧ (∀ b ∈ ascii "mempooladded", b ≠ 0) := by
  decide

/-- The fixed-shape send reads only the first `size` bytes of its buffer. -/
theorem SendZmqMessage_take (self : CZMQAbstractPublishNotifier) (w : Zmq)
    (command data : List Byte) (size : Nat) (h : size ≤ data.length) :
    self.SendZmqMessage w command (some data) size
      = self.SendZmqMessage w command (some (data.take size)) (data.take size).length := by
  have hl : (data.take size).length = size := by rw [List.length_take]; omega
  by_cases hs : self.psocket = 0
  · simp [CZMQAbstractPublishNotifier.SendZmqMessage, hs]
  · have h1 := SendCall.run_eq_loop (.fixed command data size) self w hs h
    have h2 := SendCall.run_eq_loop (.fixed command (data.take size) (data.take size).length)
      self w hs (Nat.le_refl _)
    simp only [SendCall.run, SendCall.message, SendCall.parts] at h1 h2
    rw [h1, h2, hl, List.take_take, Nat.min_self]

/-- The array that `SendSequenceMsg` sends, for an event without mempool
sequence: the first 33 bytes are the reversed hash and the label. -/
theorem sequence_data_none (hash : uint256) (label : Byte) (data : Buffer 41) :
    ((reverseHashInto hash data.bytes).set 32 label).take 33 = hash.bytes.reverse ++ [label] := by
  have hd : 32 ≤ data.bytes.length := by rw [data.size_eq]; omega
  have hr : hash.bytes.reverse.length = 32 := by rw [List.length_reverse, hash.size_eq]
  have hdrop : 0 < (data.bytes.drop 32).length := by rw [List.length_drop, data.size_eq]; omega
  rw [reverseHashInto_eq hash data.bytes hd, List.set_append_right _ _ (by omega), hr]
  obtain ⟨x, xs, hx⟩ := List.exists_cons_of_length_pos hdrop
  rw [hx]
  have : (33 : Nat) = hash.bytes.reverse.length + 1 := by omega
  rw [this, List.take_append]
  simp

/-- The array that `SendSequenceMsg` sends, for an event with mempool
sequence: the reversed hash, the label and the eight bytes of the sequence. -/
theorem sequence_data_some (hash : uint256) (label : Byte) (data : Buffer 41) (m : Nat) :
    storeAt ((reverseHashInto hash data.bytes).set 32 label) (32 + 1) (WriteLE64 m)
      = hash.bytes.reverse ++ [label] ++ WriteLE64 m := by
  have hlen : ((reverseHashInto hash data.bytes).set 32 label).length = 41 := by
    have hd : 32 ≤ data.bytes.length := by rw [data.size_eq]; omega
    rw [List.length_set, reverseHashInto_eq hash data.bytes hd, List.length_append,
      List.length_reverse, hash.size_eq, List.length_drop, data.size_eq]
  rw [storeAt, sequence_data_none, List.drop_of_length_le (by rw [hlen]; simp [WriteLE64])]
  simp

/-- The call of the send primitive that `SendSequenceMsg` makes. -/
theorem SendSequenceMsg_eq (data : Buffer 41) (self : CZMQAbstractPublishNotifier) (w : Zmq)
    (hash : uint256) (label : Char) (sequence : Option Nat) :
    SendSequenceMsg data self w hash label sequence
      = self.SendZmqMessage w (cstr "sequence")
          (some (hash.bytes.reverse ++ [byteOfNat label.toNat] ++
            (match sequence with
              | some m => WriteLE64 m
              | none => [])))
          (if sequence.isSome then 41 else 33) := by
  have hr : hash.bytes.reverse.length = 32 := by rw [List.length_reverse, hash.size_eq]
  have hlen : ((reverseHashInto hash data.bytes).set 32 (byteOfNat label.toNat)).length = 41 := by
    have hd : 32 ≤ data.bytes.length := by rw [data.size_eq]; omega
    rw [List.length_set, reverseHashInto_eq hash data.bytes hd, List.length_append, hr,
      List.length_drop, data.size_eq]
  cases sequence with
  | none =>
    simp only [SendSequenceMsg, Option.isSome_none, Bool.false_eq_true, if_false,
      List.append_nil, MSG_SEQUENCE]
    rw [SendZmqMessage_take _ _ _ _ _ (by rw [hlen]; omega), sequence_data_none]
    simp [hr]
  | some m =>
    simp only [SendSequenceMsg, Option.isSome_some, if_true, MSG_SEQUENCE]
    rw [sequence_data_some]

/-- The 32-byte local array after the reversal loop holds the reversed hash. -/
theorem reverseHashInto_buffer (hash : uint256) (data : Buffer 32) :
    reverseHashInto hash data.bytes = hash.bytes.reverse := by
  rw [reverseHashInto_eq hash data.bytes (by rw [data.size_eq]),
    List.drop_of_length_le (by rw [data.size_eq]), List.append_nil]

theorem NotifyBlock_eq (self : CZMQAbstractPublishNotifier) (w : Zmq) (data : Buffer 32)
    (pindex : CBlockIndex) :
    CZMQPublishHashBlockNotifier.NotifyBlock self w data pindex
      = self.SendZmqMessage w (ascii "hashblock" ++ [0]) (some pindex.GetBlockHash.bytes.reverse)
          pindex.GetBlockHash.bytes.reverse.length := by
  rw [CZMQPublishHashBlockNotifier.NotifyBlock, reverseHashInto_buffer, List.length_reverse,
    pindex.GetBlockHash.size_eq]
  rfl

theorem NotifyTransaction_eq (self : CZMQAbstractPublishNotifier) (w : Zmq) (data : Buffer 32)
    (transaction : CTransaction) :
    CZMQPublishHashTransactionNotifier.NotifyTransaction self w data transaction
      = self.SendZmqMessage w (ascii "hashtx" ++ [0]) (some transaction.GetHash.bytes.reverse)
          transaction.GetHash.bytes.reverse.length := by
  rw [CZMQPublishHashTransactionNotifier.NotifyTransaction, reverseHashInto_buffer,
    List.length_reverse, transaction.GetHash.size_eq]
  rfl

theorem reverse_getElem_opt (hash : uint256) (i : Nat) (hi : i < 32) :
    hash.bytes.reverse[i]? = some (hash.get (31 - i)) := by
  have hlen : hash.bytes.length = 32 := hash.size_eq
  rw [List.getElem?_reverse (by omega), hlen, uint256.get,
    List.getD_eq_getElem?_getD, List.getElem?_eq_getElem (by omega)]
  have : 32 - 1 - i = 31 - i := by omega
  simp [this]

/-- A null `data` pointer is read by the variadic primitive as the end of its
argument list: the call then sends the topic alone, without flag, and reports
success when the transport accepts it. The claims below are about payloads
held in a buffer, that is a non-null `data`. -/
theorem SendZmqMessage_null_data (self : CZMQAbstractPublishNotifier) (w : Zmq)
    (command : List Byte) (size : Nat) (hs : self.psocket ≠ 0)
    (h0 : w.ok w.calls.length = true) (h1 : w.ok (w.calls.length + 1) = true) :
    self.SendZmqMessage w command none size
      = some (true, { self with nSequence := (self.nSequence + 1) % 2 ^ 32 },
          ⟨w.calls ++ [.zmq_msg_init_size (strlen command),
            .zmq_msg_send self.psocket (command.take (strlen command)) 0], w.ok⟩) := by
  have hl : ¬ command.length < strlen command := by
    have := strlen_le command
    omega
  simp [CZMQAbstractPublishNotifier.SendZmqMessage, zmq_send_multipart, Zmq.call, hs, h0, h1, hl]

/-! ## Lemmas: the endpoint multiplexer -/

theorem Initialize_frame (LookupHost : String → Bool) (this pcontext : Nat) (W W1 : World)
    (b : Bool) (h : CZMQAbstractPublishNotifier.Initialize LookupHost this pcontext W = some (b, W1)) :
    ∃ s, W1.heap = Function.update W.heap this { W.heap this with psocket := s } := by
  unfold CZMQAbstractPublishNotifier.Initialize at h
  simp only at h
  repeat' split at h
  all_goals first
    | (simp only [Option.some.injEq, Prod.mk.injEq] at h
       obtain ⟨_, rfl⟩ := h
       exact ⟨_, rfl⟩)
    | cases h

theorem Shutdown_frame (this : Nat) (W : World) :
    ∃ s, (CZMQAbstractPublishNotifier.Shutdown this W).heap
      = Function.update W.heap this { W.heap this with psocket := s } := by
  by_cases h : (W.heap this).psocket = 0
  · refine ⟨(W.heap this).psocket, ?_⟩
    have e : ({ W.heap this with psocket := (W.heap this).psocket }
        : CZMQAbstractPublishNotifier) = W.heap this := rfl
    rw [e, Function.update_eq_self]
    simp only [CZMQAbstractPublishNotifier.Shutdown, h, if_true]
  · exact ⟨0, by simp [CZMQAbstractPublishNotifier.Shutdown, h]⟩

theorem SendCall.run_result (c : SendCall) (self self1 : CZMQAbstractPublishNotifier)
    (w w1 : Zmq) (b : Bool) (h : c.run self w = some (b, self1, w1)) :
    self1 = if b = true then { self with nSequence := (self.nSequence + 1) % 2 ^ 32 } else self := by
  cases c with
  | fixed command data size =>
    simp only [SendCall.run, CZMQAbstractPublishNotifier.SendZmqMessage] at h
    repeat' split at h
    all_goals first
      | (simp only [Option.some.injEq, Prod.mk.injEq] at h
         obtain ⟨rfl, rfl, _⟩ := h
         simp)
      | cases h
  | structured now command payload =>
    simp only [SendCall.run, CZMQAbstractPublishNotifier.SendZmqMessage_payload] at h
    repeat' split at h
    all_goals first
      | (simp only [Option.some.injEq, Prod.mk.injEq] at h
         obtain ⟨rfl, rfl, _⟩ := h
         simp)
      | cases h

theorem Initialize_live (LookupHost : String → Bool) (this pcontext : Nat) (W : World)
    (i : String × Nat) (h0 : (W.heap this).psocket = 0)
    (hfind : W.mapPublishNotifiers.find? (fun e => e.1 == (W.heap this).address) = some i) :
    CZMQAbstractPublishNotifier.Initialize LookupHost this pcontext W
      = some (true,
          { W with
            heap := Function.update W.heap this
              { W.heap this with psocket := (W.heap i.2).psocket },
            mapPublishNotifiers := W.mapPublishNotifiers ++ [((W.heap this).address, this)] }) := by
  simp [CZMQAbstractPublishNotifier.Initialize, h0, hfind]

theorem Initialize_absent_ok (LookupHost : String → Bool) (this pcontext : Nat) (W : World)
    (h0 : (W.heap this).psocket = 0)
    (hfind : W.mapPublishNotifiers.find? (fun e => e.1 == (W.heap this).address) = none)
    (hok : ∀ k, k < 5 → W.zmq.ok (W.zmq.calls.length + k) = true) :
    CZMQAbstractPublishNotifier.Initialize LookupHost this pcontext W
      = some (true,
          { zmq := ⟨W.zmq.calls ++
              initializeCalls LookupHost pcontext (W.zmq.calls.length + 1) (W.heap this),
              W.zmq.ok⟩,
            heap := Function.update W.heap this
              { W.heap this with psocket := W.zmq.calls.length + 1 },
            mapPublishNotifiers := W.mapPublishNotifiers ++ [((W.heap this).address, this)] }) := by
  have k0 : W.zmq.ok W.zmq.calls.length = true := hok 0 (by omega)
  have k1 := hok 1 (by omega)
  have k2 : W.zmq.ok (W.zmq.calls.length + 1 + 1) = true := hok 2 (by omega)
  have k3 : W.zmq.ok (W.zmq.calls.length + 1 + 1 + 1) = true := hok 3 (by omega)
  have k4 : W.zmq.ok (W.zmq.calls.length + 1 + 1 + 1 + 1) = true := hok 4 (by omega)
  simp [CZMQAbstractPublishNotifier.Initialize, h0, hfind, Zmq.call, k0, k1, k2, k3, k4,
    initializeCalls]

theorem Initialize_absent_fail_at (LookupHost : String → Bool) (this pcontext : Nat) (W : World)
    (h0 : (W.heap this).psocket = 0)
    (hfind : W.mapPublishNotifiers.find? (fun e => e.1 == (W.heap this).address) = none)
    (j : Nat) (hj : j < 5) (hok : ∀ k, k < j → W.zmq.ok (W.zmq.calls.length + k) = true)
    (hfail : W.zmq.ok (W.zmq.calls.length + j) = false) :
    CZMQAbstractPublishNotifier.Initialize LookupHost this pcontext W
      = some (false,
          { zmq := ⟨W.zmq.calls ++
              (initializeCalls LookupHost pcontext (W.zmq.calls.length + 1) (W.heap this)).take
                (j + 1)
              ++ (if j = 0 then [] else [.zmq_close (W.zmq.calls.length + 1)]), W.zmq.ok⟩,
            heap := Function.update W.heap this
              { W.heap this with psocket := if j = 0 then 0 else W.zmq.calls.length + 1 },
            mapPublishNotifiers := W.mapPublishNotifiers }) := by
  have e1 : W.zmq.calls.length + 1 + 1 = W.zmq.calls.length + 2 := rfl
  have e2 : W.zmq.calls.length + 1 + 1 + 1 = W.zmq.calls.length + 3 := rfl
  have e3 : W.zmq.calls.length + 1 + 1 + 1 + 1 = W.zmq.calls.length + 4 := rfl
  interval_cases j
  · have k0 : W.zmq.ok W.zmq.calls.length = false := hfail
    simp [CZMQAbstractPublishNotifier.Initialize, h0, hfind, Zmq.call, k0, initializeCalls]
  · have k0 : W.zmq.ok W.zmq.calls.length = true := hok 0 (by omega)
    simp [CZMQAbstractPublishNotifier.Initialize, h0, hfind, Zmq.call, k0, hfail,
      initializeCalls]
  · have k0 : W.zmq.ok W.zmq.calls.length = true := hok 0 (by omega)
    have k1 := hok 1 (by omega)
    simp [CZMQAbstractPublishNotifier.Initialize, h0, hfind, Zmq.call, k0, k1, e1, hfail,
      initializeCalls]
  · have k0 : W.zmq.ok W.zmq.calls.length = true := hok 0 (by omega)
    have k1 := hok 1 (by omega)
    have k2 := hok 2 (by omega)
    simp [CZMQAbstractPublishNotifier.Initialize, h0, hfind, Zmq.call, k0, k1, k2, e1, e2,
      hfail, initializeCalls]
  · have k0 : W.zmq.ok W.zmq.calls.length = true := hok 0 (by omega)
    have k1 := hok 1 (by omega)
    have k2 := hok 2 (by omega)
    have k3 := hok 3 (by omega)
    simp [CZMQAbstractPublishNotifier.Initialize, h0, hfind, Zmq.call, k0, k1, k2, k3, e1, e2,
      e3, hfail, initializeCalls]

/-- Among finitely many answers of which one is a rejection there is a first
rejection. -/
theorem first_rejection (ok : Nat → Bool) (n : Nat) :
    ∀ m k, k < m → ok (n + k) = false →
      ∃ j, j < m ∧ (∀ i, i < j → ok (n + i) = true) ∧ ok (n + j) = false := by
  intro m
  induction m with
  | zero => intro k hk; omega
  | succ m ih =>
    intro k hk hfail
    by_cases hex : ∃ i, i < m ∧ ok (n + i) = false
    · obtain ⟨i, hi, hif⟩ := hex
      obtain ⟨j, hj, h1, h2⟩ := ih i hi hif
      exact ⟨j, by omega, h1, h2⟩
    · have hall : ∀ i, i < m → ok (n + i) = true := by
        intro i hi
        by_contra hne
        exact hex ⟨i, hi, by simpa using hne⟩
      have hkm : k = m := by
        by_contra hne
        have := hall k (by omega)
        rw [hfail] at this
        cases this
      exact ⟨m, by omega, hall, hkm ▸ hfail⟩

theorem eraseP_entry (l : List (String × Nat)) (a : String) (p : Nat) :
    l.eraseP (fun e => e.1 == a && e.2 == p) = l.erase (a, p) := by
  rw [List.erase_eq_eraseP']
  congr 1

theorem Shutdown_live (this : Nat) (W : World) (h : (W.heap this).psocket ≠ 0) :
    CZMQAbstractPublishNotifier.Shutdown this W
      = { zmq :=
            if W.count (W.heap this).address = 1 then
              ⟨W.zmq.calls ++ [.zmq_setsockopt (W.heap this).psocket ZMQ_LINGER 0,
                .zmq_close (W.heap this).psocket], W.zmq.ok⟩
            else W.zmq,
          heap := Function.update W.heap this { W.heap this with psocket := 0 },
          mapPublishNotifiers := W.mapPublishNotifiers.erase ((W.heap this).address, this) } := by
  simp only [CZMQAbstractPublishNotifier.Shutdown, h, if_false, eraseP_entry]
  by_cases hc : W.count (W.heap this).address = 1 <;> simp [hc, Zmq.call]

theorem endpoints_append (w : Zmq) (cs : List ZmqCall) (a : String) :
    Zmq.endpoints ⟨w.calls ++ cs, w.ok⟩ a
      = (cs.enumFrom w.calls.length).foldl (endpointsStep w.ok a) (w.endpoints a) := by
  simp [Zmq.endpoints, List.enum_append, List.foldl_append]

theorem endpoints_initialize (LookupHost : String → Bool) (pcontext sock : Nat)
    (self : CZMQAbstractPublishNotifier) (w : Zmq) (a : String)
    (hok : w.ok (w.calls.length + 4) = true) :
    Zmq.endpoints ⟨w.calls ++ initializeCalls LookupHost pcontext sock self, w.ok⟩ a
      = if self.address = a then w.endpoints a ++ [sock] else w.endpoints a := by
  rw [endpoints_append]
  simp [initializeCalls, endpointsStep, hok]

theorem endpoints_shutdown (w : Zmq) (sock : Nat) (a : String) :
    Zmq.endpoints ⟨w.calls ++ [.zmq_setsockopt sock ZMQ_LINGER 0, .zmq_close sock], w.ok⟩ a
      = (w.endpoints a).filter (fun h => h ≠ sock) := by
  rw [endpoints_append]
  simp [endpointsStep]

theorem Inv_start (ok : Nat → Bool) (heap : Nat → CZMQAbstractPublishNotifier)
    (h : ∀ p, (heap p).psocket = 0) : Inv (World.start ok heap) where
  reg_addr := by intro e he; simp [World.start] at he
  reg_sock := by intro e he; simp [World.start] at he
  unreg := by intro p hp; exact absurd (h p) hp
  nodup := by simp [World.start]
  shared := by intro a ⟨e, he, _⟩; simp [World.start] at he
  absent := by intro a _; rfl
  fresh := by intro a x hx; simp [World.start, Zmq.endpoints] at hx
  disjoint := by intro a a' x hx; simp [World.start, Zmq.endpoints] at hx

/-- The invariant after `Initialize` registered the notifier under its address
with socket `s`, when neither the library nor any endpoint list changed. -/
theorem Inv_register (W : World) (this s : Nat) (hInv : Inv W)
    (h0 : (W.heap this).psocket = 0) (hs : s ≠ 0) (zmq1 : Zmq)
    (hnew : ∀ e ∈ W.mapPublishNotifiers, e.1 = (W.heap this).address → (W.heap e.2).psocket = s)
    (hend : zmq1.endpoints (W.heap this).address = [s])
    (hother : ∀ a, a ≠ (W.heap this).address → zmq1.endpoints a = W.zmq.endpoints a)
    (hlen : W.zmq.calls.length ≤ zmq1.calls.length) (hfresh : s ≤ zmq1.calls.length)
    (hdisj : ∀ a, a ≠ (W.heap this).address → s ∉ W.zmq.endpoints a) :
    Inv { zmq := zmq1,
          heap := Function.update W.heap this { W.heap this with psocket := s },
          mapPublishNotifiers := W.mapPublishNotifiers ++ [((W.heap this).address, this)] } := by
  have F1 : ∀ e ∈ W.mapPublishNotifiers, e.2 ≠ this := by
    intro e he heq
    exact hInv.reg_sock e he (heq ▸ h0)
  have F2 : ∀ e ∈ W.mapPublishNotifiers,
      Function.update W.heap this { W.heap this with psocket := s } e.2 = W.heap e.2 :=
    fun e he => Function.update_noteq (F1 e he) _ _
  constructor
  · intro e he
    simp only [List.mem_append, List.mem_singleton] at he
    rcases he with he | rfl
    · simp only [F2 e he]; exact hInv.reg_addr e he
    · simp
  · intro e he
    simp only [List.mem_append, List.mem_singleton] at he
    rcases he with he | rfl
    · simp only [F2 e he]; exact hInv.reg_sock e he
    · simpa using hs
  · intro p hp
    by_cases hpt : p = this
    · subst hpt; simp
    · simp only [Function.update_noteq hpt] at hp ⊢
      exact List.mem_append_left _ (hInv.unreg p hp)
  · rw [List.nodup_append]
    refine ⟨hInv.nodup, List.nodup_singleton _, ?_⟩
    intro e he hx
    simp only [List.mem_singleton] at hx
    exact F1 e he (by rw [hx])
  · intro a ⟨e, he, hea⟩
    by_cases ha : a = (W.heap this).address
    · subst ha
      refine ⟨s, hs, ?_, hend⟩
      intro e' he' hea'
      simp only [List.mem_append, List.mem_singleton] at he'
      rcases he' with he' | rfl
      · simp only [F2 e' he']; exact hnew e' he' hea'
      · simp
    · simp only [List.mem_append, List.mem_singleton] at he
      have hem : e ∈ W.mapPublishNotifiers := by
        rcases he with he | rfl
        · exact he
        · exact absurd hea.symm ha
      obtain ⟨h, hh, hall, hep⟩ := hInv.shared a ⟨e, hem, hea⟩
      refine ⟨h, hh, ?_, by rw [hother a ha]; exact hep⟩
      intro e' he' hea'
      simp only [List.mem_append, List.mem_singleton] at he'
      rcases he' with he' | rfl
      · simp only [F2 e' he']; exact hall e' he' hea'
      · exact absurd hea'.symm ha
  · intro a hall
    have ha : a ≠ (W.heap this).address := by
      intro heq
      exact hall ((W.heap this).address, this) (by simp) heq.symm
    rw [hother a ha]
    exact hInv.absent a (fun e he => hall e (List.mem_append_left _ he))
  · intro a h hh
    by_cases ha : a = (W.heap this).address
    · subst ha
      rw [hend] at hh
      simp only [List.mem_singleton] at hh
      rw [hh]; exact hfresh
    · rw [hother a ha] at hh
      exact Nat.le_trans (hInv.fresh a h hh) hlen
  · intro a a' h hh hh'
    by_cases ha : a = (W.heap this).address
    · by_cases ha' : a' = (W.heap this).address
      · rw [ha, ha']
      · subst ha
        rw [hend] at hh
        simp only [List.mem_singleton] at hh
        rw [hother a' ha'] at hh'
        exact absurd (hh ▸ hh') (hdisj a' ha')
    · by_cases ha' : a' = (W.heap this).address
      · subst ha'
        rw [hend] at hh'
        simp only [List.mem_singleton] at hh'
        rw [hother a ha] at hh
        exact absurd (hh' ▸ hh) (hdisj a ha)
      · rw [hother a ha] at hh
        rw [hother a' ha'] at hh'
        exact hInv.disjoint a a' h hh hh'

theorem Inv_Initialize (LookupHost : String → Bool) (this pcontext : Nat) (W W1 : World)
    (hInv : Inv W)
    (h : CZMQAbstractPublishNotifier.Initialize LookupHost this pcontext W = some (true, W1)) :
    Inv W1 := by
  have h0 : (W.heap this).psocket = 0 := by
    by_contra hne
    simp [CZMQAbstractPublishNotifier.Initialize, hne] at h
  cases hfind : W.mapPublishNotifiers.find? (fun e => e.1 == (W.heap this).address) with
  | some i =>
    rw [Initialize_live LookupHost this pcontext W i h0 hfind] at h
    simp only [Option.some.injEq, Prod.mk.injEq, true_and] at h
    subst h
    have hi : i ∈ W.mapPublishNotifiers := List.mem_of_find?_eq_some hfind
    have hia : i.1 = (W.heap this).address := by
      have := List.find?_some hfind
      simpa using this
    obtain ⟨s, hs, hall, hend⟩ := hInv.shared _ ⟨i, hi, hia⟩
    rw [hall i hi hia]
    exact Inv_register W this s hInv h0 hs W.zmq hall hend (fun _ _ => rfl) (Nat.le_refl _)
      (hInv.fresh _ s (by rw [hend]; simp))
      (fun a ha hmem => ha (hInv.disjoint a _ s hmem (by rw [hend]; simp)))
  | none =>
    have hnone : ∀ e ∈ W.mapPublishNotifiers, e.1 ≠ (W.heap this).address := by
      intro e he
      have := List.find?_eq_none.mp hfind e he
      simpa using this
    have hok : ∀ k, k < 5 → W.zmq.ok (W.zmq.calls.length + k) = true := by
      intro k hk
      by_contra hne
      obtain ⟨j, hj, hjok, hjfail⟩ :=
        first_rejection W.zmq.ok W.zmq.calls.length 5 k hk (by simpa using hne)
      rw [Initialize_absent_fail_at LookupHost this pcontext W h0 hfind j hj hjok hjfail] at h
      simp at h
    rw [Initialize_absent_ok LookupHost this pcontext W h0 hfind hok] at h
    simp only [Option.some.injEq, Prod.mk.injEq, true_and] at h
    subst h
    have hold : W.zmq.endpoints (W.heap this).address = [] := hInv.absent _ hnone
    have hend : ∀ a, Zmq.endpoints ⟨W.zmq.calls ++
          initializeCalls LookupHost pcontext (W.zmq.calls.length + 1) (W.heap this), W.zmq.ok⟩ a
        = if (W.heap this).address = a then W.zmq.endpoints a ++ [W.zmq.calls.length + 1]
          else W.zmq.endpoints a :=
      fun a => endpoints_initialize LookupHost pcontext _ _ W.zmq a (hok 4 (by omega))
    refine Inv_register W this (W.zmq.calls.length + 1) hInv h0 (by omega) _ ?_ ?_ ?_ ?_ ?_ ?_
    · intro e he hea
      exact absurd hea (hnone e he)
    · rw [hend, if_pos rfl, hold]; rfl
    · intro a ha
      rw [hend, if_neg (fun h => ha h.symm)]
    · simp
    · simp [initializeCalls]
    · intro a _ hmem
      have := hInv.fresh a _ hmem
      omega

theorem Inv_Shutdown (this : Nat) (W : World) (hInv : Inv W) :
    Inv (CZMQAbstractPublishNotifier.Shutdown this W) := by
  by_cases h0 : (W.heap this).psocket = 0
  · have : CZMQAbstractPublishNotifier.Shutdown this W = W := by
      simp [CZMQAbstractPublishNotifier.Shutdown, h0]
    rw [this]; exact hInv
  rw [Shutdown_live this W h0]
  have hreg := hInv.unreg this h0
  have hmem : ∀ e, e ∈ W.mapPublishNotifiers.erase ((W.heap this).address, this) ↔
      e ≠ ((W.heap this).address, this) ∧ e ∈ W.mapPublishNotifiers :=
    fun e => hInv.nodup.mem_erase_iff
  have F1 : ∀ e ∈ W.mapPublishNotifiers.erase ((W.heap this).address, this), e.2 ≠ this := by
    intro e he heq
    obtain ⟨hne, hin⟩ := (hmem e).mp he
    apply hne
    have := hInv.reg_addr e hin
    rw [heq] at this
    exact Prod.ext this.symm heq
  have F2 : ∀ (x : CZMQAbstractPublishNotifier),
      ∀ e ∈ W.mapPublishNotifiers.erase ((W.heap this).address, this),
      Function.update W.heap this x e.2 = W.heap e.2 :=
    fun x e he => Function.update_noteq (F1 e he) _ _
  obtain ⟨s, hs, hall, hend⟩ := hInv.shared _ ⟨_, hreg, rfl⟩
  have hsock : (W.heap this).psocket = s := hall _ hreg rfl
  -- entries of other addresses survive
  have hkeep : ∀ a, a ≠ (W.heap this).address → ∀ e ∈ W.mapPublishNotifiers, e.1 = a →
      e ∈ W.mapPublishNotifiers.erase ((W.heap this).address, this) := by
    intro a ha e he hea
    refine (hmem e).mpr ⟨?_, he⟩
    intro heq
    rw [heq] at hea
    exact ha hea.symm
  have hbase : (∀ e ∈ W.mapPublishNotifiers.erase ((W.heap this).address, this),
        (Function.update W.heap this { W.heap this with psocket := 0 } e.2).address = e.1) ∧
      (∀ e ∈ W.mapPublishNotifiers.erase ((W.heap this).address, this),
        (Function.update W.heap this { W.heap this with psocket := 0 } e.2).psocket ≠ 0) ∧
      (∀ p, (Function.update W.heap this { W.heap this with psocket := 0 } p).psocket ≠ 0 →
        ((Function.update W.heap this { W.heap this with psocket := 0 } p).address, p)
          ∈ W.mapPublishNotifiers.erase ((W.heap this).address, this)) := by
    refine ⟨?_, ?_, ?_⟩
    · intro e he
      rw [F2 _ e he]; exact hInv.reg_addr e ((hmem e).mp he).2
    · intro e he
      rw [F2 _ e he]; exact hInv.reg_sock e ((hmem e).mp he).2
    · intro p hp
      by_cases hpt : p = this
      · subst hpt; simp at hp
      · simp only [Function.update_noteq hpt] at hp ⊢
        refine (hmem _).mpr ⟨?_, hInv.unreg p hp⟩
        intro heq
        exact hpt (congrArg Prod.snd heq)
  obtain ⟨b1, b2, b3⟩ := hbase
  by_cases hc : W.count (W.heap this).address = 1
  · rw [if_pos hc]
    have hend' : ∀ a, Zmq.endpoints ⟨W.zmq.calls ++
          [.zmq_setsockopt (W.heap this).psocket ZMQ_LINGER 0,
            .zmq_close (W.heap this).psocket], W.zmq.ok⟩ a
        = (W.zmq.endpoints a).filter (fun h => h ≠ (W.heap this).psocket) :=
      fun a => endpoints_shutdown W.zmq _ a
    -- the notifier was the only entry of its address
    have honly : ∀ e ∈ W.mapPublishNotifiers, e.1 = (W.heap this).address →
        e = ((W.heap this).address, this) := by
      intro e he hea
      have hf : ∀ x, x ∈ W.mapPublishNotifiers.filter (fun e => e.1 == (W.heap this).address) ↔
          x ∈ W.mapPublishNotifiers ∧ x.1 = (W.heap this).address := by
        intro x; simp [List.mem_filter]
      have hlen : (W.mapPublishNotifiers.filter
          (fun e => e.1 == (W.heap this).address)).length = 1 := hc
      obtain ⟨x, hx⟩ := List.length_eq_one.mp hlen
      have h1 : e ∈ [x] := hx ▸ (hf e).mpr ⟨he, hea⟩
      have h2 : ((W.heap this).address, this) ∈ [x] := hx ▸ (hf _).mpr ⟨hreg, rfl⟩
      simp only [List.mem_singleton] at h1 h2
      rw [h1, h2]
    have hgone : ∀ e ∈ W.mapPublishNotifiers.erase ((W.heap this).address, this),
        e.1 ≠ (W.heap this).address := by
      intro e he hea
      obtain ⟨hne, hin⟩ := (hmem e).mp he
      exact hne (honly e hin hea)
    have hnot : ∀ a, a ≠ (W.heap this).address → (W.heap this).psocket ∉ W.zmq.endpoints a := by
      intro a ha hm
      exact ha (hInv.disjoint a _ _ hm (by rw [hend, hsock]; simp))
    have hfilter : ∀ a, a ≠ (W.heap this).address →
        (W.zmq.endpoints a).filter (fun h => h ≠ (W.heap this).psocket) = W.zmq.endpoints a := by
      intro a ha
      rw [List.filter_eq_self]
      intro x hx
      have : x ≠ (W.heap this).psocket := fun heq => hnot a ha (heq ▸ hx)
      simpa using this
    constructor
    · exact b1
    · exact b2
    · exact b3
    · exact hInv.nodup.erase _
    · intro a ⟨e, he, hea⟩
      have ha : a ≠ (W.heap this).address := fun heq => hgone e he (hea.trans heq)
      obtain ⟨h, hh, hall', hep⟩ := hInv.shared a ⟨e, ((hmem e).mp he).2, hea⟩
      refine ⟨h, hh, ?_, ?_⟩
      · intro e' he' hea'
        simp only [F2 _ e' he']; exact hall' e' ((hmem e').mp he').2 hea'
      · show Zmq.endpoints _ a = [h]
        rw [hend' a, hfilter a ha, hep]
    · intro a hall'
      show Zmq.endpoints _ a = []
      rw [hend' a]
      by_cases ha : a = (W.heap this).address
      · rw [ha, hend, hsock]; simp
      · rw [hfilter a ha]
        exact hInv.absent a (fun e he hea => hall' e (hkeep a ha e he hea) hea)
    · intro a h hh
      have hh' : h ∈ Zmq.endpoints ⟨W.zmq.calls ++
          [.zmq_setsockopt (W.heap this).psocket ZMQ_LINGER 0,
            .zmq_close (W.heap this).psocket], W.zmq.ok⟩ a := hh
      rw [hend' a] at hh'
      have := hInv.fresh a h (List.mem_of_mem_filter hh')
      show h ≤ (W.zmq.calls ++ _).length
      simp only [List.length_append]
      omega
    · intro a a' h hh hh'
      have h1 : h ∈ Zmq.endpoints ⟨W.zmq.calls ++
          [.zmq_setsockopt (W.heap this).psocket ZMQ_LINGER 0,
            .zmq_close (W.heap this).psocket], W.zmq.ok⟩ a := hh
      have h2 : h ∈ Zmq.endpoints ⟨W.zmq.calls ++
          [.zmq_setsockopt (W.heap this).psocket ZMQ_LINGER 0,
            .zmq_close (W.heap this).psocket], W.zmq.ok⟩ a' := hh'
      rw [hend' a] at h1
      rw [hend' a'] at h2
      exact hInv.disjoint a a' h (List.mem_of_mem_filter h1) (List.mem_of_mem_filter h2)
  · rw [if_neg hc]
    -- another notifier of the address stays registered
    have hother : ∃ e ∈ W.mapPublishNotifiers.erase ((W.heap this).address, this),
        e.1 = (W.heap this).address := by
      by_contra hno
      apply hc
      have hall1 : ∀ x ∈ W.mapPublishNotifiers.filter (fun e => e.1 == (W.heap this).address),
          x = ((W.heap this).address, this) := by
        intro x hx
        have hx' : x ∈ W.mapPublishNotifiers ∧ x.1 = (W.heap this).address := by
          simpa [List.mem_filter] using hx
        by_contra hne
        exact hno ⟨x, (hmem x).mpr ⟨hne, hx'.1⟩, hx'.2⟩
      have hnd := hInv.nodup.filter (fun e => e.1 == (W.heap this).address)
      have hin : ((W.heap this).address, this)
          ∈ W.mapPublishNotifiers.filter (fun e => e.1 == (W.heap this).address) := by
        simp [List.mem_filter, hreg]
      have hrep := List.eq_replicate_of_mem hall1
      rw [hrep] at hnd hin
      have hle := List.nodup_replicate.mp hnd
      have hpos : 0 < (W.mapPublishNotifiers.filter
          (fun e => e.1 == (W.heap this).address)).length := by
        by_contra hz
        have hz' : (W.mapPublishNotifiers.filter
          (fun e => e.1 == (W.heap this).address)).length = 0 := by omega
        rw [hz'] at hin
        simp at hin
      show (W.mapPublishNotifiers.filter (fun e => e.1 == (W.heap this).address)).length = 1
      omega
    constructor
    · exact b1
    · exact b2
    · exact b3
    · exact hInv.nodup.erase _
    · intro a ⟨e, he, hea⟩
      obtain ⟨h, hh, hall', hep⟩ := hInv.shared a ⟨e, ((hmem e).mp he).2, hea⟩
      refine ⟨h, hh, ?_, hep⟩
      intro e' he' hea'
      simp only [F2 _ e' he']; exact hall' e' ((hmem e').mp he').2 hea'
    · intro a hall'
      have ha : a ≠ (W.heap this).address := by
        intro heq
        obtain ⟨e, he, hea⟩ := hother
        exact hall' e he (hea.trans heq.symm)
      exact hInv.absent a (fun e he hea => hall' e (hkeep a ha e he hea) hea)
    · exact hInv.fresh
    · exact hInv.disjoint

theorem foldl_endpointsStep_msg (ok : Nat → Bool) (a : String) (extra : List ZmqCall)
    (h : ∀ c ∈ extra, c.isMsg = true) :
    ∀ (n : Nat) (acc : List Nat),
      (extra.enumFrom n).foldl (endpointsStep ok a) acc = acc := by
  induction extra with
  | nil => intro n acc; rfl
  | cons c cs ih =>
    intro n acc
    have hc := h c (by simp)
    rw [List.enumFrom_cons, List.foldl_cons, ih (fun c' hc' => h c' (by simp [hc']))]
    cases c <;> first | rfl | cases hc

theorem zmq_send_multipart_calls_aux (sock : Nat) (n : Nat) :
    ∀ (args : List VaArg), args.length ≤ n →
      ∀ (w : Zmq) (data : List Byte) (size : Nat) (rc : Int) (w1 : Zmq),
      zmq_send_multipart sock w data size args = some (rc, w1) →
      w1.ok = w.ok ∧ ∃ extra, w1.calls = w.calls ++ extra ∧ ∀ c ∈ extra, c.isMsg = true := by
  induction n with
  | zero =>
    intro args hlen w data size rc w1 h
    have : args = [] := List.length_eq_zero.mp (by omega)
    subst this
    cases b0 : w.ok w.calls.length <;> by_cases hd : data.length < size <;>
      simp [zmq_send_multipart, Zmq.call, b0, hd] at h
    all_goals
      obtain ⟨_, rfl⟩ := h
      exact ⟨rfl, [_], rfl, by simp [ZmqCall.isMsg]⟩
  | succ n ih =>
    intro args hlen w data size rc w1 h
    cases b0 : w.ok w.calls.length with
    | false =>
      have hres : w1 = ⟨w.calls ++ [.zmq_msg_init_size size], w.ok⟩ := by
        cases args with
        | nil =>
          simp [zmq_send_multipart, Zmq.call, b0] at h
          exact h.2.symm
        | cons x xs =>
          cases x <;> cases xs <;> simp [zmq_send_multipart, Zmq.call, b0] at h <;>
            exact h.2.symm
      subst hres
      exact ⟨rfl, [_], rfl, by simp [ZmqCall.isMsg]⟩
    | true =>
      by_cases hd : data.length < size
      · exfalso
        cases args with
        | nil => simp [zmq_send_multipart, Zmq.call, b0, hd] at h
        | cons x xs =>
          cases x <;> cases xs <;> simp [zmq_send_multipart, Zmq.call, b0, hd] at h
      · cases args with
        | nil => simp [zmq_send_multipart, Zmq.call, b0, hd] at h
        | cons x args1 =>
          cases x with
          | size k => simp [zmq_send_multipart, Zmq.call, b0, hd] at h
          | ptr next =>
            cases b1 : w.ok (w.calls.length + 1) with
            | false =>
              simp [zmq_send_multipart, Zmq.call, b0, b1, hd] at h
              obtain ⟨_, rfl⟩ := h
              exact ⟨rfl, [_, _], rfl, by simp [ZmqCall.isMsg]⟩
            | true =>
              cases next with
              | none =>
                simp [zmq_send_multipart, Zmq.call, b0, b1, hd] at h
                obtain ⟨_, rfl⟩ := h
                exact ⟨rfl, [_, _], rfl, by simp [ZmqCall.isMsg]⟩
              | some d =>
                cases args1 with
                | nil => simp [zmq_send_multipart, Zmq.call, b0, b1, hd] at h
                | cons y args2 =>
                  cases y with
                  | ptr q => simp [zmq_send_multipart, Zmq.call, b0, b1, hd] at h
                  | size size1 =>
                    simp only [zmq_send_multipart, Zmq.call, b0, b1, hd, if_false,
                      Bool.true_eq_false, List.length_append, List.length_singleton,
                      Option.isSome_some, if_true] at h
                    obtain ⟨hok, extra, hcalls, hmsg⟩ := ih args2
                      (by simp only [List.length_cons] at hlen; omega) _ _ _ _ _ h
                    refine ⟨hok, ZmqCall.zmq_msg_init_size size ::
                      ZmqCall.zmq_msg_send sock (List.take size data) ZMQ_SNDMORE :: extra, ?_, ?_⟩
                    · rw [hcalls]; simp
                    · intro c hc
                      simp only [List.mem_cons] at hc
                      rcases hc with rfl | rfl | hc
                      · rfl
                      · rfl
                      · exact hmsg c hc

theorem zmq_send_multipart_calls (sock : Nat) (args : List VaArg) (w : Zmq) (data : List Byte)
    (size : Nat) (rc : Int) (w1 : Zmq)
    (h : zmq_send_multipart sock w data size args = some (rc, w1)) :
    w1.ok = w.ok ∧ ∃ extra, w1.calls = w.calls ++ extra ∧ ∀ c ∈ extra, c.isMsg = true :=
  zmq_send_multipart_calls_aux sock args.length args (Nat.le_refl _) w data size rc w1 h

set_option maxRecDepth 8192 in
theorem topic_mempoolreplaced_nul_free : ∀ b ∈ ascii "mempoolreplaced", b ≠ 0 := by decide

theorem messageCalls_isMsg (sock : Nat) (parts : List zmq_message_part) :
    ∀ c ∈ messageCalls sock parts, c.isMsg = true := by
  induction parts with
  | nil => intro c hc; simp [messageCalls] at hc
  | cons p rest ih =>
    intro c hc
    rw [messageCalls_cons] at hc
    simp only [List.mem_append, List.mem_cons, List.mem_singleton, List.not_mem_nil,
      or_false] at hc
    rcases hc with (rfl | rfl) | hc
    · rfl
    · rfl
    · exact ih c hc

/-- A send only adds calls that prepare or send message parts. -/
theorem SendCall.run_calls (c : SendCall) (self self1 : CZMQAbstractPublishNotifier)
    (w w1 : Zmq) (b : Bool) (h : c.run self w = some (b, self1, w1)) :
    w1.ok = w.ok ∧ ∃ extra, w1.calls = w.calls ++ extra ∧ ∀ x ∈ extra, x.isMsg = true := by
  cases c with
  | fixed command data size =>
    simp only [SendCall.run, CZMQAbstractPublishNotifier.SendZmqMessage] at h
    split at h
    · cases h
    · split at h
      · cases h
      · rename_i rc w2 heq
        have hw : w1 = w2 := by
          split at h <;>
            (simp only [Option.some.injEq, Prod.mk.injEq] at h; exact h.2.2.symm)
        subst hw
        exact zmq_send_multipart_calls _ _ _ _ _ _ _ heq
  | structured now command payload =>
    simp only [SendCall.run, CZMQAbstractPublishNotifier.SendZmqMessage_payload] at h
    split at h
    · cases h
    · have hw : w1 = (zmq_send_multipart_message self.psocket w
          ([List.map (fun c => c) (std_string command)] ++ [getCurrentTimeMillis now] ++ payload
            ++ [int32ToZMQMessagePart (int32_of_uint32 self.nSequence)])).2 := by
        split at h <;>
          (simp only [Option.some.injEq, Prod.mk.injEq] at h; exact h.2.2.symm)
      obtain ⟨hok, extra, hcalls, hpre⟩ := loop_prefix self.psocket _
        ([List.map (fun c => c) (std_string command)] ++ [getCurrentTimeMillis now] ++ payload
            ++ [int32ToZMQMessagePart (int32_of_uint32 self.nSequence)]) w 0 (Nat.zero_add _)
      rw [hw]
      refine ⟨hok, extra, hcalls, ?_⟩
      intro x hx
      exact messageCalls_isMsg _ _ x (hpre.subset hx)

theorem endpoints_append_msg (w : Zmq) (extra : List ZmqCall) (a : String)
    (h : ∀ c ∈ extra, c.isMsg = true) :
    Zmq.endpoints ⟨w.calls ++ extra, w.ok⟩ a = w.endpoints a := by
  rw [endpoints_append, foldl_endpointsStep_msg _ _ _ h]

/-- The invariant depends on the notifiers only through their address and
socket, and on the library only through the endpoints and the number of
calls. -/
theorem Inv_of_same (W W1 : World) (hInv : Inv W)
    (haddr : ∀ q, (W1.heap q).address = (W.heap q).address)
    (hsock : ∀ q, (W1.heap q).psocket = (W.heap q).psocket)
    (hmap : W1.mapPublishNotifiers = W.mapPublishNotifiers)
    (hend : ∀ a, W1.zmq.endpoints a = W.zmq.endpoints a)
    (hlen : W.zmq.calls.length ≤ W1.zmq.calls.length) : Inv W1 where
  reg_addr := by intro e he; rw [haddr]; exact hInv.reg_addr e (hmap ▸ he)
  reg_sock := by intro e he; rw [hsock]; exact hInv.reg_sock e (hmap ▸ he)
  unreg := by
    intro p hp
    rw [hsock] at hp
    rw [haddr, hmap]
    exact hInv.unreg p hp
  nodup := hmap ▸ hInv.nodup
  shared := by
    intro a hex
    rw [hmap] at hex
    obtain ⟨h, hh, hall, hep⟩ := hInv.shared a hex
    refine ⟨h, hh, ?_, by rw [hend]; exact hep⟩
    intro e he hea
    rw [hsock]
    exact hall e (hmap ▸ he) hea
  absent := by
    intro a hall
    rw [hend]
    exact hInv.absent a (fun e he => hall e (hmap ▸ he))
  fresh := by
    intro a h hh
    rw [hend] at hh
    exact Nat.le_trans (hInv.fresh a h hh) hlen
  disjoint := by
    intro a a' h hh hh'
    rw [hend] at hh hh'
    exact hInv.disjoint a a' h hh hh'

theorem Inv_step (LookupHost : String → Bool) (W W1 : World) (op : Op) (b : Bool)
    (hInv : Inv W) (hkeep : op.keepsAddress = true)
    (hsucc : initializesSucceed [op] [b] = true)
    (h : W.step LookupHost op = some (b, W1)) : Inv W1 := by
  cases op with
  | Initialize this pcontext =>
    have hb : b = true := by simpa [initializesSucceed] using hsucc
    subst hb
    exact Inv_Initialize LookupHost this pcontext W W1 hInv h
  | Shutdown this =>
    simp only [World.step, Option.some.injEq, Prod.mk.injEq] at h
    rw [← h.2]
    exact Inv_Shutdown this W hInv
  | Send this c =>
    simp only [World.step] at h
    split at h
    · cases h
    · rename_i b' self1 w1 heq
      simp only [Option.some.injEq, Prod.mk.injEq] at h
      obtain ⟨rfl, rfl⟩ := h
      have hres := c.run_result _ _ _ _ _ heq
      obtain ⟨hok, extra, hcalls, hmsg⟩ := c.run_calls _ _ _ _ _ heq
      have hw1 : w1 = ⟨W.zmq.calls ++ extra, W.zmq.ok⟩ := by
        cases w1; simp only at hok hcalls; subst hok hcalls; rfl
      have hfield : self1.address = (W.heap this).address ∧
          self1.psocket = (W.heap this).psocket := by
        rw [hres]; split <;> exact ⟨rfl, rfl⟩
      refine Inv_of_same W _ hInv ?_ ?_ rfl ?_ ?_
      · intro q
        by_cases hq : q = this
        · subst hq; simpa using hfield.1
        · simp [Function.update_noteq hq]
      · intro q
        by_cases hq : q = this
        · subst hq; simpa using hfield.2
        · simp [Function.update_noteq hq]
      · intro a
        show w1.endpoints a = _
        rw [hw1]; exact endpoints_append_msg W.zmq extra a hmsg
      · show _ ≤ w1.calls.length
        rw [hcalls]; simp
  | SetOutboundMessageHighWaterMark this sndhwm =>
    simp only [World.step, Option.some.injEq, Prod.mk.injEq] at h
    obtain ⟨_, rfl⟩ := h
    refine Inv_of_same W _ hInv ?_ ?_ rfl (fun _ => rfl) (Nat.le_refl _)
    · intro q
      by_cases hq : q = this
      · subst hq
        simp only [Function.update_same,
          CZMQAbstractPublishNotifier.SetOutboundMessageHighWaterMark]
        split <;> rfl
      · simp [Function.update_noteq hq]
    · intro q
      by_cases hq : q = this
      · subst hq
        simp only [Function.update_same,
          CZMQAbstractPublishNotifier.SetOutboundMessageHighWaterMark]
        split <;> rfl
      · simp [Function.update_noteq hq]
  | SetAddress this a => cases hkeep
  | SetType this t =>
    simp only [World.step, Option.some.injEq, Prod.mk.injEq] at h
    obtain ⟨_, rfl⟩ := h
    refine Inv_of_same W _ hInv ?_ ?_ rfl (fun _ => rfl) (Nat.le_refl _)
    · intro q
      by_cases hq : q = this
      · subst hq; simp [CZMQAbstractPublishNotifier.SetType]
      · simp [Function.update_noteq hq]
    · intro q
      by_cases hq : q = this
      · subst hq; simp [CZMQAbstractPublishNotifier.SetType]
      · simp [Function.update_noteq hq]

theorem initializesSucceed_cons (op : Op) (ops : List Op) (b : Bool) (bs : List Bool) :
    initializesSucceed (op :: ops) (b :: bs)
      = (initializesSucceed [op] [b] && initializesSucceed ops bs) := by
  cases op <;> simp [initializesSucceed]

theorem Inv_run (LookupHost : String → Bool) (ops : List Op) :
    ∀ (W W1 : World) (bs : List Bool), Inv W → (∀ op ∈ ops, op.keepsAddress = true) →
      World.run LookupHost W ops = some (bs, W1) → initializesSucceed ops bs = true →
      Inv W1 := by
  induction ops with
  | nil =>
    intro W W1 bs hInv _ h _
    simp only [World.run, Option.some.injEq, Prod.mk.injEq] at h
    rw [← h.2]; exact hInv
  | cons op ops ih =>
    intro W W1 bs hInv hkeep h hsucc
    simp only [World.run] at h
    split at h
    · cases h
    · rename_i b W2 hstep
      split at h
      · cases h
      · rename_i bs' W3 hrest
        simp only [Option.some.injEq, Prod.mk.injEq] at h
        obtain ⟨rfl, rfl⟩ := h
        rw [initializesSucceed_cons, Bool.and_eq_true] at hsucc
        exact ih W2 _ bs' (Inv_step LookupHost W W2 op b hInv (hkeep op (by simp)) hsucc.1 hstep)
          (fun o ho => hkeep o (by simp [ho])) hrest hsucc.2

theorem count_append_entry (W : World) (l : List (String × Nat)) (a : String) (p : Nat)
    (a' : String) :
    World.count { W with mapPublishNotifiers := l ++ [(a, p)] } a'
      = World.count { W with mapPublishNotifiers := l } a' + (if a = a' then 1 else 0) := by
  by_cases h : a = a' <;> simp [World.count, List.filter_append, List.filter_cons, h]

theorem step_counter (LookupHost : String → Bool) (W W1 : World) (op : Op) (b : Bool)
    (q : Nat) (hq : (W.heap q).nSequence < 2 ^ 32)
    (h : W.step LookupHost op = some (b, W1)) :
    (W1.heap q).nSequence = ((W.heap q).nSequence + sendsOf q [op] [b]) % 2 ^ 32 := by
  have hsame : ∀ x : Nat, x < 2 ^ 32 → x = (x + 0) % 2 ^ 32 := by
    intro x hx; rw [Nat.add_zero, Nat.mod_eq_of_lt hx]
  cases op with
  | Initialize this pcontext =>
    obtain ⟨s, hs⟩ := Initialize_frame LookupHost this pcontext W W1 b h
    have hn : (W1.heap q).nSequence = (W.heap q).nSequence := by
      rw [hs]
      by_cases hqt : q = this
      · subst hqt; simp
      · simp [Function.update_noteq hqt]
    rw [hn]; exact hsame _ hq
  | Shutdown this =>
    simp only [World.step, Option.some.injEq, Prod.mk.injEq] at h
    obtain ⟨s, hs⟩ := Shutdown_frame this W
    have hn : (W1.heap q).nSequence = (W.heap q).nSequence := by
      rw [← h.2, hs]
      by_cases hqt : q = this
      · subst hqt; simp
      · simp [Function.update_noteq hqt]
    rw [hn]; exact hsame _ hq
  | Send this c =>
    simp only [World.step] at h
    split at h
    · cases h
    · rename_i b' self1 w1 heq
      simp only [Option.some.injEq, Prod.mk.injEq] at h
      obtain ⟨rfl, rfl⟩ := h
      have hres := c.run_result _ _ _ _ _ heq
      by_cases hqt : this = q
      · subst hqt
        simp only [Function.update_same, sendsOf]
        rw [hres]
        cases b' with
        | true => simp
        | false => simpa using hsame _ hq
      · have hne : q ≠ this := fun h => hqt h.symm
        simp only [Function.update_noteq hne, sendsOf, hqt, false_and, if_false]
        exact hsame _ hq
  | SetOutboundMessageHighWaterMark this sndhwm =>
    simp only [World.step, Option.some.injEq, Prod.mk.injEq] at h
    obtain ⟨_, rfl⟩ := h
    have hn : ((Function.update W.heap this
        ((W.heap this).SetOutboundMessageHighWaterMark sndhwm)) q).nSequence
        = (W.heap q).nSequence := by
      by_cases hqt : q = this
      · subst hqt
        simp only [Function.update_same,
          CZMQAbstractPublishNotifier.SetOutboundMessageHighWaterMark]
        split <;> rfl
      · simp [Function.update_noteq hqt]
    show ((Function.update W.heap this _) q).nSequence = _
    rw [hn]; exact hsame _ hq
  | SetAddress this a =>
    simp only [World.step, Option.some.injEq, Prod.mk.injEq] at h
    obtain ⟨_, rfl⟩ := h
    have hn : ((Function.update W.heap this ((W.heap this).SetAddress a)) q).nSequence
        = (W.heap q).nSequence := by
      by_cases hqt : q = this
      · subst hqt; simp [CZMQAbstractPublishNotifier.SetAddress]
      · simp [Function.update_noteq hqt]
    show ((Function.update W.heap this _) q).nSequence = _
    rw [hn]; exact hsame _ hq
  | SetType this t =>
    simp only [World.step, Option.some.injEq, Prod.mk.injEq] at h
    obtain ⟨_, rfl⟩ := h
    have hn : ((Function.update W.heap this ((W.heap this).SetType t)) q).nSequence
        = (W.heap q).nSequence := by
      by_cases hqt : q = this
      · subst hqt; simp [CZMQAbstractPublishNotifier.SetType]
      · simp [Function.update_noteq hqt]
    show ((Function.update W.heap this _) q).nSequence = _
    rw [hn]; exact hsame _ hq

theorem sendsOf_cons (q : Nat) (op : Op) (ops : List Op) (b : Bool) (bs : List Bool) :
    sendsOf q (op :: ops) (b :: bs) = sendsOf q [op] [b] + sendsOf q ops bs := by
  cases op <;> simp [sendsOf]

theorem run_counter (LookupHost : String → Bool) (q : Nat) (ops : List Op) :
    ∀ (W W1 : World) (bs : List Bool), (W.heap q).nSequence < 2 ^ 32 →
      World.run LookupHost W ops = some (bs, W1) →
      (W1.heap q).nSequence = ((W.heap q).nSequence + sendsOf q ops bs) % 2 ^ 32 := by
  induction ops with
  | nil =>
    intro W W1 bs hq h
    simp only [World.run, Option.some.injEq, Prod.mk.injEq] at h
    obtain ⟨rfl, rfl⟩ := h
    show _ = (_ + 0) % 2 ^ 32
    rw [Nat.add_zero, Nat.mod_eq_of_lt hq]
  | cons op ops ih =>
    intro W W1 bs hq h
    simp only [World.run] at h
    split at h
    · cases h
    · rename_i b W2 hstep
      split at h
      · cases h
      · rename_i bs' W3 hrest
        simp only [Option.some.injEq, Prod.mk.injEq] at h
        obtain ⟨rfl, rfl⟩ := h
        have h1 := step_counter LookupHost W W2 op b q hq hstep
        have hq2 : (W2.heap q).nSequence < 2 ^ 32 := by
          rw [h1]; exact Nat.mod_lt _ (by norm_num)
        rw [ih W2 _ bs' hq2 hrest, sendsOf_cons q op ops b bs', h1, Nat.mod_add_mod,
          Nat.add_assoc]

theorem step_hwm (LookupHost : String → Bool) (W W1 : World) (op : Op) (b : Bool)
    (hW : ∀ q, 0 ≤ (W.heap q).outbound_message_high_water_mark)
    (h : W.step LookupHost op = some (b, W1)) :
    ∀ q, 0 ≤ (W1.heap q).outbound_message_high_water_mark := by
  intro q
  cases op with
  | Initialize this pcontext =>
    obtain ⟨s, hs⟩ := Initialize_frame LookupHost this pcontext W W1 b h
    rw [hs]
    by_cases hqt : q = this
    · subst hqt; simpa using hW q
    · simpa [Function.update_noteq hqt] using hW q
  | Shutdown this =>
    simp only [World.step, Option.some.injEq, Prod.mk.injEq] at h
    obtain ⟨s, hs⟩ := Shutdown_frame this W
    rw [← h.2, hs]
    by_cases hqt : q = this
    · subst hqt; simpa using hW q
    · simpa [Function.update_noteq hqt] using hW q
  | Send this c =>
    simp only [World.step] at h
    split at h
    · cases h
    · rename_i b' self1 w1 heq
      simp only [Option.some.injEq, Prod.mk.injEq] at h
      obtain ⟨rfl, rfl⟩ := h
      have hres := c.run_result _ _ _ _ _ heq
      by_cases hqt : q = this
      · subst hqt
        simp only [Function.update_same]
        rw [hres]
        split <;> exact hW q
      · simpa [Function.update_noteq hqt] using hW q
  | SetOutboundMessageHighWaterMark this sndhwm =>
    simp only [World.step, Option.some.injEq, Prod.mk.injEq] at h
    obtain ⟨_, rfl⟩ := h
    by_cases hqt : q = this
    · subst hqt
      simp only [Function.update_same,
        CZMQAbstractPublishNotifier.SetOutboundMessageHighWaterMark]
      split
      · assumption
      · exact hW q
    · simpa [Function.update_noteq hqt] using hW q
  | SetAddress this a =>
    simp only [World.step, Option.some.injEq, Prod.mk.injEq] at h
    obtain ⟨_, rfl⟩ := h
    by_cases hqt : q = this
    · subst hqt; simpa [CZMQAbstractPublishNotifier.SetAddress] using hW q
    · simpa [Function.update_noteq hqt] using hW q
  | SetType this t =>
    simp only [World.step, Option.some.injEq, Prod.mk.injEq] at h
    obtain ⟨_, rfl⟩ := h
    by_cases hqt : q = this
    · subst hqt; simpa [CZMQAbstractPublishNotifier.SetType] using hW q
    · simpa [Function.update_noteq hqt] using hW q

theorem run_hwm (LookupHost : String → Bool) (ops : List Op) :
    ∀ (W W1 : World) (bs : List Bool),
      (∀ q, 0 ≤ (W.heap q).outbound_message_high_water_mark) →
      World.run LookupHost W ops = some (bs, W1) →
      ∀ q, 0 ≤ (W1.heap q).outbound_message_high_water_mark := by
  induction ops with
  | nil =>
    intro W W1 bs hW h
    simp only [World.run, Option.some.injEq, Prod.mk.injEq] at h
    rw [← h.2]; exact hW
  | cons op ops ih =>
    intro W W1 bs hW h
    simp only [World.run] at h
    split at h
    · cases h
    · rename_i b W2 hstep
      split at h
      · cases h
      · rename_i bs' W3 hrest
        simp only [Option.some.injEq, Prod.mk.injEq] at h
        obtain ⟨rfl, rfl⟩ := h
        exact ih W2 _ bs' (step_hwm LookupHost W W2 op b hW hstep) hrest

/-! ## Lemmas: the address of an endpoint -/

theorem find_range_reverse_some (p : Nat → Bool) (k : Nat) :
    ∀ n, k ≤ n → p k = true → (∀ i, k < i → i ≤ n → p i = false) →
      (List.range (n + 1)).reverse.find? p = some k := by
  intro n
  induction n with
  | zero =>
    intro hk hp _
    have : k = 0 := by omega
    subst this
    simp [List.range_succ, hp]
  | succ n ih =>
    intro hk hp hlater
    rw [List.range_succ, List.reverse_append, List.reverse_singleton, List.singleton_append,
      List.find?_cons]
    by_cases hkn : k = n + 1
    · subst hkn
      rw [hp]
    · have hlt : k ≤ n := by omega
      rw [hlater (n + 1) (by omega) (Nat.le_refl _)]
      exact ih hlt hp (fun i h1 h2 => hlater i h1 (by omega))

theorem find_range_reverse_ge (p : Nat → Bool) (i : Nat) :
    ∀ n, i ≤ n → p i = true →
      ∃ k, i ≤ k ∧ (List.range (n + 1)).reverse.find? p = some k := by
  intro n
  induction n with
  | zero =>
    intro hi hp
    have : i = 0 := by omega
    subst this
    exact ⟨0, Nat.le_refl _, by simp [List.range_succ, hp]⟩
  | succ n ih =>
    intro hi hp
    rw [List.range_succ, List.reverse_append, List.reverse_singleton, List.singleton_append,
      List.find?_cons]
    cases hv : p (n + 1) with
    | true => exact ⟨n + 1, hi, rfl⟩
    | false =>
      have hne : i ≠ n + 1 := by
        intro h
        subst h
        rw [hp] at hv
        cases hv
      exact ih (by omega) hp

theorem find_range_reverse_none (p : Nat → Bool) :
    ∀ n, (∀ i, i ≤ n → p i = false) → (List.range (n + 1)).reverse.find? p = none := by
  intro n h
  rw [List.find?_eq_none]
  intro i hi
  rw [List.mem_reverse, List.mem_range] at hi
  rw [h i (by omega)]
  simp

theorem rfind_tcp_zero (rest : List Char) (h : ¬ "tcp://".toList <:+: rest) :
    rfind ("tcp://".toList ++ rest) "tcp://".toList = some 0 := by
  apply find_range_reverse_some _ 0 _ (Nat.zero_le _)
  · simp
  · intro i h0 _
    by_cases h6 : i < 6
    · have e : "tcp://".toList = ['t', 'c', 'p', ':', '/', '/'] := rfl
      rw [e]
      interval_cases i <;> rfl
    · have e : ("tcp://".toList ++ rest).drop i = rest.drop (i - 6) := by
        rw [List.drop_append_eq_append_drop]
        have e1 : "tcp://".toList.length = 6 := rfl
        rw [e1, List.drop_of_length_le (by rw [e1]; omega)]
        rfl
      rw [e]
      cases hv : "tcp://".toList.isPrefixOf (rest.drop (i - 6)) with
      | false => rfl
      | true =>
        exfalso
        apply h
        rw [List.isPrefixOf_iff_prefix] at hv
        exact hv.isInfix.trans (List.drop_suffix _ _).isInfix

theorem rfind_last_colon (pre post : List Char) (h : ':' ∉ post) :
    rfind (pre ++ ':' :: post) ":".toList = some pre.length := by
  apply find_range_reverse_some _ pre.length _ (by simp)
  · have e : ":".toList = [':'] := rfl
    simp [e]
  · intro i h1 _
    have e : ":".toList = [':'] := rfl
    have e2 : (pre ++ ':' :: post).drop i = post.drop (i - pre.length - 1) := by
      rw [List.drop_append_eq_append_drop, List.drop_of_length_le (by omega)]
      obtain ⟨d, hd⟩ : ∃ d, i - pre.length = d + 1 := ⟨i - pre.length - 1, by omega⟩
      rw [hd]
      simp
    rw [e, e2]
    cases hpost : post.drop (i - pre.length - 1) with
    | nil => rfl
    | cons c cs =>
      have hc : c ∈ post := by
        have : c ∈ post.drop (i - pre.length - 1) := by rw [hpost]; simp
        exact List.mem_of_mem_drop this
      have hne : c ≠ ':' := fun hcc => h (hcc ▸ hc)
      simp [List.isPrefixOf, Ne.symm hne]

theorem IsZMQAddressIPV6_of_later (LookupHost : String → Bool) (address : String) (i : Nat)
    (hi : 0 < i) (h : "tcp://".toList <+: address.toList.drop i) :
    IsZMQAddressIPV6 LookupHost address = false := by
  have hlen : i ≤ address.toList.length := by
    by_contra hgt
    rw [List.drop_of_length_le (by omega)] at h
    have := h.length_le
    simp at this
  obtain ⟨k, hk, hfind⟩ := find_range_reverse_ge
    (fun j => "tcp://".toList.isPrefixOf (address.toList.drop j)) i address.toList.length hlen
    (by simpa [List.isPrefixOf_iff_prefix] using h)
  have hr : rfind address.toList "tcp://".toList = some k := hfind
  obtain ⟨k', rfl⟩ : ∃ k', k = k' + 1 := ⟨k - 1, by omega⟩
  simp only [IsZMQAddressIPV6, hr]

theorem IsZMQAddressIPV6_of_not_prefix (LookupHost : String → Bool) (address : String)
    (h : ¬ "tcp://".toList <+: address.toList) :
    IsZMQAddressIPV6 LookupHost address = false := by
  cases hr : rfind address.toList "tcp://".toList with
  | none => simp only [IsZMQAddressIPV6, hr]
  | some k =>
    cases k with
    | zero =>
      exfalso
      apply h
      have := List.find?_some hr
      simpa [List.isPrefixOf_iff_prefix] using this
    | succ k => simp only [IsZMQAddressIPV6, hr]

theorem IsZMQAddressIPV6_host (LookupHost : String → Bool) (host port : String)
    (hsize : host.length < 2 ^ 64) (hport : ':' ∉ port.toList)
    (hlater : ¬ "tcp://".toList <:+: (host ++ ":" ++ port).toList) :
    IsZMQAddressIPV6 LookupHost ("tcp://" ++ host ++ ":" ++ port) = LookupHost host := by
  have eaddr : ("tcp://" ++ host ++ ":" ++ port).toList
      = "tcp://".toList ++ (host.toList ++ ':' :: port.toList) := by
    simp [String.toList, String.data_append]
  have eaddr2 : ("tcp://" ++ host ++ ":" ++ port).toList
      = ("tcp://".toList ++ host.toList) ++ ':' :: port.toList := by
    rw [eaddr, List.append_assoc]
  have erest : (host ++ ":" ++ port).toList = host.toList ++ ':' :: port.toList := by
    simp [String.toList, String.data_append]
  rw [erest] at hlater
  have h1 : rfind ("tcp://" ++ host ++ ":" ++ port).toList "tcp://".toList = some 0 := by
    rw [eaddr]
    exact rfind_tcp_zero _ hlater
  have h2 : rfind ("tcp://" ++ host ++ ":" ++ port).toList ":".toList
      = some (6 + host.length) := by
    rw [eaddr2, rfind_last_colon _ _ hport, List.length_append]
    rfl
  have hcount : (6 + host.length + 2 ^ 64 - "tcp://".toList.length) % 2 ^ 64 = host.length := by
    have e1 : "tcp://".toList.length = 6 := rfl
    rw [e1]
    omega
  have hip : String.mk (substr ("tcp://" ++ host ++ ":" ++ port).toList "tcp://".toList.length
      ((6 + host.length + 2 ^ 64 - "tcp://".toList.length) % 2 ^ 64)) = host := by
    rw [hcount, eaddr, substr, List.drop_left]
    show String.mk (List.take host.data.length (host.data ++ ':' :: port.data)) = host
    rw [List.take_left]
  simp only [IsZMQAddressIPV6, h1, h2, hip]
  cases LookupHost host <;> rfl

theorem initializeCalls_ipv6 (LookupHost : String → Bool) (pcontext sock0 : Nat)
    (self : CZMQAbstractPublishNotifier) (sock : Nat) (v : Int)
    (h : ZmqCall.zmq_setsockopt sock ZMQ_IPV6 v ∈ initializeCalls LookupHost pcontext sock0 self) :
    v = if IsZMQAddressIPV6 LookupHost self.address then 1 else 0 := by
  simp only [initializeCalls, List.mem_cons, List.mem_singleton, List.not_mem_nil, or_false,
    ZmqCall.zmq_setsockopt.injEq, ZMQ_IPV6, ZMQ_SNDHWM, ZMQ_TCP_KEEPALIVE] at h
  rcases h with h | h | h | h | h
  · cases h
  · exact absurd h.2.1 (by decide)
  · exact absurd h.2.1 (by decide)
  · exact h.2.2
  · cases h

theorem Initialize_ipv6_only (LookupHost : String → Bool) (this pcontext : Nat) (W W1 : World)
    (b : Bool)
    (h : CZMQAbstractPublishNotifier.Initialize LookupHost this pcontext W = some (b, W1))
    (sock : Nat) (v : Int)
    (hv : ZmqCall.zmq_setsockopt sock ZMQ_IPV6 v ∈ W1.zmq.calls.drop W.zmq.calls.length) :
    v = if IsZMQAddressIPV6 LookupHost (W.heap this).address then 1 else 0 := by
  by_cases h0 : (W.heap this).psocket = 0
  · cases hfind : W.mapPublishNotifiers.find? (fun e => e.1 == (W.heap this).address) with
    | some i =>
      rw [Initialize_live LookupHost this pcontext W i h0 hfind] at h
      simp only [Option.some.injEq, Prod.mk.injEq] at h
      rw [← h.2] at hv
      simp at hv
    | none =>
      by_cases hall : ∀ k, k < 5 → W.zmq.ok (W.zmq.calls.length + k) = true
      · rw [Initialize_absent_ok LookupHost this pcontext W h0 hfind hall] at h
        simp only [Option.some.injEq, Prod.mk.injEq] at h
        rw [← h.2] at hv
        simp only [List.drop_left] at hv
        exact initializeCalls_ipv6 LookupHost pcontext _ _ sock v hv
      · have hex : ∃ k, k < 5 ∧ W.zmq.ok (W.zmq.calls.length + k) = false := by
          by_contra hne
          apply hall
          intro k hk
          cases hval : W.zmq.ok (W.zmq.calls.length + k) with
          | true => rfl
          | false => exact absurd ⟨k, hk, hval⟩ hne
        obtain ⟨k, hk, hval⟩ := hex
        obtain ⟨j, hj, hbefore, hfail⟩ :=
          first_rejection W.zmq.ok W.zmq.calls.length 5 k hk hval
        rw [Initialize_absent_fail_at LookupHost this pcontext W h0 hfind j hj hbefore hfail] at h
        simp only [Option.some.injEq, Prod.mk.injEq] at h
        rw [← h.2] at hv
        simp only [List.append_assoc, List.drop_left, List.mem_append] at hv
        rcases hv with hv | hv
        · exact initializeCalls_ipv6 LookupHost pcontext _ _ sock v (List.mem_of_mem_take hv)
        · split at hv
          · cases hv
          · simp at hv
  · simp [CZMQAbstractPublishNotifier.Initialize, h0] at h

theorem Initialize_ipv6_set (LookupHost : String → Bool) (this pcontext : Nat) (W : World)
    (h0 : (W.heap this).psocket = 0)
    (habsent : ∀ e ∈ W.mapPublishNotifiers, e.1 ≠ (W.heap this).address)
    (hok : ∀ k, k < 3 → W.zmq.ok (W.zmq.calls.length + k) = true) :
    ∃ b W1, CZMQAbstractPublishNotifier.Initialize LookupHost this pcontext W = some (b, W1) ∧
      ZmqCall.zmq_setsockopt (W.zmq.calls.length + 1) ZMQ_IPV6
          (if IsZMQAddressIPV6 LookupHost (W.heap this).address then 1 else 0)
        ∈ W1.zmq.calls.drop W.zmq.calls.length := by
  have hfind : W.mapPublishNotifiers.find? (fun e => e.1 == (W.heap this).address) = none := by
    rw [List.find?_eq_none]
    intro e he
    simpa using habsent e he
  by_cases hall : ∀ k, k < 5 → W.zmq.ok (W.zmq.calls.length + k) = true
  · refine ⟨true, _, Initialize_absent_ok LookupHost this pcontext W h0 hfind hall, ?_⟩
    simp [initializeCalls]
  · have hex : ∃ k, k < 5 ∧ W.zmq.ok (W.zmq.calls.length + k) = false := by
      by_contra hne
      apply hall
      intro k hk
      cases hval : W.zmq.ok (W.zmq.calls.length + k) with
      | true => rfl
      | false => exact absurd ⟨k, hk, hval⟩ hne
    obtain ⟨k, hk, hval⟩ := hex
    obtain ⟨j, hj, hbefore, hfail⟩ := first_rejection W.zmq.ok W.zmq.calls.length 5 k hk hval
    refine ⟨false, _,
      Initialize_absent_fail_at LookupHost this pcontext W h0 hfind j hj hbefore hfail, ?_⟩
    have hj3 : 3 ≤ j := by
      by_contra hlt
      have := hok j (by omega)
      rw [hfail] at this
      cases this
    have hj' : j = 3 ∨ j = 4 := by omega
    rcases hj' with rfl | rfl <;> simp [initializeCalls]

/-! ## Lemmas: the send primitives -/

/-- If call number `k` of the loop is the first one the oracle rejects, the loop
returns -1 having issued the calls of the message up to and including that
one, and no more. -/
theorem loop_stops (sock size : Nat) (parts : List zmq_message_part) :
    ∀ (w : Zmq) (i k : Nat), i + parts.length = size → k < 2 * parts.length →
      (∀ j, j < k → w.ok (w.calls.length + j) = true) → w.ok (w.calls.length + k) = false →
      zmq_send_multipart_message.loop sock size w i parts
        = (-1, ⟨w.calls ++ (messageCalls sock parts).take (k + 1), w.ok⟩) := by
  induction parts with
  | nil => intro w i k _ hk; simp at hk
  | cons part rest ih =>
    intro w i k hsize hk hbefore hfail
    have hflag : (if i < size - 1 then ZMQ_SNDMORE else 0)
        = (if rest.length = 0 then 0 else ZMQ_SNDMORE) := by
      simp only [List.length_cons] at hsize
      by_cases hr : rest.length = 0
      · rw [if_pos hr, if_neg (by omega)]
      · rw [if_neg hr, if_pos (by omega)]
    rw [loop_cons, messageCalls_cons, hflag]
    rcases Nat.lt_or_ge k 2 with hlt | hge
    · interval_cases k
      · rw [Nat.add_zero] at hfail
        simp [hfail]
      · have h0 : w.ok w.calls.length = true := by simpa using hbefore 0 (by omega)
        simp [h0, hfail]
    · have h0 : w.ok w.calls.length = true := by simpa using hbefore 0 (by omega)
      have h1 : w.ok (w.calls.length + 1) = true := hbefore 1 (by omega)
      simp only [h0, h1, Bool.true_eq_false, if_false]
      rw [ih _ (i + 1) (k - 2) (by simp only [List.length_cons] at hsize; omega)
        (by simp only [List.length_cons] at hk; omega)]
      · obtain ⟨d, rfl⟩ : ∃ d, k = d + 2 := ⟨k - 2, by omega⟩
        simp [List.take_append_eq_append_take]
      · intro j hj
        simp only [List.length_append, List.length_cons, List.length_nil]
        have := hbefore (j + 2) (by omega)
        rw [← this]; congr 1; omega
      · simp only [List.length_append, List.length_cons, List.length_nil]
        rw [← hfail]; congr 1; omega

theorem loop_zero_iff (sock size : Nat) (parts : List zmq_message_part) (w : Zmq) (i : Nat)
    (hsize : i + parts.length = size) :
    (zmq_send_multipart_message.loop sock size w i parts).1 = 0
      ↔ ∀ k, k < 2 * parts.length → w.ok (w.calls.length + k) = true := by
  constructor
  · intro h k hk
    cases hv : w.ok (w.calls.length + k) with
    | true => rfl
    | false =>
      have := loop_fails sock size parts w i k hk hv
      rw [this] at h
      cases h
  · intro h
    rw [loop_succeeds sock size parts w i hsize h]

theorem messageCalls_length (sock : Nat) (parts : List zmq_message_part) :
    (messageCalls sock parts).length = 2 * parts.length := by
  induction parts with
  | nil => rfl
  | cons part rest ih =>
    rw [messageCalls_cons, List.length_append, ih]
    simp only [List.length_cons, List.length_nil]
    omega

/-! ## Lemmas: accepted sends and the history of a notifier -/

/-- When the library accepts the calls of the whole message, the call returns
true having issued them all, and the counter has advanced. -/
theorem SendCall.run_accepted (c : SendCall) (self : CZMQAbstractPublishNotifier) (w : Zmq)
    (hs : self.psocket ≠ 0) (hwf : c.wf)
    (hok : ∀ k, k < 2 * c.parts → w.ok (w.calls.length + k) = true) :
    c.run self w
      = some (true, { self with nSequence := (self.nSequence + 1) % 2 ^ 32 },
          ⟨w.calls ++ messageCalls self.psocket (c.message self.nSequence), w.ok⟩) := by
  have hlen := c.message_length self.nSequence
  have hl := loop_succeeds self.psocket c.parts (c.message self.nSequence) w 0
    (by rw [hlen, Nat.zero_add]) (by rw [hlen]; exact hok)
  rw [c.run_eq_loop self w hs hwf, hl]
  simp

/-- On a library that accepts every call, every call of a sequence returns true
and hands over its whole message, the k-th built with the counter advanced k
times. -/
theorem runCalls_accepted (cs : List SendCall) :
    ∀ (self : CZMQAbstractPublishNotifier) (w : Zmq) (n0 j : Nat), self.psocket ≠ 0 →
      self.nSequence = (n0 + j) % 2 ^ 32 → (∀ c ∈ cs, c.wf) → (∀ n, w.ok n = true) →
      ∃ self1 w1, runCalls self w cs
        = some ((cs.enumFrom j).map (fun kc =>
            (true, framesOf (messageCalls self.psocket (kc.2.message ((n0 + kc.1) % 2 ^ 32))))),
          self1, w1) := by
  induction cs with
  | nil => intro self w n0 j _ _ _ _; exact ⟨self, w, rfl⟩
  | cons c cs ih =>
    intro self w n0 j hs hseq hwf hall
    have hrun := c.run_accepted self w hs (hwf c (by simp)) (fun k _ => hall _)
    obtain ⟨self2, w2, hrest⟩ := ih
      { self with nSequence := (self.nSequence + 1) % 2 ^ 32 }
      ⟨w.calls ++ messageCalls self.psocket (c.message self.nSequence), w.ok⟩ n0 (j + 1) hs
      (by
        show (self.nSequence + 1) % 2 ^ 32 = (n0 + (j + 1)) % 2 ^ 32
        rw [hseq]
        omega)
      (fun c' hc' => hwf c' (by simp [hc'])) hall
    refine ⟨self2, w2, ?_⟩
    simp only [runCalls, hrun, hrest, List.enumFrom_cons, List.map_cons]
    simp [Zmq.frames, framesOf_append, hseq]

/-- A call of the three-argument overload that returns true has advanced the
counter, whatever `data` is. -/
theorem SendZmqMessage_counter (self self1 : CZMQAbstractPublishNotifier) (w w1 : Zmq)
    (command : List Byte) (data : Option (List Byte)) (size : Nat)
    (h : self.SendZmqMessage w command data size = some (true, self1, w1)) :
    self1.nSequence = (self.nSequence + 1) % 2 ^ 32 := by
  unfold CZMQAbstractPublishNotifier.SendZmqMessage at h
  simp only at h
  split at h
  · cases h
  · split at h
    · cases h
    · split at h
      · simp at h
      · simp only [Option.some.injEq, Prod.mk.injEq, true_and] at h
        rw [← h.1]

theorem Initialize_true_registers (LookupHost : String → Bool) (this pcontext : Nat)
    (W W1 : World)
    (h : CZMQAbstractPublishNotifier.Initialize LookupHost this pcontext W = some (true, W1)) :
    W1.mapPublishNotifiers = W.mapPublishNotifiers ++ [((W.heap this).address, this)] := by
  unfold CZMQAbstractPublishNotifier.Initialize at h
  simp only at h
  repeat' split at h
  all_goals first
    | (simp only [Option.some.injEq, Prod.mk.injEq] at h
       obtain ⟨hb, rfl⟩ := h
       first | rfl | cases hb)
    | cases h

theorem Shutdown_null (this : Nat) (W : World) :
    ((CZMQAbstractPublishNotifier.Shutdown this W).heap this).psocket = 0 := by
  by_cases h : (W.heap this).psocket = 0
  · simp [CZMQAbstractPublishNotifier.Shutdown, h]
  · simp [CZMQAbstractPublishNotifier.Shutdown, h]

theorem initialisedAfter_cons (p : Nat) (s : Bool) (op : Op) (ops : List Op) (b : Bool)
    (bs : List Bool) :
    initialisedAfter p s (op :: ops) (b :: bs)
      = initialisedAfter p (initialisedAfter p s [op] [b]) ops bs := by
  cases op <;> rfl

theorem step_initialised (LookupHost : String → Bool) (W W1 : World) (op : Op) (b : Bool)
    (p : Nat) (s : Bool) (hInv : Inv W) (hkeep : op.keepsAddress = true)
    (hsucc : initializesSucceed [op] [b] = true)
    (h : W.step LookupHost op = some (b, W1))
    (hs : (W.heap p).psocket ≠ 0 ↔ s = true) :
    ((W1.heap p).psocket ≠ 0 ↔ initialisedAfter p s [op] [b] = true) ∧
      (W1.heap p).address = (W.heap p).address := by
  have hInv1 := Inv_step LookupHost W W1 op b hInv hkeep hsucc h
  cases op with
  | Initialize q pcontext =>
    have hb : b = true := by simpa [initializesSucceed] using hsucc
    subst hb
    have h' : CZMQAbstractPublishNotifier.Initialize LookupHost q pcontext W
        = some (true, W1) := h
    obtain ⟨s', hs'⟩ := Initialize_frame LookupHost q pcontext W W1 true h'
    have hreg := Initialize_true_registers LookupHost q pcontext W W1 h'
    by_cases hqp : q = p
    · subst hqp
      refine ⟨?_, ?_⟩
      · have hne : (W1.heap q).psocket ≠ 0 :=
          hInv1.reg_sock ((W.heap q).address, q) (by rw [hreg]; simp)
        simp [initialisedAfter, hne]
      · rw [hs']; simp
    · have hpq : p ≠ q := fun e => hqp e.symm
      refine ⟨?_, ?_⟩
      · rw [hs', Function.update_noteq hpq]
        simpa [initialisedAfter, hqp] using hs
      · rw [hs', Function.update_noteq hpq]
  | Shutdown q =>
    simp only [World.step, Option.some.injEq, Prod.mk.injEq] at h
    obtain ⟨_, rfl⟩ := h
    obtain ⟨s', hs'⟩ := Shutdown_frame q W
    by_cases hqp : q = p
    · subst hqp
      refine ⟨?_, ?_⟩
      · simp [initialisedAfter, Shutdown_null]
      · rw [hs']; simp
    · have hpq : p ≠ q := fun e => hqp e.symm
      refine ⟨?_, ?_⟩
      · rw [hs', Function.update_noteq hpq]
        simpa [initialisedAfter, hqp] using hs
      · rw [hs', Function.update_noteq hpq]
  | Send q c =>
    simp only [World.step] at h
    split at h
    · cases h
    · rename_i b' self1 w1 heq
      simp only [Option.some.injEq, Prod.mk.injEq] at h
      obtain ⟨rfl, rfl⟩ := h
      have hres := c.run_result _ _ _ _ _ heq
      by_cases hqp : p = q
      · subst hqp
        simp only [Function.update_same, initialisedAfter]
        rw [hres]
        cases b' <;> exact ⟨by simpa using hs, rfl⟩
      · simp only [Function.update_noteq hqp, initialisedAfter]
        exact ⟨hs, by simp⟩
  | SetOutboundMessageHighWaterMark q sndhwm =>
    simp only [World.step, Option.some.injEq, Prod.mk.injEq] at h
    obtain ⟨_, rfl⟩ := h
    by_cases hqp : p = q
    · subst hqp
      simp only [Function.update_same, initialisedAfter,
        CZMQAbstractPublishNotifier.SetOutboundMessageHighWaterMark]
      split <;> exact ⟨hs, by simp⟩
    · simp only [Function.update_noteq hqp, initialisedAfter]
      exact ⟨hs, by simp⟩
  | SetAddress q a => cases hkeep
  | SetType q t =>
    simp only [World.step, Option.some.injEq, Prod.mk.injEq] at h
    obtain ⟨_, rfl⟩ := h
    by_cases hqp : p = q
    · subst hqp
      simp only [Function.update_same, initialisedAfter, CZMQAbstractPublishNotifier.SetType]
      exact ⟨hs, by simp⟩
    · simp only [Function.update_noteq hqp, initialisedAfter]
      exact ⟨hs, by simp⟩

theorem run_initialised (LookupHost : String → Bool) (p : Nat) (ops : List Op) :
    ∀ (W W1 : World) (bs : List Bool) (s : Bool), Inv W →
      (∀ op ∈ ops, op.keepsAddress = true) →
      World.run LookupHost W ops = some (bs, W1) → initializesSucceed ops bs = true →
      ((W.heap p).psocket ≠ 0 ↔ s = true) →
      ((W1.heap p).psocket ≠ 0 ↔ initialisedAfter p s ops bs = true) ∧
        (W1.heap p).address = (W.heap p).address := by
  induction ops with
  | nil =>
    intro W W1 bs s _ _ h _ hs
    simp only [World.run, Option.some.injEq, Prod.mk.injEq] at h
    obtain ⟨rfl, rfl⟩ := h
    exact ⟨hs, by simp⟩
  | cons op ops ih =>
    intro W W1 bs s hInv hkeep h hsucc hs
    simp only [World.run] at h
    split at h
    · cases h
    · rename_i b W2 hstep
      split at h
      · cases h
      · rename_i bs' W3 hrest
        simp only [Option.some.injEq, Prod.mk.injEq] at h
        obtain ⟨rfl, rfl⟩ := h
        rw [initializesSucceed_cons, Bool.and_eq_true] at hsucc
        have hk := hkeep op (by simp)
        have h1 := step_initialised LookupHost W W2 op b p s hInv hk hsucc.1 hstep hs
        have hInv2 := Inv_step LookupHost W W2 op b hInv hk hsucc.1 hstep
        have h2 := ih W2 _ bs' (initialisedAfter p s [op] [b]) hInv2
          (fun o ho => hkeep o (by simp [ho])) hrest hsucc.2 h1.1
        rw [initialisedAfter_cons]
        exact ⟨h2.1, h2.2.trans h1.2⟩

/-! ## The claims -/

/-- Claim C1, amended: for every initialised notifier and every sequence of
calls to either `SendZmqMessage` overload, the three-argument one with `data`
pointing to a buffer (not null), every call returns. The counter value before
a call is the first value plus the number of earlier successful calls, modulo
2 ^ 32, and the counter ends at the first value plus the number of all
successful calls, modulo 2 ^ 32. Whatever the transport answers, the parts a
call hands over are a prefix of its message built with the counter value
before that call, and the message of a successful call ends with that value.
Hence on a fresh notifier whose sends all succeed the k-th message carries
k mod 2 ^ 32, and after a message carrying 0xFFFFFFFF the next successful
message carries 0. When the library accepts every call, every call returns
true and hands over its whole message, the k-th with the counter advanced k
times. A call of the three-argument overload that returns true has advanced
the counter by one whatever `data` is. -/
theorem sequence_numbers (self : CZMQAbstractPublishNotifier) (w : Zmq) (cs : List SendCall)
    (hs : self.psocket ≠ 0) (hseq : self.nSequence < 2 ^ 32) (hwf : ∀ c ∈ cs, c.wf) :
    ∃ outs self1 w1, runCalls self w cs = some (outs, self1, w1) ∧
      outs.length = cs.length ∧
      self1.nSequence = (self.nSequence + successes outs) % 2 ^ 32 ∧
      (∀ (k : Nat) (c : SendCall) (b : Bool) (fs : List Frame),
          cs[k]? = some c → outs[k]? = some (b, fs) →
        fs <+: c.body.map (fun p => (⟨self.psocket, p, ZMQ_SNDMORE⟩ : Frame)) ++
          [⟨self.psocket,
            WriteLE32 ((self.nSequence + successes (outs.take k)) % 2 ^ 32), 0⟩]) ∧
      (∀ k b fs, outs[k]? = some (b, fs) → b = true →
        fs.getLast?.map Frame.data
          = some (WriteLE32 ((self.nSequence + successes (outs.take k)) % 2 ^ 32))) ∧
      (self.nSequence = 0 → (∀ o ∈ outs, o.1 = true) → ∀ k fs, outs[k]? = some (true, fs) →
        fs.getLast?.map Frame.data = some (WriteLE32 (k % 2 ^ 32))) ∧
      (∀ k fs fs1, outs[k]? = some (true, fs) → outs[k + 1]? = some (true, fs1) →
        fs.getLast?.map Frame.data = some [255, 255, 255, 255] →
        fs1.getLast?.map Frame.data = some [0, 0, 0, 0]) ∧
      ((∀ n, w.ok n = true) →
        outs = cs.enum.map (fun kc =>
          (true, framesOf (messageCalls self.psocket
            (kc.2.message ((self.nSequence + kc.1) % 2 ^ 32)))))) ∧
      (∀ (w0 w2 : Zmq) (self2 : CZMQAbstractPublishNotifier) (command : List Byte)
          (data : Option (List Byte)) (size : Nat),
        self.SendZmqMessage w0 command data size = some (true, self2, w2) →
        self2.nSequence = (self.nSequence + 1) % 2 ^ 32) := by
  obtain ⟨outs, self1, w1, hrun, hlen, hfinal, hpre, hlast⟩ :=
    runCalls_spec cs self w hs hseq hwf
  refine ⟨outs, self1, w1, hrun, hlen, hfinal, hpre, hlast, ?_, ?_, ?_, ?_⟩
  · intro hfresh hall k fs hk
    rw [hlast k true fs hk rfl, hfresh]
    have hall' : ∀ o ∈ outs.take k, o.1 = true := fun o ho => hall o (List.mem_of_mem_take ho)
    have hcount : successes (outs.take k) = k := by
      rw [successes, List.filter_eq_self.mpr hall', List.length_take]
      have : k < outs.length := by
        by_contra hge
        rw [List.getElem?_eq_none (by omega)] at hk
        exact absurd hk (by simp)
      omega
    rw [hcount, Nat.zero_add]
  · intro k fs fs1 hk hk1 hmax
    have hk' := hlast k true fs hk rfl
    have hk1' := hlast (k + 1) true fs1 hk1 rfl
    have hlt : k < outs.length := by
      by_contra hge
      rw [List.getElem?_eq_none (by omega)] at hk
      exact absurd hk (by simp)
    have hget : outs[k] = (true, fs) := by
      rw [List.getElem?_eq_getElem hlt] at hk
      exact Option.some.inj hk
    have htake : successes (outs.take (k + 1)) = successes (outs.take k) + 1 := by
      rw [List.take_succ, List.getElem?_eq_getElem hlt, hget]
      simp [successes, List.filter_append]
    rw [hk'] at hmax
    have hval : (self.nSequence + successes (outs.take k)) % 2 ^ 32 = 4294967295 := by
      apply WriteLE32_injective _ _ (Nat.mod_lt _ (by norm_num)) (by norm_num)
      rw [Option.some.inj hmax]
      decide
    have hnext : (self.nSequence + successes (outs.take (k + 1))) % 2 ^ 32 = 0 := by
      rw [htake]
      norm_num at hval ⊢
      omega
    rw [hk1', hnext]
    rfl
  · intro hall
    obtain ⟨self2, w2, h2⟩ := runCalls_accepted cs self w self.nSequence 0 hs
      (by rw [Nat.add_zero, Nat.mod_eq_of_lt hseq]) hwf hall
    rw [hrun] at h2
    simp only [Option.some.injEq, Prod.mk.injEq] at h2
    exact h2.1
  · intro w0 w2 self2 command data size h
    exact SendZmqMessage_counter self self2 w0 w2 command data size h

set_option maxRecDepth 8192 in
/-- Witness of C1: a fixed and a structured call on a notifier whose counter
is 0xFFFFFFFF; both return true, the first message ends with 0xFFFFFFFF and the
second with 0. -/
theorem sequence_numbers_witness :
    (notifierAt 4294967295).psocket ≠ 0 ∧ (notifierAt 4294967295).nSequence < 2 ^ 32 ∧
      (∀ c ∈ [SendCall.fixed (cstr "rawtx") [1, 2, 3] 3,
          SendCall.structured 1000 (cstr "mempooladded") [[7]]], c.wf) ∧
      runCalls (notifierAt 4294967295) acceptingZmq
          [SendCall.fixed (cstr "rawtx") [1, 2, 3] 3,
            SendCall.structured 1000 (cstr "mempooladded") [[7]]]
        = some ([(true, [⟨5, ascii "rawtx", ZMQ_SNDMORE⟩, ⟨5, [1, 2, 3], ZMQ_SNDMORE⟩,
              ⟨5, [255, 255, 255, 255], 0⟩]),
            (true, [⟨5, ascii "mempooladded", ZMQ_SNDMORE⟩,
              ⟨5, [232, 3, 0, 0, 0, 0, 0, 0], ZMQ_SNDMORE⟩, ⟨5, [7], ZMQ_SNDMORE⟩,
              ⟨5, [0, 0, 0, 0], 0⟩])],
          notifierAt 1,
          ⟨messageCalls 5 [ascii "rawtx", [1, 2, 3], [255, 255, 255, 255]]
            ++ messageCalls 5 [ascii "mempooladded", [232, 3, 0, 0, 0, 0, 0, 0], [7],
              [0, 0, 0, 0]], fun _ => true⟩) ∧
      ∃ outs self1 w1,
        runCalls (notifierAt 4294967295) acceptingZmq
            [SendCall.fixed (cstr "rawtx") [1, 2, 3] 3,
              SendCall.structured 1000 (cstr "mempooladded") [[7]]]
          = some (outs, self1, w1) ∧
        outs.length = 2 ∧
        self1.nSequence = (4294967295 + successes outs) % 2 ^ 32 :=
  ⟨by decide, by decide,
    by
      intro c hc
      simp only [List.mem_cons, List.mem_singleton, List.not_mem_nil, or_false] at hc
      rcases hc with rfl | rfl
      · show 3 ≤ 3
        decide
      · trivial,
    rfl,
    by
      obtain ⟨outs, self1, w1, h1, h2, h3, _⟩ :=
        sequence_numbers (notifierAt 4294967295) acceptingZmq
          [SendCall.fixed (cstr "rawtx") [1, 2, 3] 3,
            SendCall.structured 1000 (cstr "mempooladded") [[7]]]
          (by decide) (by decide)
          (by
            intro c hc
            simp only [List.mem_cons, List.mem_singleton, List.not_mem_nil, or_false] at hc
            rcases hc with rfl | rfl
            · show 3 ≤ 3
              decide
            · trivial)
      exact ⟨outs, self1, w1, h1, h2, h3⟩⟩

set_option maxRecDepth 8192 in
/-- Claim C1, as the spec states it, fails for a null `data`: the variadic
primitive reads the null pointer as the end of its argument list, so the call
on topic "rawtx" at counter 0 returns true having sent the topic alone; the
message carries no sequence value, although the counter has advanced. -/
theorem null_data_carries_no_sequence :
    ¬ ∀ (self self1 : CZMQAbstractPublishNotifier) (w w1 : Zmq) (command : List Byte)
        (data : Option (List Byte)) (size : Nat),
        self.SendZmqMessage w command data size = some (true, self1, w1) →
        (w1.frames.drop w.frames.length).getLast?.map Frame.data
          = some (WriteLE32 self.nSequence) := by
  intro h
  have h1 := h (notifierAt 0) (notifierAt 1) acceptingZmq
    ⟨[.zmq_msg_init_size 5, .zmq_msg_send 5 (ascii "rawtx") 0], fun _ => true⟩
    (cstr "rawtx") none 0 rfl
  exact absurd h1 (by decide)

/-- Claim C3, amended: a successful `SendZmqMessage (command, data, size)`
whose `data` points to a buffer (is not null) hands the transport exactly
three parts in this order: the topic's bytes without the terminating NUL, the
payload bytes unchanged, and the 4-byte little-endian encoding of the counter;
the first two are flagged `ZMQ_SNDMORE`. This holds for every topic, every
payload (the empty one included) and every counter. -/
theorem SendZmqMessage_three_parts (self self1 : CZMQAbstractPublishNotifier) (w w1 : Zmq)
    (topic payload : List Byte) (htopic : ∀ b ∈ topic, b ≠ 0)
    (h : self.SendZmqMessage w (topic ++ [0]) (some payload) payload.length
      = some (true, self1, w1)) :
    w1.frames = w.frames ++
      [⟨self.psocket, topic, ZMQ_SNDMORE⟩, ⟨self.psocket, payload, ZMQ_SNDMORE⟩,
        ⟨self.psocket,
          [byteOfNat self.nSequence, byteOfNat (self.nSequence / 2 ^ 8),
            byteOfNat (self.nSequence / 2 ^ 16), byteOfNat (self.nSequence / 2 ^ 24)], 0⟩] := by
  have hf := SendCall.frames_of_true (.fixed (topic ++ [0]) payload payload.length)
    self self1 w w1 (Nat.le_refl _) h
  rw [hf]
  simp [SendCall.body, std_string_cstr topic htopic, WriteLE32]

set_option maxRecDepth 8192 in
/-- Witness of C3: the empty payload on topic "rawtx" at counter 258. -/
theorem SendZmqMessage_three_parts_witness :
    (∀ b ∈ ascii "rawtx", b ≠ 0) ∧
    (notifierAt 258).SendZmqMessage acceptingZmq (ascii "rawtx" ++ [0]) (some []) 0
      = some (true, notifierAt 259,
          ⟨messageCalls 5 [ascii "rawtx", [], [2, 1, 0, 0]], fun _ => true⟩) ∧
    Zmq.frames ⟨messageCalls 5 [ascii "rawtx", [], [2, 1, 0, 0]], fun _ => true⟩
      = acceptingZmq.frames ++
        [⟨5, ascii "rawtx", ZMQ_SNDMORE⟩, ⟨5, [], ZMQ_SNDMORE⟩, ⟨5, [2, 1, 0, 0], 0⟩] :=
  ⟨by decide, rfl,
    SendZmqMessage_three_parts (notifierAt 258) (notifierAt 259) acceptingZmq
      ⟨messageCalls 5 [ascii "rawtx", [], [2, 1, 0, 0]], fun _ => true⟩
      (ascii "rawtx") [] (by decide) rfl⟩

set_option maxRecDepth 8192 in
/-- Claim C3, as the spec states it, fails for the empty payload given as a
null `data` with size 0: the variadic primitive reads the null pointer as the
end of its argument list, and the call on topic "rawtx" returns true having
handed the transport one part, the topic without flag, and neither a payload
part nor the counter. -/
theorem null_data_sends_topic_alone :
    ¬ ∀ (self self1 : CZMQAbstractPublishNotifier) (w w1 : Zmq) (topic : List Byte)
        (data : Option (List Byte)) (size : Nat), (∀ b ∈ topic, b ≠ 0) →
        self.SendZmqMessage w (topic ++ [0]) data size = some (true, self1, w1) →
        (w1.frames.drop w.frames.length).length = 3 := by
  intro h
  have h1 := h (notifierAt 0) (notifierAt 1) acceptingZmq
    ⟨[.zmq_msg_init_size 5, .zmq_msg_send 5 (ascii "rawtx") 0], fun _ => true⟩
    (ascii "rawtx") none 0 (by decide) rfl
  exact absurd h1 (by decide)

/-- Claim C4: a successful `SendZmqMessage (command, payload)` with `n` payload
parts hands the transport exactly `n + 3` parts in this order: the topic's
bytes, the 8-byte little-endian encoding of the clock's millisecond reading,
the payload parts in their order and unchanged, and the 4-byte little-endian
encoding of the counter; every part but the last is flagged `ZMQ_SNDMORE`. -/
theorem SendZmqMessage_payload_parts (self self1 : CZMQAbstractPublishNotifier) (w w1 : Zmq)
    (now : Int) (topic : List Byte) (payload : List zmq_message_part)
    (htopic : ∀ b ∈ topic, b ≠ 0)
    (h : self.SendZmqMessage_payload w now (topic ++ [0]) payload = some (true, self1, w1)) :
    w1.frames = w.frames ++
        [⟨self.psocket, topic, ZMQ_SNDMORE⟩,
          ⟨self.psocket, WriteLE64 (now % 2 ^ 64).toNat, ZMQ_SNDMORE⟩]
        ++ payload.map (fun p => (⟨self.psocket, p, ZMQ_SNDMORE⟩ : Frame))
        ++ [⟨self.psocket, WriteLE32 self.nSequence, 0⟩] ∧
      w1.frames.length = w.frames.length + (payload.length + 3) ∧
      (WriteLE64 (now % 2 ^ 64).toNat).length = 8 ∧
      (WriteLE32 self.nSequence).length = 4 := by
  have hf := SendCall.frames_of_true (.structured now (topic ++ [0]) payload)
    self self1 w w1 trivial h
  have hshape : w1.frames = w.frames ++
        [⟨self.psocket, topic, ZMQ_SNDMORE⟩,
          ⟨self.psocket, WriteLE64 (now % 2 ^ 64).toNat, ZMQ_SNDMORE⟩]
        ++ payload.map (fun p => (⟨self.psocket, p, ZMQ_SNDMORE⟩ : Frame))
        ++ [⟨self.psocket, WriteLE32 self.nSequence, 0⟩] := by
    rw [hf]
    simp [SendCall.body, std_string_cstr topic htopic, int64ToZMQMessagePart_eq_WriteLE64]
  refine ⟨hshape, ?_, rfl, rfl⟩
  rw [hshape]
  simp only [List.length_append, List.length_map, List.length_cons, List.length_nil]
  omega

set_option maxRecDepth 8192 in
/-- Witness of C4: two payload parts on topic "mempooladded" at counter 1,
clock reading 1000 ms. -/
theorem SendZmqMessage_payload_parts_witness :
    (∀ b ∈ ascii "mempooladded", b ≠ 0) ∧
    (notifierAt 1).SendZmqMessage_payload acceptingZmq 1000 (ascii "mempooladded" ++ [0])
        [[7], [8, 9]]
      = some (true, notifierAt 2,
          ⟨messageCalls 5 [ascii "mempooladded", [232, 3, 0, 0, 0, 0, 0, 0], [7], [8, 9],
            [1, 0, 0, 0]], fun _ => true⟩) ∧
    (Zmq.frames ⟨messageCalls 5 [ascii "mempooladded", [232, 3, 0, 0, 0, 0, 0, 0], [7], [8, 9],
            [1, 0, 0, 0]], fun _ => true⟩
        = acceptingZmq.frames ++
          [⟨5, ascii "mempooladded", ZMQ_SNDMORE⟩,
            ⟨5, WriteLE64 ((1000 : Int) % 2 ^ 64).toNat, ZMQ_SNDMORE⟩]
          ++ [[7], [8, 9]].map (fun p => (⟨5, p, ZMQ_SNDMORE⟩ : Frame))
          ++ [⟨5, WriteLE32 1, 0⟩] ∧
      (Zmq.frames ⟨messageCalls 5 [ascii "mempooladded", [232, 3, 0, 0, 0, 0, 0, 0], [7],
            [8, 9], [1, 0, 0, 0]], fun _ => true⟩).length
        = acceptingZmq.frames.length + (([[7], [8, 9]] : List zmq_message_part).length + 3) ∧
      (WriteLE64 ((1000 : Int) % 2 ^ 64).toNat).length = 8 ∧
      (WriteLE32 1).length = 4) :=
  ⟨by decide, rfl,
    SendZmqMessage_payload_parts (notifierAt 1) (notifierAt 2) acceptingZmq
      ⟨messageCalls 5 [ascii "mempooladded", [232, 3, 0, 0, 0, 0, 0, 0], [7], [8, 9],
        [1, 0, 0, 0]], fun _ => true⟩
      1000 (ascii "mempooladded") [[7], [8, 9]] (by decide) rfl⟩

/-- Claim C5: the sequence-topic publisher passes to the send primitive the
topic "sequence" and, for every 32-byte hash and every 64-bit mempool
sequence `m`: for `NotifyBlockConnect` exactly 33 bytes, the reversed hash
followed by 'C'; for `NotifyBlockDisconnect` exactly 33 bytes, the reversed
hash followed by 'D'; for `NotifyTransactionAcceptance` exactly 41 bytes, the
reversed hash, 'A' and the 8-byte little-endian encoding of `m`; for
`NotifyTransactionRemoval` exactly 41 bytes, the reversed hash, 'R' and the
8-byte little-endian encoding of `m`. -/
theorem sequence_topic_payload (self : CZMQAbstractPublishNotifier) (w : Zmq) (data : Buffer 41)
    (pindex : CBlockIndex) (transaction : CTransaction) (m : Nat) (hm : m < 2 ^ 64) :
    CZMQPublishSequenceNotifier.NotifyBlockConnect self w data pindex
        = self.SendZmqMessage w (cstr "sequence")
            (some (pindex.GetBlockHash.bytes.reverse ++ [byteOfNat 'C'.toNat])) 33 ∧
      CZMQPublishSequenceNotifier.NotifyBlockDisconnect self w data pindex
        = self.SendZmqMessage w (cstr "sequence")
            (some (pindex.GetBlockHash.bytes.reverse ++ [byteOfNat 'D'.toNat])) 33 ∧
      CZMQPublishSequenceNotifier.NotifyTransactionAcceptance self w data transaction m
        = self.SendZmqMessage w (cstr "sequence")
            (some (transaction.GetHash.bytes.reverse ++ [byteOfNat 'A'.toNat] ++ WriteLE64 m))
            41 ∧
      CZMQPublishSequenceNotifier.NotifyTransactionRemoval self w data transaction m
        = self.SendZmqMessage w (cstr "sequence")
            (some (transaction.GetHash.bytes.reverse ++ [byteOfNat 'R'.toNat] ++ WriteLE64 m))
            41 ∧
      (pindex.GetBlockHash.bytes.reverse ++ [byteOfNat 'C'.toNat]).length = 33 ∧
      (pindex.GetBlockHash.bytes.reverse ++ [byteOfNat 'D'.toNat]).length = 33 ∧
      (transaction.GetHash.bytes.reverse ++ [byteOfNat 'A'.toNat] ++ WriteLE64 m).length = 41 ∧
      (transaction.GetHash.bytes.reverse ++ [byteOfNat 'R'.toNat] ++ WriteLE64 m).length = 41 ∧
      (WriteLE64 m).length = 8 ∧ decodeLE (WriteLE64 m) = m ∧
      std_string (cstr "sequence") = ascii "sequence" := by
  have hb : pindex.GetBlockHash.bytes.length = 32 := pindex.GetBlockHash.size_eq
  have ht : transaction.GetHash.bytes.length = 32 := transaction.GetHash.size_eq
  refine ⟨?_, ?_, ?_, ?_, ?_, ?_, ?_, ?_, rfl, decodeLE_WriteLE64 m hm, ?_⟩
  · rw [CZMQPublishSequenceNotifier.NotifyBlockConnect, SendSequenceMsg_eq]
    simp
  · rw [CZMQPublishSequenceNotifier.NotifyBlockDisconnect, SendSequenceMsg_eq]
    simp
  · rw [CZMQPublishSequenceNotifier.NotifyTransactionAcceptance, SendSequenceMsg_eq]
    simp
  · rw [CZMQPublishSequenceNotifier.NotifyTransactionRemoval, SendSequenceMsg_eq]
    simp
  · simp [hb]
  · simp [hb]
  · simp [ht, WriteLE64]
  · simp [ht, WriteLE64]
  · exact std_string_cstr (ascii "sequence") topics_nul_free.2.2.1

/-- Witness of C5: the hash 0, 1, ..., 31 and mempool sequence 42; the parts
the acceptance event hands to an accepting transport. -/
theorem sequence_topic_payload_witness :
    (42 : Nat) < 2 ^ 64 ∧
      CZMQPublishSequenceNotifier.NotifyTransactionAcceptance (notifierAt 0) acceptingZmq
          sampleBuffer41 sampleTx 42
        = (notifierAt 0).SendZmqMessage acceptingZmq (cstr "sequence")
            (some (sampleTx.GetHash.bytes.reverse ++ [byteOfNat 'A'.toNat] ++ WriteLE64 42)) 41 ∧
      (CZMQPublishSequenceNotifier.NotifyTransactionAcceptance (notifierAt 0) acceptingZmq
          sampleBuffer41 sampleTx 42).map (fun r => (r.1, r.2.2.frames))
        = some (true,
            [⟨5, ascii "sequence", ZMQ_SNDMORE⟩,
              ⟨5, sampleHash.bytes.reverse ++ [65, 42, 0, 0, 0, 0, 0, 0, 0], ZMQ_SNDMORE⟩,
              ⟨5, [0, 0, 0, 0], 0⟩]) :=
  ⟨by decide,
    (sequence_topic_payload (notifierAt 0) acceptingZmq sampleBuffer41 ⟨sampleHash⟩ sampleTx 42
      (by decide)).2.2.1, rfl⟩

/-- Claim C6: a successful `NotifyBlock` of the hashblock notifier emits a
message of exactly three parts: the bytes of "hashblock", the 32 bytes of the
block hash in reversed order (output byte `i` is the hash's internal byte
`31 - i`), and the 4-byte little-endian encoding of the counter. A second
successful event carries the counter plus one; on a fresh notifier the first
event carries 0 and the second 1. `NotifyTransaction` of the hashtx notifier
does the same with topic "hashtx" and the transaction hash. -/
theorem hash_notifier_messages
    (self self1 self2 : CZMQAbstractPublishNotifier) (w w1 w2 : Zmq) (data data2 : Buffer 32)
    (pindex pindex2 : CBlockIndex)
    (selfT selfT1 : CZMQAbstractPublishNotifier) (wT wT1 : Zmq) (dataT : Buffer 32)
    (transaction : CTransaction)
    (h1 : CZMQPublishHashBlockNotifier.NotifyBlock self w data pindex = some (true, self1, w1))
    (h2 : CZMQPublishHashBlockNotifier.NotifyBlock self1 w1 data2 pindex2
      = some (true, self2, w2))
    (hT : CZMQPublishHashTransactionNotifier.NotifyTransaction selfT wT dataT transaction
      = some (true, selfT1, wT1)) :
    w1.frames = w.frames ++
        [⟨self.psocket, ascii "hashblock", ZMQ_SNDMORE⟩,
          ⟨self.psocket, pindex.GetBlockHash.bytes.reverse, ZMQ_SNDMORE⟩,
          ⟨self.psocket, WriteLE32 self.nSequence, 0⟩] ∧
      pindex.GetBlockHash.bytes.reverse.length = 32 ∧
      (∀ i, i < 32 →
        pindex.GetBlockHash.bytes.reverse[i]? = some (pindex.GetBlockHash.get (31 - i))) ∧
      (WriteLE32 self.nSequence).length = 4 ∧
      w2.frames = w1.frames ++
        [⟨self.psocket, ascii "hashblock", ZMQ_SNDMORE⟩,
          ⟨self.psocket, pindex2.GetBlockHash.bytes.reverse, ZMQ_SNDMORE⟩,
          ⟨self.psocket, WriteLE32 ((self.nSequence + 1) % 2 ^ 32), 0⟩] ∧
      (self.nSequence = 0 →
        WriteLE32 self.nSequence = [0, 0, 0, 0] ∧
          WriteLE32 ((self.nSequence + 1) % 2 ^ 32) = [1, 0, 0, 0]) ∧
      wT1.frames = wT.frames ++
        [⟨selfT.psocket, ascii "hashtx", ZMQ_SNDMORE⟩,
          ⟨selfT.psocket, transaction.GetHash.bytes.reverse, ZMQ_SNDMORE⟩,
          ⟨selfT.psocket, WriteLE32 selfT.nSequence, 0⟩] ∧
      (∀ i, i < 32 →
        transaction.GetHash.bytes.reverse[i]? = some (transaction.GetHash.get (31 - i))) := by
  rw [NotifyBlock_eq] at h1 h2
  rw [NotifyTransaction_eq] at hT
  obtain ⟨hf1, hs1⟩ := fixed_frames self self1 w w1 _ _ topics_nul_free.1 h1
  obtain ⟨hf2, _⟩ := fixed_frames self1 self2 w1 w2 _ _ topics_nul_free.1 h2
  obtain ⟨hfT, _⟩ := fixed_frames selfT selfT1 wT wT1 _ _ topics_nul_free.2.1 hT
  refine ⟨hf1, ?_, fun i hi => reverse_getElem_opt _ i hi, rfl, ?_, ?_, hfT,
    fun i hi => reverse_getElem_opt _ i hi⟩
  · rw [List.length_reverse, pindex.GetBlockHash.size_eq]
  · rw [hf2, hs1]
  · intro h0
    rw [h0]
    exact ⟨by decide, by decide⟩

/-- Witness of C6: two block events and one transaction event on fresh
notifiers. -/
theorem hash_notifier_messages_witness :
    CZMQPublishHashBlockNotifier.NotifyBlock (notifierAt 0) acceptingZmq sampleBuffer32
        ⟨sampleHash⟩
      = some (true, notifierAt 1,
          ⟨messageCalls 5 [ascii "hashblock", sampleHash.bytes.reverse, [0, 0, 0, 0]],
            fun _ => true⟩) ∧
    CZMQPublishHashBlockNotifier.NotifyBlock (notifierAt 1)
        ⟨messageCalls 5 [ascii "hashblock", sampleHash.bytes.reverse, [0, 0, 0, 0]],
          fun _ => true⟩
        sampleBuffer32 ⟨sampleHash⟩
      = some (true, notifierAt 2,
          ⟨messageCalls 5 [ascii "hashblock", sampleHash.bytes.reverse, [0, 0, 0, 0]]
            ++ messageCalls 5 [ascii "hashblock", sampleHash.bytes.reverse, [1, 0, 0, 0]],
            fun _ => true⟩) ∧
    CZMQPublishHashTransactionNotifier.NotifyTransaction (notifierAt 0) acceptingZmq
        sampleBuffer32 sampleTx
      = some (true, notifierAt 1,
          ⟨messageCalls 5 [ascii "hashtx", sampleHash.bytes.reverse, [0, 0, 0, 0]],
            fun _ => true⟩) ∧
    Zmq.frames ⟨messageCalls 5 [ascii "hashblock", sampleHash.bytes.reverse, [0, 0, 0, 0]],
          fun _ => true⟩
      = acceptingZmq.frames ++
        [⟨5, ascii "hashblock", ZMQ_SNDMORE⟩, ⟨5, sampleHash.bytes.reverse, ZMQ_SNDMORE⟩,
          ⟨5, WriteLE32 0, 0⟩] := by
  have h1 : CZMQPublishHashBlockNotifier.NotifyBlock (notifierAt 0) acceptingZmq sampleBuffer32
        ⟨sampleHash⟩
      = some (true, notifierAt 1,
          ⟨messageCalls 5 [ascii "hashblock", sampleHash.bytes.reverse, [0, 0, 0, 0]],
            fun _ => true⟩) := rfl
  have h2 : CZMQPublishHashBlockNotifier.NotifyBlock (notifierAt 1)
        ⟨messageCalls 5 [ascii "hashblock", sampleHash.bytes.reverse, [0, 0, 0, 0]],
          fun _ => true⟩
        sampleBuffer32 ⟨sampleHash⟩
      = some (true, notifierAt 2,
          ⟨messageCalls 5 [ascii "hashblock", sampleHash.bytes.reverse, [0, 0, 0, 0]]
            ++ messageCalls 5 [ascii "hashblock", sampleHash.bytes.reverse, [1, 0, 0, 0]],
            fun _ => true⟩) := rfl
  have hT : CZMQPublishHashTransactionNotifier.NotifyTransaction (notifierAt 0) acceptingZmq
        sampleBuffer32 sampleTx
      = some (true, notifierAt 1,
          ⟨messageCalls 5 [ascii "hashtx", sampleHash.bytes.reverse, [0, 0, 0, 0]],
            fun _ => true⟩) := rfl
  exact ⟨h1, h2, hT,
    (hash_notifier_messages _ _ _ _ _ _ _ _ _ _ _ _ _ _ _ _ h1 h2 hT).1⟩

/-- Claim C7: for every 32-byte hash, `hashToZMQMessagePart` is a part of
exactly 32 bytes whose byte `i` is byte `31 - i` of the hash's internal
representation, for every `i` in 0..31. -/
theorem hashToZMQMessagePart_bytes (hash : uint256) (i : Nat) (hi : i < 32) :
    (hashToZMQMessagePart hash).length = 32 ∧
      (hashToZMQMessagePart hash)[i]? = some (hash.get (31 - i)) ∧
      hash.bytes[31 - i]? = some (hash.get (31 - i)) := by
  have hlen : hash.bytes.length = 32 := hash.size_eq
  rw [hashToZMQMessagePart_eq_reverse]
  refine ⟨by simp [hlen], reverse_getElem_opt hash i hi, ?_⟩
  rw [uint256.get, List.getD_eq_getElem?_getD, List.getElem?_eq_getElem (by omega)]
  rfl

/-- Witness of C7: byte 3 of the part of the hash 0, 1, ..., 31 is 28. -/
theorem hashToZMQMessagePart_bytes_witness :
    3 < 32 ∧ (hashToZMQMessagePart sampleHash).length = 32 ∧
      (hashToZMQMessagePart sampleHash)[3]? = some (sampleHash.get (31 - 3)) ∧
      sampleHash.bytes[31 - 3]? = some (sampleHash.get (31 - 3)) :=
  ⟨by decide, hashToZMQMessagePart_bytes sampleHash 3 (by decide)⟩

/-- Claim C8: reading the 32-byte output of `hashToZMQMessagePart` back as a
hash and applying `hashToZMQMessagePart` again yields the bytes of the hash;
in particular `hashToZMQMessagePart` is injective. -/
theorem hashToZMQMessagePart_twice (hash : uint256) :
    (uint256.ofBytes (hashToZMQMessagePart hash)).map hashToZMQMessagePart = some hash.bytes ∧
      Function.Injective hashToZMQMessagePart := by
  constructor
  · have hlen : (hashToZMQMessagePart hash).length = 32 := by
      rw [hashToZMQMessagePart_eq_reverse, List.length_reverse, hash.size_eq]
    rw [uint256.ofBytes, dif_pos hlen, Option.map_some', hashToZMQMessagePart_eq_reverse]
    simp [hashToZMQMessagePart_eq_reverse]
  · intro a b hab
    rw [hashToZMQMessagePart_eq_reverse, hashToZMQMessagePart_eq_reverse] at hab
    have hbytes : a.bytes = b.bytes := List.reverse_injective hab
    cases a
    cases b
    simp only [uint256.mk.injEq]
    exact hbytes

/-- Claim C9: for every signed 64-bit value `v`, negative values included,
`int64ToZMQMessagePart v` is exactly 8 bytes whose byte `i` is
`((v mod 2^64) / 2^(8i)) mod 256`, and decoding those bytes as a little-endian
two's-complement 64-bit integer returns `v`. -/
theorem int64ToZMQMessagePart_little_endian (v : Int) (hlo : -2 ^ 63 ≤ v) (hhi : v < 2 ^ 63) :
    (int64ToZMQMessagePart v).length = 8 ∧
      (∀ i, i < 8 →
        (((int64ToZMQMessagePart v).getD i 0).val : Int) = (v % 2 ^ 64) / 2 ^ (8 * i) % 256) ∧
      decodeInt64LE (int64ToZMQMessagePart v) = v := by
  refine ⟨by rw [int64ToZMQMessagePart_eq_div]; rfl, ?_, ?_⟩
  · intro i hi
    rw [int64ToZMQMessagePart_eq_div]
    have hb : ∀ (a0 a1 a2 a3 a4 a5 a6 a7 : Int),
        (([byteOfInt a0, byteOfInt a1, byteOfInt a2, byteOfInt a3, byteOfInt a4, byteOfInt a5,
            byteOfInt a6, byteOfInt a7].getD i 0).val : Int)
          = [a0 % 256, a1 % 256, a2 % 256, a3 % 256, a4 % 256, a5 % 256, a6 % 256,
              a7 % 256].getD i 0 := by
      intro a0 a1 a2 a3 a4 a5 a6 a7
      interval_cases i <;> exact byteOfInt_val _
    rw [hb]
    interval_cases i
    all_goals show _ % 256 = _
    all_goals norm_num
    all_goals omega
  · have hu : (v % 2 ^ 64).toNat < 2 ^ 64 := by norm_num; omega
    rw [int64ToZMQMessagePart_eq_WriteLE64, decodeInt64LE, decodeLE_WriteLE64 _ hu]
    norm_num at hlo hhi ⊢
    split <;> omega

/-- Witness of C9: the value -1000. -/
theorem int64ToZMQMessagePart_little_endian_witness :
    (-2 ^ 63 ≤ (-1000 : Int) ∧ (-1000 : Int) < 2 ^ 63) ∧
      (int64ToZMQMessagePart (-1000)).length = 8 ∧
      (∀ i, i < 8 →
        (((int64ToZMQMessagePart (-1000)).getD i 0).val : Int)
          = ((-1000 : Int) % 2 ^ 64) / 2 ^ (8 * i) % 256) ∧
      decodeInt64LE (int64ToZMQMessagePart (-1000)) = -1000 :=
  ⟨⟨by decide, by decide⟩,
    int64ToZMQMessagePart_little_endian (-1000) (by decide) (by decide)⟩

/-- Claim C10: a successful `NotifyTransactionFee` of the mempooladded notifier
emits exactly six parts in this order: the bytes of "mempooladded", the 8-byte
timestamp, the reversed hash of the transaction, the serialization of the
transaction as one part, the 8-byte little-endian encoding of the fee, and the
4-byte sequence trailer. -/
theorem mempooladded_message (self self1 : CZMQAbstractPublishNotifier) (w w1 : Zmq)
    (now : Int) (transaction : CTransaction) (fee : Int)
    (h : CZMQPublishMempolAddedNotifier.NotifyTransactionFee self w now transaction fee
      = some (true, self1, w1)) :
    w1.frames = w.frames ++
        [⟨self.psocket, ascii "mempooladded", ZMQ_SNDMORE⟩,
          ⟨self.psocket, int64ToZMQMessagePart now, ZMQ_SNDMORE⟩,
          ⟨self.psocket, hashToZMQMessagePart transaction.GetHash, ZMQ_SNDMORE⟩,
          ⟨self.psocket, transaction.serialized, ZMQ_SNDMORE⟩,
          ⟨self.psocket, int64ToZMQMessagePart fee, ZMQ_SNDMORE⟩,
          ⟨self.psocket, WriteLE32 self.nSequence, 0⟩] ∧
      (int64ToZMQMessagePart now).length = 8 ∧
      hashToZMQMessagePart transaction.GetHash = transaction.GetHash.bytes.reverse ∧
      int64ToZMQMessagePart fee = WriteLE64 (fee % 2 ^ 64).toNat ∧
      (int64ToZMQMessagePart fee).length = 8 ∧
      (WriteLE32 self.nSequence).length = 4 := by
  have h' : self.SendZmqMessage_payload w now (ascii "mempooladded" ++ [0])
      [hashToZMQMessagePart transaction.GetHash, transaction.serialized,
        int64ToZMQMessagePart fee] = some (true, self1, w1) := h
  obtain ⟨hf, _⟩ := structured_frames self self1 w w1 now _ _ topics_nul_free.2.2.2 h'
  refine ⟨?_, ?_, hashToZMQMessagePart_eq_reverse _, int64ToZMQMessagePart_eq_WriteLE64 _,
    ?_, rfl⟩
  · rw [hf]
    simp
  · rw [int64ToZMQMessagePart_eq_div]; rfl
  · rw [int64ToZMQMessagePart_eq_div]; rfl

/-- Witness of C10: the sample transaction with fee 1000 at clock reading
1700000000000 ms on a notifier whose counter is 3. -/
theorem mempooladded_message_witness :
    CZMQPublishMempolAddedNotifier.NotifyTransactionFee (notifierAt 3) acceptingZmq
        1700000000000 sampleTx 1000
      = some (true, notifierAt 4,
          ⟨messageCalls 5 [ascii "mempooladded", int64ToZMQMessagePart 1700000000000,
            sampleHash.bytes.reverse, [1, 2, 3], [232, 3, 0, 0, 0, 0, 0, 0], [3, 0, 0, 0]],
            fun _ => true⟩) ∧
    Zmq.frames ⟨messageCalls 5 [ascii "mempooladded", int64ToZMQMessagePart 1700000000000,
            sampleHash.bytes.reverse, [1, 2, 3], [232, 3, 0, 0, 0, 0, 0, 0], [3, 0, 0, 0]],
            fun _ => true⟩
      = acceptingZmq.frames ++
        [⟨5, ascii "mempooladded", ZMQ_SNDMORE⟩,
          ⟨5, int64ToZMQMessagePart 1700000000000, ZMQ_SNDMORE⟩,
          ⟨5, hashToZMQMessagePart sampleTx.GetHash, ZMQ_SNDMORE⟩,
          ⟨5, sampleTx.serialized, ZMQ_SNDMORE⟩,
          ⟨5, int64ToZMQMessagePart 1000, ZMQ_SNDMORE⟩,
          ⟨5, WriteLE32 (notifierAt 3).nSequence, 0⟩] :=
  ⟨rfl,
    (mempooladded_message (notifierAt 3) (notifierAt 4) acceptingZmq
      ⟨messageCalls 5 [ascii "mempooladded", int64ToZMQMessagePart 1700000000000,
        sampleHash.bytes.reverse, [1, 2, 3], [232, 3, 0, 0, 0, 0, 0, 0], [3, 0, 0, 0]],
        fun _ => true⟩
      1700000000000 sampleTx 1000 rfl).1⟩

/-- Claim C11: a successful `NotifyTransactionReplaced` of the mempoolreplaced
notifier emits exactly 9 parts: the topic, the timestamp, then the reversed
hash, the serialization and the 8-byte little-endian fee of the replaced
transaction, then the same three of the replacement transaction, then the
4-byte little-endian counter. -/
theorem mempoolreplaced_message (self self1 : CZMQAbstractPublishNotifier) (w w1 : Zmq)
    (now : Int) (tx_replaced : CTransaction) (fee_replaced : Int)
    (tx_replacement : CTransaction) (fee_replacement : Int)
    (h : CZMQPublishMempoolReplacedNotifier.NotifyTransactionReplaced self w now tx_replaced
      fee_replaced tx_replacement fee_replacement = some (true, self1, w1)) :
    w1.frames = w.frames ++
        [⟨self.psocket, ascii "mempoolreplaced", ZMQ_SNDMORE⟩,
          ⟨self.psocket, int64ToZMQMessagePart now, ZMQ_SNDMORE⟩,
          ⟨self.psocket, tx_replaced.GetHash.bytes.reverse, ZMQ_SNDMORE⟩,
          ⟨self.psocket, tx_replaced.serialized, ZMQ_SNDMORE⟩,
          ⟨self.psocket, WriteLE64 (fee_replaced % 2 ^ 64).toNat, ZMQ_SNDMORE⟩,
          ⟨self.psocket, tx_replacement.GetHash.bytes.reverse, ZMQ_SNDMORE⟩,
          ⟨self.psocket, tx_replacement.serialized, ZMQ_SNDMORE⟩,
          ⟨self.psocket, WriteLE64 (fee_replacement % 2 ^ 64).toNat, ZMQ_SNDMORE⟩,
          ⟨self.psocket, WriteLE32 self.nSequence, 0⟩] ∧
      w1.frames.length = w.frames.length + 9 := by
  have h' : self.SendZmqMessage_payload w now (ascii "mempoolreplaced" ++ [0])
      [hashToZMQMessagePart tx_replaced.GetHash, tx_replaced.serialized,
        int64ToZMQMessagePart fee_replaced, hashToZMQMessagePart tx_replacement.GetHash,
        tx_replacement.serialized, int64ToZMQMessagePart fee_replacement]
      = some (true, self1, w1) := h
  obtain ⟨hf, _⟩ := structured_frames self self1 w w1 now _ _ topic_mempoolreplaced_nul_free h'
  have hshape : w1.frames = w.frames ++
        [⟨self.psocket, ascii "mempoolreplaced", ZMQ_SNDMORE⟩,
          ⟨self.psocket, int64ToZMQMessagePart now, ZMQ_SNDMORE⟩,
          ⟨self.psocket, tx_replaced.GetHash.bytes.reverse, ZMQ_SNDMORE⟩,
          ⟨self.psocket, tx_replaced.serialized, ZMQ_SNDMORE⟩,
          ⟨self.psocket, WriteLE64 (fee_replaced % 2 ^ 64).toNat, ZMQ_SNDMORE⟩,
          ⟨self.psocket, tx_replacement.GetHash.bytes.reverse, ZMQ_SNDMORE⟩,
          ⟨self.psocket, tx_replacement.serialized, ZMQ_SNDMORE⟩,
          ⟨self.psocket, WriteLE64 (fee_replacement % 2 ^ 64).toNat, ZMQ_SNDMORE⟩,
          ⟨self.psocket, WriteLE32 self.nSequence, 0⟩] := by
    rw [hf]
    simp [hashToZMQMessagePart_eq_reverse, int64ToZMQMessagePart_eq_WriteLE64]
  refine ⟨hshape, ?_⟩
  rw [hshape]
  simp

theorem mempoolreplaced_message_witness :
    CZMQPublishMempoolReplacedNotifier.NotifyTransactionReplaced (notifierAt 3) acceptingZmq
        1700000000000 sampleTx 1000 ⟨sampleHash, [4, 5]⟩ 2000
      = some (true, notifierAt 4,
          ⟨messageCalls 5 [ascii "mempoolreplaced", int64ToZMQMessagePart 1700000000000,
            sampleHash.bytes.reverse, [1, 2, 3], [232, 3, 0, 0, 0, 0, 0, 0],
            sampleHash.bytes.reverse, [4, 5], [208, 7, 0, 0, 0, 0, 0, 0], [3, 0, 0, 0]],
            fun _ => true⟩) ∧
    (Zmq.frames ⟨messageCalls 5 [ascii "mempoolreplaced", int64ToZMQMessagePart 1700000000000,
            sampleHash.bytes.reverse, [1, 2, 3], [232, 3, 0, 0, 0, 0, 0, 0],
            sampleHash.bytes.reverse, [4, 5], [208, 7, 0, 0, 0, 0, 0, 0], [3, 0, 0, 0]],
            fun _ => true⟩).length
      = acceptingZmq.frames.length + 9 := by
  have h : CZMQPublishMempoolReplacedNotifier.NotifyTransactionReplaced (notifierAt 3)
        acceptingZmq 1700000000000 sampleTx 1000 ⟨sampleHash, [4, 5]⟩ 2000
      = some (true, notifierAt 4,
          ⟨messageCalls 5 [ascii "mempoolreplaced", int64ToZMQMessagePart 1700000000000,
            sampleHash.bytes.reverse, [1, 2, 3], [232, 3, 0, 0, 0, 0, 0, 0],
            sampleHash.bytes.reverse, [4, 5], [208, 7, 0, 0, 0, 0, 0, 0], [3, 0, 0, 0]],
            fun _ => true⟩) := rfl
  exact ⟨h, (mempoolreplaced_message _ _ _ _ _ _ _ _ _ h).2⟩

/-- Claim C12: `Initialize` on an uninitialised notifier whose address is Live
in the table returns true, calls the library not at all, gives the notifier the
socket that the registered notifiers of the address hold, and adds one entry
for the address to the table; the other notifiers, the entries of other
addresses and the high-water-mark play no part. -/
theorem Initialize_shares_endpoint (LookupHost : String → Bool) (this pcontext : Nat)
    (W : World) (s : Nat) (h0 : (W.heap this).psocket = 0)
    (hlive : ∃ e ∈ W.mapPublishNotifiers, e.1 = (W.heap this).address)
    (hshared : ∀ e ∈ W.mapPublishNotifiers, e.1 = (W.heap this).address →
      (W.heap e.2).psocket = s) :
    ∃ W1, CZMQAbstractPublishNotifier.Initialize LookupHost this pcontext W = some (true, W1) ∧
      W1.zmq = W.zmq ∧
      W1.heap this = { W.heap this with psocket := s } ∧
      (∀ q, q ≠ this → W1.heap q = W.heap q) ∧
      W1.mapPublishNotifiers = W.mapPublishNotifiers ++ [((W.heap this).address, this)] ∧
      W1.count (W.heap this).address = W.count (W.heap this).address + 1 ∧
      (∀ a, a ≠ (W.heap this).address → W1.count a = W.count a) := by
  obtain ⟨e, he, hea⟩ := hlive
  cases hfind : W.mapPublishNotifiers.find? (fun e => e.1 == (W.heap this).address) with
  | none =>
    rw [List.find?_eq_none] at hfind
    exact absurd (by simpa using hea) (hfind e he)
  | some i =>
    have hi := List.mem_of_find?_eq_some hfind
    have hia : i.1 = (W.heap this).address := by
      simpa using List.find?_some hfind
    refine ⟨_, Initialize_live LookupHost this pcontext W i h0 hfind, rfl, ?_, ?_, rfl, ?_, ?_⟩
    · simp [hshared i hi hia]
    · intro q hq
      simp [Function.update_noteq hq]
    · simp [World.count]
    · intro a ha
      simp [World.count, Ne.symm ha]

theorem Initialize_shares_endpoint_witness :
    (sampleWorld1.heap 2).psocket = 0 ∧
      (∃ e ∈ sampleWorld1.mapPublishNotifiers, e.1 = (sampleWorld1.heap 2).address) ∧
      ∃ W1, CZMQAbstractPublishNotifier.Initialize noIPv6 2 0 sampleWorld1 = some (true, W1) ∧
        W1.zmq = sampleWorld1.zmq ∧
        W1.heap 2 = { sampleWorld1.heap 2 with psocket := 1 } ∧
        (∀ q, q ≠ 2 → W1.heap q = sampleWorld1.heap q) ∧
        W1.mapPublishNotifiers
          = sampleWorld1.mapPublishNotifiers ++ [((sampleWorld1.heap 2).address, 2)] ∧
        W1.count (sampleWorld1.heap 2).address
          = sampleWorld1.count (sampleWorld1.heap 2).address + 1 ∧
        (∀ a, a ≠ (sampleWorld1.heap 2).address → W1.count a = sampleWorld1.count a) :=
  ⟨rfl, ⟨(sampleAddress, 1), by simp [sampleWorld1], rfl⟩,
    Initialize_shares_endpoint noIPv6 2 0 sampleWorld1 1 rfl
      ⟨(sampleAddress, 1), by simp [sampleWorld1], rfl⟩
      (by
        intro e he _
        simp only [sampleWorld1, List.mem_singleton] at he
        subst he
        rfl)⟩

/-- Claim C14: start with an empty table and uninitialised notifiers, and
perform any operations that leave the addresses alone and among which every
`Initialize` succeeds. Afterwards, for each address: the endpoints created and
not closed are exactly one if some notifier with that address has been
initialised and not shut down since, and none otherwise, so none remains once
all notifiers of the address have shut down. Which notifiers are initialised
is read off the calls: the last `Initialize` or `Shutdown` on a notifier
decides, and it is those notifiers whose socket is not null. The notifiers
registered under the address hold one and the same socket, which is not null
and is that endpoint; and the registered notifiers are the initialised ones,
under their own address. -/
theorem one_endpoint_per_address (LookupHost : String → Bool) (ok : Nat → Bool)
    (heap : Nat → CZMQAbstractPublishNotifier) (ops : List Op) (bs : List Bool) (W1 : World)
    (hheap : ∀ p, (heap p).psocket = 0) (hkeep : ∀ op ∈ ops, op.keepsAddress = true)
    (hrun : World.run LookupHost (World.start ok heap) ops = some (bs, W1))
    (hsucc : initializesSucceed ops bs = true) (a : String) :
    ((∃ p, (heap p).address = a ∧ initialisedAfter p false ops bs = true) →
        (W1.zmq.endpoints a).length = 1) ∧
      ((¬ ∃ p, (heap p).address = a ∧ initialisedAfter p false ops bs = true) →
        W1.zmq.endpoints a = []) ∧
      (∀ p, (W1.heap p).psocket ≠ 0 ↔ initialisedAfter p false ops bs = true) ∧
      (∀ p, (W1.heap p).address = (heap p).address) ∧
      ((∃ p, (W1.heap p).address = a ∧ (W1.heap p).psocket ≠ 0) →
        (W1.zmq.endpoints a).length = 1) ∧
      ((¬ ∃ p, (W1.heap p).address = a ∧ (W1.heap p).psocket ≠ 0) →
        (W1.zmq.endpoints a).length = 0) ∧
      (∀ p q, (a, p) ∈ W1.mapPublishNotifiers → (a, q) ∈ W1.mapPublishNotifiers →
        (W1.heap p).psocket = (W1.heap q).psocket ∧ (W1.heap p).psocket ≠ 0 ∧
          W1.zmq.endpoints a = [(W1.heap p).psocket]) ∧
      (∀ p, (a, p) ∈ W1.mapPublishNotifiers ↔
        (W1.heap p).address = a ∧ (W1.heap p).psocket ≠ 0) ∧
      (W1.count a = 0 → W1.zmq.endpoints a = []) := by
  have hInv0 : Inv (World.start ok heap) := Inv_start ok heap hheap
  have hInv : Inv W1 :=
    Inv_run LookupHost ops (World.start ok heap) W1 bs hInv0 hkeep hrun hsucc
  have hhist : ∀ p, ((W1.heap p).psocket ≠ 0 ↔ initialisedAfter p false ops bs = true) ∧
      (W1.heap p).address = (heap p).address := by
    intro p
    exact run_initialised LookupHost p ops (World.start ok heap) W1 bs false hInv0 hkeep hrun
      hsucc (by
        show (heap p).psocket ≠ 0 ↔ false = true
        simp [hheap p])
  have hreg : ∀ p, (a, p) ∈ W1.mapPublishNotifiers ↔
      (W1.heap p).address = a ∧ (W1.heap p).psocket ≠ 0 := by
    intro p
    constructor
    · intro h
      exact ⟨hInv.reg_addr _ h, hInv.reg_sock _ h⟩
    · rintro ⟨h1, h2⟩
      have := hInv.unreg p h2
      rwa [h1] at this
  have hone : (∃ p, (W1.heap p).address = a ∧ (W1.heap p).psocket ≠ 0) →
      (W1.zmq.endpoints a).length = 1 := by
    rintro ⟨p, hp⟩
    obtain ⟨h, _, _, hend⟩ := hInv.shared a ⟨(a, p), (hreg p).2 hp, rfl⟩
    rw [hend]
    rfl
  have hzero : (¬ ∃ p, (W1.heap p).address = a ∧ (W1.heap p).psocket ≠ 0) →
      W1.zmq.endpoints a = [] := by
    intro hno
    apply hInv.absent a
    intro e he hea
    apply hno
    refine ⟨e.2, ?_, hInv.reg_sock e he⟩
    rw [hInv.reg_addr e he, hea]
  refine ⟨?_, ?_, fun p => (hhist p).1, fun p => (hhist p).2, hone, ?_, ?_, hreg, ?_⟩
  · rintro ⟨p, hpa, hpi⟩
    exact hone ⟨p, by rw [(hhist p).2, hpa], (hhist p).1.mpr hpi⟩
  · intro hno
    apply hzero
    rintro ⟨p, hpa, hps⟩
    exact hno ⟨p, by rw [← (hhist p).2, hpa], (hhist p).1.mp hps⟩
  · intro hno
    rw [hzero hno]
    rfl
  · intro p q hp hq
    obtain ⟨h, hne, hall, hend⟩ := hInv.shared a ⟨(a, p), hp, rfl⟩
    have e1 : (W1.heap p).psocket = h := hall (a, p) hp rfl
    have e2 : (W1.heap q).psocket = h := hall (a, q) hq rfl
    rw [e1, e2]
    exact ⟨rfl, hne, hend⟩
  · intro hc
    apply hInv.absent a
    intro e he hea
    have : e ∈ W1.mapPublishNotifiers.filter (fun e => e.1 == a) := by
      rw [List.mem_filter]
      exact ⟨he, by simpa using hea⟩
    rw [World.count, List.length_eq_zero] at hc
    rw [hc] at this
    cases this

theorem one_endpoint_per_address_witness :
    (∀ p, (sampleHeap p).psocket = 0) ∧
      World.run noIPv6 (World.start (fun _ => true) sampleHeap)
          [Op.Initialize 1 0, Op.Initialize 2 0, Op.Shutdown 1]
        = some ([true, true, true], sampleWorldLeft) ∧
      initialisedAfter 2 false [Op.Initialize 1 0, Op.Initialize 2 0, Op.Shutdown 1]
        [true, true, true] = true ∧
      (Zmq.endpoints sampleWorldLeft.zmq sampleAddress).length = 1 ∧
      Zmq.endpoints sampleWorldLeft.zmq sampleAddress = [1] ∧
      World.run noIPv6 (World.start (fun _ => true) sampleHeap)
          [Op.Initialize 1 0, Op.Initialize 2 0, Op.Shutdown 1, Op.Shutdown 2]
        = some ([true, true, true, true], sampleWorldClosed) ∧
      (¬ ∃ p, (sampleHeap p).address = sampleAddress ∧
        initialisedAfter p false
          [Op.Initialize 1 0, Op.Initialize 2 0, Op.Shutdown 1, Op.Shutdown 2]
          [true, true, true, true] = true) ∧
      Zmq.endpoints sampleWorldClosed.zmq sampleAddress = [] := by
  have hnone : ¬ ∃ p, (sampleHeap p).address = sampleAddress ∧
      initialisedAfter p false
        [Op.Initialize 1 0, Op.Initialize 2 0, Op.Shutdown 1, Op.Shutdown 2]
        [true, true, true, true] = true := by
    rintro ⟨p, _, hp⟩
    simp only [initialisedAfter] at hp
    by_cases h1 : 1 = p
    · subst h1
      simp at hp
    · by_cases h2 : 2 = p
      · subst h2
        simp at hp
      · simp [h1, h2] at hp
  exact ⟨fun _ => rfl, rfl, rfl,
    (one_endpoint_per_address noIPv6 (fun _ => true) sampleHeap
      [Op.Initialize 1 0, Op.Initialize 2 0, Op.Shutdown 1] [true, true, true]
      sampleWorldLeft (fun _ => rfl) (by decide) rfl rfl sampleAddress).1 ⟨2, rfl, rfl⟩,
    by decide, rfl, hnone,
    (one_endpoint_per_address noIPv6 (fun _ => true) sampleHeap
      [Op.Initialize 1 0, Op.Initialize 2 0, Op.Shutdown 1, Op.Shutdown 2]
      [true, true, true, true] sampleWorldClosed (fun _ => rfl) (by decide) rfl rfl
      sampleAddress).2.1 hnone⟩

/-- Claim C15: `Initialize` on an uninitialised notifier whose address is
Absent from the table returns true if and only if the library accepts all five
calls (socket creation, high-water-mark, keep-alive, IPv6 option, bind). When
one is rejected it returns false, the table is what it was, nothing is called
after the rejected call except `zmq_close` on the socket that was created, and
that close is the last call. When all succeed the table has gained the
notifier's entry and holds exactly one entry for the address. -/
theorem Initialize_failure_leaves_table (LookupHost : String → Bool) (this pcontext : Nat)
    (W : World) (h0 : (W.heap this).psocket = 0)
    (habsent : ∀ e ∈ W.mapPublishNotifiers, e.1 ≠ (W.heap this).address) :
    ∃ b W1, CZMQAbstractPublishNotifier.Initialize LookupHost this pcontext W = some (b, W1) ∧
      (b = true ↔ ∀ k, k < 5 → W.zmq.ok (W.zmq.calls.length + k) = true) ∧
      (b = false →
        W1.mapPublishNotifiers = W.mapPublishNotifiers ∧
        W1.count (W.heap this).address = 0 ∧
        (W.zmq.ok W.zmq.calls.length = false →
          W1.zmq.calls = W.zmq.calls ++ [.zmq_socket pcontext ZMQ_PUB]) ∧
        (W.zmq.ok W.zmq.calls.length = true →
          ∃ done, done <+: initializeCalls LookupHost pcontext (W.zmq.calls.length + 1)
              (W.heap this) ∧
            W1.zmq.calls = W.zmq.calls ++ done ++ [.zmq_close (W.zmq.calls.length + 1)])) ∧
      (b = true →
        W1.mapPublishNotifiers = W.mapPublishNotifiers ++ [((W.heap this).address, this)] ∧
        W1.count (W.heap this).address = 1 ∧
        (W1.heap this).psocket = W.zmq.calls.length + 1 ∧
        W1.zmq.calls = W.zmq.calls ++
          initializeCalls LookupHost pcontext (W.zmq.calls.length + 1) (W.heap this)) := by
  have hfind : W.mapPublishNotifiers.find? (fun e => e.1 == (W.heap this).address) = none := by
    rw [List.find?_eq_none]
    intro e he
    simpa using habsent e he
  have hcount : (W.mapPublishNotifiers.filter (fun e => e.1 == (W.heap this).address)).length
      = 0 := by
    rw [List.length_eq_zero, List.filter_eq_nil_iff]
    intro e he
    simpa using habsent e he
  by_cases hall : ∀ k, k < 5 → W.zmq.ok (W.zmq.calls.length + k) = true
  · refine ⟨true, _, Initialize_absent_ok LookupHost this pcontext W h0 hfind hall, ?_, ?_, ?_⟩
    · exact ⟨fun _ => hall, fun _ => rfl⟩
    · intro h; cases h
    · intro _
      refine ⟨rfl, ?_, ?_, rfl⟩
      · simp only [World.count, List.filter_append, List.length_append, hcount]
        simp
      · simp
  · have hex : ∃ k, k < 5 ∧ W.zmq.ok (W.zmq.calls.length + k) = false := by
      by_contra hne
      apply hall
      intro k hk
      cases hv : W.zmq.ok (W.zmq.calls.length + k) with
      | true => rfl
      | false => exact absurd ⟨k, hk, hv⟩ hne
    obtain ⟨k, hk, hv⟩ := hex
    obtain ⟨j, hj, hbefore, hfail⟩ := first_rejection W.zmq.ok W.zmq.calls.length 5 k hk hv
    refine ⟨false, _, Initialize_absent_fail_at LookupHost this pcontext W h0 hfind j hj hbefore
      hfail, ?_, ?_, ?_⟩
    · constructor
      · intro h; cases h
      · intro h; exact absurd h hall
    · intro _
      refine ⟨rfl, hcount, ?_, ?_⟩
      · intro hzero
        have hj0 : j = 0 := by
          by_contra hne
          have := hbefore 0 (Nat.pos_of_ne_zero hne)
          rw [Nat.add_zero, hzero] at this
          cases this
        subst hj0
        simp [initializeCalls]
      · intro hone
        have hj0 : j ≠ 0 := by
          intro hz
          subst hz
          rw [Nat.add_zero, hone] at hfail
          cases hfail
        exact ⟨(initializeCalls LookupHost pcontext (W.zmq.calls.length + 1)
          (W.heap this)).take (j + 1), List.take_prefix _ _, by simp [hj0]⟩
    · intro h; cases h

theorem Initialize_failure_leaves_table_witness :
    (sampleWorldRejecting.heap 1).psocket = 0 ∧
      (∀ e ∈ sampleWorldRejecting.mapPublishNotifiers,
        e.1 ≠ (sampleWorldRejecting.heap 1).address) ∧
      CZMQAbstractPublishNotifier.Initialize noIPv6 1 0 sampleWorldRejecting
        = some (false,
            { zmq := ⟨initializeCalls noIPv6 0 1 (sampleHeap 1) ++ [.zmq_close 1],
                fun n => n != 4⟩,
              heap := Function.update sampleHeap 1 { sampleHeap 1 with psocket := 1 },
              mapPublishNotifiers := [] }) ∧
      ∃ b W1, CZMQAbstractPublishNotifier.Initialize noIPv6 1 0 sampleWorldRejecting
          = some (b, W1) ∧
        (b = true ↔ ∀ k, k < 5 →
          sampleWorldRejecting.zmq.ok (sampleWorldRejecting.zmq.calls.length + k) = true) :=
  ⟨rfl, by simp [sampleWorldRejecting, World.start], rfl,
    by
      obtain ⟨b, W1, h1, h2, _⟩ := Initialize_failure_leaves_table noIPv6 1 0
        sampleWorldRejecting rfl (by simp [sampleWorldRejecting, World.start])
      exact ⟨b, W1, h1, h2⟩⟩

/-- Claim C16: `Shutdown` on a notifier whose socket is null changes nothing:
the library, the table and every notifier stay as they were. After any
`Shutdown` the socket is null, so a second `Shutdown` changes nothing more. -/
theorem Shutdown_idempotent (this : Nat) (W : World) :
    ((W.heap this).psocket = 0 → CZMQAbstractPublishNotifier.Shutdown this W = W) ∧
      ((CZMQAbstractPublishNotifier.Shutdown this W).heap this).psocket = 0 ∧
      CZMQAbstractPublishNotifier.Shutdown this (CZMQAbstractPublishNotifier.Shutdown this W)
        = CZMQAbstractPublishNotifier.Shutdown this W := by
  have hnull : ((CZMQAbstractPublishNotifier.Shutdown this W).heap this).psocket = 0 := by
    by_cases h : (W.heap this).psocket = 0
    · simp [CZMQAbstractPublishNotifier.Shutdown, h]
    · simp [CZMQAbstractPublishNotifier.Shutdown, h]
  have hnoop : ∀ W0 : World, (W0.heap this).psocket = 0 →
      CZMQAbstractPublishNotifier.Shutdown this W0 = W0 := by
    intro W0 h
    simp [CZMQAbstractPublishNotifier.Shutdown, h]
  exact ⟨hnoop W, hnull, hnoop _ hnull⟩

/-- Claim C17: each of the 13 callbacks of `CZMQAbstractNotifier` returns true
and leaves the notifier and the library as they were, for every argument; so
does the virtual call of a callback on a publisher that does not override it:
it returns true, sends nothing and keeps the counter. -/
theorem unoverridden_callbacks (env : Env) (kind : Publisher)
    (self : CZMQAbstractPublishNotifier) (w : Zmq) (e : Event)
    (pindex : CBlockIndex) (transaction tx_replacement : CTransaction)
    (fee fee_replacement reason : Int) (mempool_sequence : Nat)
    (h : kind.overrides e.callback = false) :
    kind.notify env self w e = some (true, self, w) ∧
      Callback.all.length = 13 ∧
      CZMQAbstractNotifier.NotifyBlock self w pindex = some (true, self, w) ∧
      CZMQAbstractNotifier.NotifyBlockConnect self w pindex = some (true, self, w) ∧
      CZMQAbstractNotifier.NotifyBlockDisconnect self w pindex = some (true, self, w) ∧
      CZMQAbstractNotifier.NotifyTransactionAcceptance self w transaction mempool_sequence
        = some (true, self, w) ∧
      CZMQAbstractNotifier.NotifyTransactionRemoval self w transaction mempool_sequence
        = some (true, self, w) ∧
      CZMQAbstractNotifier.NotifyTransactionRemovalReason self w transaction reason
        = some (true, self, w) ∧
      CZMQAbstractNotifier.NotifyTransaction self w transaction = some (true, self, w) ∧
      CZMQAbstractNotifier.NotifyTransactionFee self w transaction fee = some (true, self, w) ∧
      CZMQAbstractNotifier.NotifyTransactionReplaced self w transaction fee tx_replacement
        fee_replacement = some (true, self, w) ∧
      CZMQAbstractNotifier.NotifyMempoolTransactionConfirmed self w transaction pindex
        = some (true, self, w) ∧
      CZMQAbstractNotifier.NotifyChainTipChanged self w pindex = some (true, self, w) ∧
      CZMQAbstractNotifier.NotifyChainBlockConnected self w pindex = some (true, self, w) ∧
      CZMQAbstractNotifier.NotifyChainHeaderAdded self w pindex = some (true, self, w) := by
  refine ⟨?_, rfl, rfl, rfl, rfl, rfl, rfl, rfl, rfl, rfl, rfl, rfl, rfl, rfl, rfl⟩
  cases kind <;> cases e <;> first | rfl | cases h

theorem unoverridden_callbacks_witness :
    Publisher.HashBlock.overrides (Event.NotifyTransaction sampleTx).callback = false ∧
      Publisher.HashBlock.notify sampleEnv (notifierAt 7) acceptingZmq
          (Event.NotifyTransaction sampleTx)
        = some (true, notifierAt 7, acceptingZmq) ∧
      Publisher.Sequence.overrides (Event.NotifyBlock ⟨sampleHash⟩).callback = false ∧
      Publisher.Sequence.notify sampleEnv (notifierAt 7) acceptingZmq
          (Event.NotifyBlock ⟨sampleHash⟩)
        = some (true, notifierAt 7, acceptingZmq) :=
  ⟨rfl,
    (unoverridden_callbacks sampleEnv .HashBlock (notifierAt 7) acceptingZmq
      (.NotifyTransaction sampleTx) ⟨sampleHash⟩ sampleTx sampleTx 0 0 0 0 rfl).1,
    rfl,
    (unoverridden_callbacks sampleEnv .Sequence (notifierAt 7) acceptingZmq
      (.NotifyBlock ⟨sampleHash⟩) ⟨sampleHash⟩ sampleTx sampleTx 0 0 0 0 rfl).1⟩

/-- Claim C18: along any operations the counter of a notifier advances by the
number of its own successful sends, modulo 2 ^ 32, and by nothing else: a
send on another notifier, successful or not, leaves the notifier as it was,
whatever sockets the two hold; `Initialize` and `Shutdown` of any notifier
leave every counter as it was; and a notifier that is shut down and
initialised again has the counter it had before. -/
theorem counter_only_changed_by_sends (LookupHost : String → Bool) (W W1 : World)
    (ops : List Op) (bs : List Bool) (q : Nat) (hq : (W.heap q).nSequence < 2 ^ 32)
    (hrun : World.run LookupHost W ops = some (bs, W1)) :
    (W1.heap q).nSequence = ((W.heap q).nSequence + sendsOf q ops bs) % 2 ^ 32 ∧
      (∀ p c b W2, p ≠ q → W.step LookupHost (.Send p c) = some (b, W2) →
        W2.heap q = W.heap q) ∧
      (∀ c W2, W.step LookupHost (.Send q c) = some (false, W2) → W2.heap q = W.heap q) ∧
      (∀ p pcontext b W2,
        CZMQAbstractPublishNotifier.Initialize LookupHost p pcontext W = some (b, W2) →
        (W2.heap q).nSequence = (W.heap q).nSequence) ∧
      (∀ p, ((CZMQAbstractPublishNotifier.Shutdown p W).heap q).nSequence
        = (W.heap q).nSequence) ∧
      (∀ pcontext b W2,
        CZMQAbstractPublishNotifier.Initialize LookupHost q pcontext
            (CZMQAbstractPublishNotifier.Shutdown q W) = some (b, W2) →
        (W2.heap q).nSequence = (W.heap q).nSequence) := by
  have hInit : ∀ (W0 : World) p pcontext b W2,
      CZMQAbstractPublishNotifier.Initialize LookupHost p pcontext W0 = some (b, W2) →
      (W2.heap q).nSequence = (W0.heap q).nSequence := by
    intro W0 p pcontext b W2 h
    obtain ⟨s, hs⟩ := Initialize_frame LookupHost p pcontext W0 W2 b h
    rw [hs]
    by_cases hqp : q = p
    · subst hqp; simp
    · simp [Function.update_noteq hqp]
  have hShut : ∀ p, ((CZMQAbstractPublishNotifier.Shutdown p W).heap q).nSequence
      = (W.heap q).nSequence := by
    intro p
    obtain ⟨s, hs⟩ := Shutdown_frame p W
    rw [hs]
    by_cases hqp : q = p
    · subst hqp; simp
    · simp [Function.update_noteq hqp]
  refine ⟨run_counter LookupHost q ops W W1 bs hq hrun, ?_, ?_, hInit W, hShut, ?_⟩
  · intro p c b W2 hpq h
    simp only [World.step] at h
    split at h
    · cases h
    · simp only [Option.some.injEq, Prod.mk.injEq] at h
      rw [← h.2]
      exact Function.update_noteq (Ne.symm hpq) _ _
  · intro c W2 h
    simp only [World.step] at h
    split at h
    · cases h
    · rename_i b self1 w1 heq
      simp only [Option.some.injEq, Prod.mk.injEq] at h
      obtain ⟨hb, rfl⟩ := h
      subst hb
      have := c.run_result _ _ _ _ _ heq
      simpa using this
  · intro pcontext b W2 h
    rw [hInit _ q pcontext b W2 h, hShut q]

theorem counter_only_changed_by_sends_witness :
    (sampleWorld2.heap 2).nSequence < 2 ^ 32 ∧
      World.run noIPv6 sampleWorld2 sampleOps = some ([true, true, true, true], sampleWorldSent) ∧
      (sampleWorldSent.heap 2).nSequence
        = ((sampleWorld2.heap 2).nSequence + sendsOf 2 sampleOps [true, true, true, true])
          % 2 ^ 32 ∧
      sendsOf 2 sampleOps [true, true, true, true] = 1 :=
  ⟨by decide, rfl,
    (counter_only_changed_by_sends noIPv6 sampleWorld2 sampleWorldSent sampleOps
      [true, true, true, true] 2 (by decide) rfl).1, rfl⟩

/-- Claim C19: the outbound high-water-mark of a constructed notifier is
100000; `SetOutboundMessageHighWaterMark (n)` makes the getter return `n` when
`n ≥ 0` and leaves the notifier as it was when `n < 0`, and in either case
touches no other field; hence the high-water-mark of every notifier is at
least 0 after any operations on constructed notifiers. -/
theorem high_water_mark_nonneg (LookupHost : String → Bool) (ok : Nat → Bool) (ops : List Op)
    (self : CZMQAbstractPublishNotifier) (n : Int) :
    CZMQAbstractPublishNotifier.new.GetOutboundMessageHighWaterMark = 100000 ∧
      (0 ≤ n → (self.SetOutboundMessageHighWaterMark n).GetOutboundMessageHighWaterMark = n) ∧
      (n < 0 → self.SetOutboundMessageHighWaterMark n = self) ∧
      (self.SetOutboundMessageHighWaterMark n).psocket = self.psocket ∧
      (self.SetOutboundMessageHighWaterMark n).type = self.type ∧
      (self.SetOutboundMessageHighWaterMark n).address = self.address ∧
      (self.SetOutboundMessageHighWaterMark n).nSequence = self.nSequence ∧
      (∀ bs W1,
        World.run LookupHost (World.start ok (fun _ => CZMQAbstractPublishNotifier.new)) ops
          = some (bs, W1) →
        ∀ q, 0 ≤ (W1.heap q).GetOutboundMessageHighWaterMark) := by
  refine ⟨rfl, ?_, ?_, ?_, ?_, ?_, ?_, ?_⟩
  · intro h
    simp [CZMQAbstractPublishNotifier.SetOutboundMessageHighWaterMark,
      CZMQAbstractPublishNotifier.GetOutboundMessageHighWaterMark, h]
  · intro h
    simp [CZMQAbstractPublishNotifier.SetOutboundMessageHighWaterMark, Int.not_le.mpr h]
  · unfold CZMQAbstractPublishNotifier.SetOutboundMessageHighWaterMark
    split <;> rfl
  · unfold CZMQAbstractPublishNotifier.SetOutboundMessageHighWaterMark
    split <;> rfl
  · unfold CZMQAbstractPublishNotifier.SetOutboundMessageHighWaterMark
    split <;> rfl
  · unfold CZMQAbstractPublishNotifier.SetOutboundMessageHighWaterMark
    split <;> rfl
  · intro bs W1 h
    exact run_hwm LookupHost ops _ W1 bs (fun _ => (by decide : (0 : Int) ≤ 100000)) h

/-- Claim C20, as the spec states it, fails: "tcp://tcp://" has the form
"tcp://" ++ host ++ ":" ++ port with host "tcp" and port "//"; the port holds
no ':' and the host does not contain "tcp://", yet "tcp://" occurs again at
position 6, so the function returns false without calling the resolver,
whatever the resolver would say of "tcp". -/
theorem IsZMQAddressIPV6_later_prefix :
    ¬ ∀ (LookupHost : String → Bool) (host port : String),
        ':' ∉ port.toList → ¬ "tcp://".toList <:+: host.toList →
        IsZMQAddressIPV6 LookupHost ("tcp://" ++ host ++ ":" ++ port) = LookupHost host := by
  intro h
  have h1 := h (fun _ => true) "tcp" "//" (by decide)
    (by
      intro hin
      have := hin.length_le
      revert this
      decide)
  have h2 : IsZMQAddressIPV6 (fun _ => true) ("tcp://" ++ "tcp" ++ ":" ++ "//") = false := by
    decide
  rw [h2] at h1
  cases h1

/-- Claim C20, amended: `IsZMQAddressIPV6` returns false for every address
that does not begin with "tcp://" and for every address in which "tcp://"
occurs at a later position. For an address "tcp://" ++ host ++ ":" ++ port
whose port holds no ':' and in which "tcp://" does not occur within
host ++ ":" ++ port (the host of a length that a `size_t` holds), the resolver
is handed exactly the host and the result is its answer. `Initialize` sets
the option `ZMQ_IPV6` only to 1 when `IsZMQAddressIPV6` is true of the
notifier's address and to 0 otherwise, and it does set it once the three
calls before are accepted. -/
theorem IsZMQAddressIPV6_resolves_host (LookupHost : String → Bool) (host port : String)
    (hsize : host.length < 2 ^ 64) (hport : ':' ∉ port.toList)
    (hlater : ¬ "tcp://".toList <:+: (host ++ ":" ++ port).toList) :
    IsZMQAddressIPV6 LookupHost ("tcp://" ++ host ++ ":" ++ port) = LookupHost host ∧
      (∀ address : String, ¬ "tcp://".toList <+: address.toList →
        IsZMQAddressIPV6 LookupHost address = false) ∧
      (∀ (address : String) (i : Nat), 0 < i → "tcp://".toList <+: address.toList.drop i →
        IsZMQAddressIPV6 LookupHost address = false) ∧
      (∀ (this pcontext : Nat) (W W1 : World) (b : Bool),
        CZMQAbstractPublishNotifier.Initialize LookupHost this pcontext W = some (b, W1) →
        ∀ (sock : Nat) (v : Int),
          ZmqCall.zmq_setsockopt sock ZMQ_IPV6 v ∈ W1.zmq.calls.drop W.zmq.calls.length →
          v = if IsZMQAddressIPV6 LookupHost (W.heap this).address then 1 else 0) ∧
      (∀ (this pcontext : Nat) (W : World), (W.heap this).psocket = 0 →
        (∀ e ∈ W.mapPublishNotifiers, e.1 ≠ (W.heap this).address) →
        (∀ k, k < 3 → W.zmq.ok (W.zmq.calls.length + k) = true) →
        ∃ b W1,
          CZMQAbstractPublishNotifier.Initialize LookupHost this pcontext W = some (b, W1) ∧
          ZmqCall.zmq_setsockopt (W.zmq.calls.length + 1) ZMQ_IPV6
              (if IsZMQAddressIPV6 LookupHost (W.heap this).address then 1 else 0)
            ∈ W1.zmq.calls.drop W.zmq.calls.length) :=
  ⟨IsZMQAddressIPV6_host LookupHost host port hsize hport hlater,
    IsZMQAddressIPV6_of_not_prefix LookupHost,
    IsZMQAddressIPV6_of_later LookupHost,
    Initialize_ipv6_only LookupHost,
    Initialize_ipv6_set LookupHost⟩

theorem IsZMQAddressIPV6_resolves_host_witness :
    "[::1]".length < 2 ^ 64 ∧ ':' ∉ "28332".toList ∧
      ¬ "tcp://".toList <:+: ("[::1]" ++ ":" ++ "28332").toList ∧
      IsZMQAddressIPV6 loopbackIPv6 ("tcp://" ++ "[::1]" ++ ":" ++ "28332")
        = loopbackIPv6 "[::1]" ∧
      loopbackIPv6 "[::1]" = true :=
  ⟨by decide, by decide, by decide,
    (IsZMQAddressIPV6_resolves_host loopbackIPv6 "[::1]" "28332" (by decide) (by decide)
      (by decide)).1, by decide⟩

/-- Claim C21: for a first part and any further parts, each a buffer with the
size to send, the variadic `zmq_send_multipart` and the `zmq_message` overload
do the same: same return value, same calls. They take the parts in order, per
part `zmq_msg_init_size` with its length and `zmq_msg_send` with its bytes,
with `ZMQ_SNDMORE` on every part but the last and no flag on the last. At the
first call the library rejects they stop and return -1; they return 0 if and
only if every call is accepted, and then all parts have been sent. -/
theorem zmq_send_multipart_in_order (sock : Nat) (w : Zmq) (data : List Byte) (size : Nat)
    (rest : List (List Byte × Nat)) (parts : zmq_message) (hsize : size ≤ data.length)
    (hrest : ∀ p ∈ rest, p.2 ≤ p.1.length)
    (hparts : parts = data.take size :: rest.map (fun p => p.1.take p.2)) :
    zmq_send_multipart sock w data size (vaList rest)
        = some (zmq_send_multipart_message sock w parts) ∧
      (zmq_send_multipart_message sock w parts).2.ok = w.ok ∧
      ((∀ k, k < 2 * parts.length → w.ok (w.calls.length + k) = true) →
        zmq_send_multipart_message sock w parts
          = (0, ⟨w.calls ++ messageCalls sock parts, w.ok⟩)) ∧
      (∀ k, k < 2 * parts.length → (∀ j, j < k → w.ok (w.calls.length + j) = true) →
        w.ok (w.calls.length + k) = false →
        zmq_send_multipart_message sock w parts
          = (-1, ⟨w.calls ++ (messageCalls sock parts).take (k + 1), w.ok⟩)) ∧
      ((zmq_send_multipart_message sock w parts).1 = 0
        ↔ ∀ k, k < 2 * parts.length → w.ok (w.calls.length + k) = true) ∧
      ((zmq_send_multipart_message sock w parts).1 = 0 ∨
        (zmq_send_multipart_message sock w parts).1 = -1) ∧
      (messageCalls sock parts).length = 2 * parts.length ∧
      ∃ init last, parts = init ++ [last] ∧
        framesOf (messageCalls sock parts)
          = init.map (fun p => (⟨sock, p, ZMQ_SNDMORE⟩ : Frame)) ++ [⟨sock, last, 0⟩] := by
  have hlen : 0 + parts.length = parts.length := Nat.zero_add _
  have hiff := loop_zero_iff sock parts.length parts w 0 hlen
  refine ⟨?_, ( loop_prefix sock parts.length parts w 0 hlen).1,
    loop_succeeds sock parts.length parts w 0 hlen,
    fun k hk hbefore hfail => loop_stops sock parts.length parts w 0 k hlen hk hbefore hfail,
    hiff, ?_, messageCalls_length sock parts, ?_⟩
  · rw [hparts]
    exact zmq_send_multipart_eq_loop sock _ rest w data size 0 hsize hrest (by simp)
  · by_cases hall : ∀ k, k < 2 * parts.length → w.ok (w.calls.length + k) = true
    · exact Or.inl (hiff.mpr hall)
    · right
      have hex : ∃ k, k < 2 * parts.length ∧ w.ok (w.calls.length + k) = false := by
        by_contra hne
        apply hall
        intro k hk
        cases hv : w.ok (w.calls.length + k) with
        | true => rfl
        | false => exact absurd ⟨k, hk, hv⟩ hne
      obtain ⟨k, hk, hv⟩ := hex
      exact loop_fails sock parts.length parts w 0 k hk hv
  · have hne : parts ≠ [] := by rw [hparts]; simp
    refine ⟨parts.dropLast, parts.getLast hne, (List.dropLast_append_getLast hne).symm, ?_⟩
    have e := framesOf_messageCalls sock parts.dropLast (parts.getLast hne)
    rwa [List.dropLast_append_getLast hne] at e

theorem zmq_send_multipart_in_order_witness :
    2 ≤ ([1, 2, 3] : List Byte).length ∧
      (∀ p ∈ ([([4, 5], 2), ([6], 1)] : List (List Byte × Nat)), p.2 ≤ p.1.length) ∧
      zmq_send_multipart 5 (rejectingZmq 3) [1, 2, 3] 2 (vaList [([4, 5], 2), ([6], 1)])
        = some (zmq_send_multipart_message 5 (rejectingZmq 3) [[1, 2], [4, 5], [6]]) ∧
      zmq_send_multipart_message 5 (rejectingZmq 3) [[1, 2], [4, 5], [6]]
        = (-1, ⟨(rejectingZmq 3).calls
            ++ (messageCalls 5 [[1, 2], [4, 5], [6]]).take (3 + 1), (rejectingZmq 3).ok⟩) ∧
      (messageCalls 5 [[1, 2], [4, 5], [6]]).take (3 + 1)
        = [.zmq_msg_init_size 2, .zmq_msg_send 5 [1, 2] ZMQ_SNDMORE, .zmq_msg_init_size 2,
            .zmq_msg_send 5 [4, 5] ZMQ_SNDMORE] :=
  ⟨by decide, by decide,
    (zmq_send_multipart_in_order 5 (rejectingZmq 3) [1, 2, 3] 2 [([4, 5], 2), ([6], 1)]
      [[1, 2], [4, 5], [6]] (by decide) (by decide) rfl).1,
    (zmq_send_multipart_in_order 5 (rejectingZmq 3) [1, 2, 3] 2 [([4, 5], 2), ([6], 1)]
      [[1, 2], [4, 5], [6]] (by decide) (by decide) rfl).2.2.2.1 3 (by decide)
      (by decide) rfl,
    rfl⟩

/-- Claim C22: after an `Initialize` of notifier 1 whose bind is rejected (its
socket 1 is closed on the failure path) and a successful `Initialize` of
notifier 2 on the same address (socket 7), `Shutdown` of notifier 1 finds one
entry for the address and closes socket 1 again: that socket is closed twice,
it was not an open endpoint when `Shutdown` closed it, and the address has
another registered notifier, whose endpoint stays open. -/
theorem Shutdown_closes_twice :
    World.run noIPv6 sampleWorldRejecting [.Initialize 1 0, .Initialize 2 0]
        = some ([false, true], sampleWorldRebound) ∧
      (sampleWorldRejecting.mapPublishNotifiers = [] ∧
        ∀ p, (sampleWorldRejecting.heap p).psocket = 0) ∧
      (sampleWorldRebound.heap 1).psocket = 1 ∧
      sampleWorldRebound.mapPublishNotifiers = [(sampleAddress, 2)] ∧
      sampleWorldRebound.zmq.endpoints sampleAddress = [7] ∧
      sampleWorldRebound.zmq.calls.count (.zmq_close 1) = 1 ∧
      (CZMQAbstractPublishNotifier.Shutdown 1 sampleWorldRebound).zmq.calls
        = sampleWorldRebound.zmq.calls ++ [.zmq_setsockopt 1 ZMQ_LINGER 0, .zmq_close 1] ∧
      (CZMQAbstractPublishNotifier.Shutdown 1 sampleWorldRebound).zmq.calls.count (.zmq_close 1)
        = 2 ∧
      (CZMQAbstractPublishNotifier.Shutdown 1 sampleWorldRebound).zmq.calls.count
          (.zmq_socket 0 ZMQ_PUB) = 2 ∧
      (CZMQAbstractPublishNotifier.Shutdown 1 sampleWorldRebound).mapPublishNotifiers
        = [(sampleAddress, 2)] := by
  refine ⟨rfl, ⟨rfl, fun _ => rfl⟩, rfl, rfl, ?_, ?_, rfl, ?_, ?_, rfl⟩
  · decide
  · decide
  · decide
  · decide

/-- Claim C23: when the library rejects a call after `zmq_socket` succeeded,
`Initialize` returns false having closed the socket, and the notifier keeps
the handle of the closed socket: the `assert` of the destructor and the
`assert` at the start of a later `Initialize` fail. Only when `zmq_socket`
itself is rejected is the notifier left as it was, the handle null. -/
theorem Initialize_failure_keeps_handle :
    (sampleWorldRejecting.heap 1).psocket = 0 ∧
      CZMQAbstractPublishNotifier.Initialize noIPv6 1 0 sampleWorldRejecting
        = some (false, sampleWorldFailed) ∧
      (sampleWorldFailed.heap 1).psocket = 1 ∧
      sampleWorldFailed.zmq.calls.getLast? = some (.zmq_close 1) ∧
      CZMQAbstractNotifier.destructor (sampleWorldFailed.heap 1) = none ∧
      CZMQAbstractPublishNotifier.Initialize noIPv6 1 0 sampleWorldFailed = none ∧
      (∀ (LookupHost : String → Bool) (this pcontext : Nat) (W : World) (j : Nat),
        (W.heap this).psocket = 0 →
        (∀ e ∈ W.mapPublishNotifiers, e.1 ≠ (W.heap this).address) →
        0 < j → j < 5 → (∀ k, k < j → W.zmq.ok (W.zmq.calls.length + k) = true) →
        W.zmq.ok (W.zmq.calls.length + j) = false →
        ∃ W1, CZMQAbstractPublishNotifier.Initialize LookupHost this pcontext W
            = some (false, W1) ∧
          (W1.heap this).psocket = W.zmq.calls.length + 1 ∧
          CZMQAbstractNotifier.destructor (W1.heap this) = none ∧
          ∀ pcontext1, CZMQAbstractPublishNotifier.Initialize LookupHost this pcontext1 W1
            = none) ∧
      (∀ (LookupHost : String → Bool) (this pcontext : Nat) (W : World),
        (W.heap this).psocket = 0 →
        (∀ e ∈ W.mapPublishNotifiers, e.1 ≠ (W.heap this).address) →
        W.zmq.ok W.zmq.calls.length = false →
        ∃ W1, CZMQAbstractPublishNotifier.Initialize LookupHost this pcontext W
            = some (false, W1) ∧
          W1.heap = W.heap ∧ CZMQAbstractNotifier.destructor (W1.heap this) = some ()) := by
  refine ⟨rfl, rfl, rfl, rfl, rfl, rfl, ?_, ?_⟩
  · intro LookupHost this pcontext W j h0 habsent hj0 hj hbefore hfail
    have hfind : W.mapPublishNotifiers.find? (fun e => e.1 == (W.heap this).address)
        = none := by
      rw [List.find?_eq_none]
      intro e he
      simpa using habsent e he
    have hne : j ≠ 0 := Nat.pos_iff_ne_zero.mp hj0
    refine ⟨_, Initialize_absent_fail_at LookupHost this pcontext W h0 hfind j hj hbefore hfail,
      ?_, ?_, ?_⟩
    · simp [hne]
    · simp [CZMQAbstractNotifier.destructor, hne]
    · intro pcontext1
      simp [CZMQAbstractPublishNotifier.Initialize, hne]
  · intro LookupHost this pcontext W h0 habsent hfail
    have hfind : W.mapPublishNotifiers.find? (fun e => e.1 == (W.heap this).address)
        = none := by
      rw [List.find?_eq_none]
      intro e he
      simpa using habsent e he
    have h := Initialize_absent_fail_at LookupHost this pcontext W h0 hfind 0 (by decide)
      (fun k hk => absurd hk (Nat.not_lt_zero k)) (by rw [Nat.add_zero]; exact hfail)
    refine ⟨_, h, ?_, ?_⟩
    · simp only [if_true]
      have e : ({ W.heap this with psocket := 0 } : CZMQAbstractPublishNotifier) = W.heap this := by
        rw [← h0]
      rw [e, Function.update_eq_self]
    · simp [CZMQAbstractNotifier.destructor]

end ZmqPublish
